import Mathlib

/-!
# LWS state pool (`src/lws_state.c`)

A shallow embedding of the Lua state pool of nginx-lws: the checked allocator,
the search path rule, the eviction timer, creation, destruction, acquisition,
release and the protected run of a request.

Conventions of the embedding.

* `size_t`, `ngx_msec_t` and `ngx_atomic_uint_t` are 64-bit words (LP64): their
  arithmetic is on `Nat` reduced modulo `WORD = 2 ^ 64`.
* A pointer into the C heap handled by the allocators is a `Nat`, `0` being
  `NULL`. A pointer to a `lws_state_t` is the address of the record in the
  model heap, an `Option Nat` where it may be `NULL`. `ngx_calloc` returns
  fresh addresses: an address is never used for two records.
* What the C code obtains from libc, nginx or the Lua runtime is passed to the
  embedded function as an explicit value (an oracle), so that every outcome of
  the environment is covered by a universally quantified statement.
* One location configuration (one pool) and one worker are modelled.
* A function returns `none` where the C code has no defined behaviour (a `NULL`
  or dangling pointer is used) or where the list model of the nginx queue does
  not apply (a node linked twice, a node removed that is not linked).
* `lws_close_state` frees a record without calling `ngx_del_timer`. A record
  freed while its timer is set leaves its event in the nginx timer tree, in
  freed memory: the world keeps the list `dangling` of such records. The
  embedded functions give the effect of a call on the records, the timer tree
  being intact; `step`, which runs the events of a trace, returns `none` for an
  event that operates on the timer tree while the list is not empty, and a
  statement about the call that follows the destruction of a state assumes the
  list empty.
-/

namespace Lws

/-! ## Machine words -/

/-- Modulus of `size_t`, `ngx_msec_t` and `ngx_atomic_uint_t`. -/
def WORD : Nat := 2 ^ 64

/-- Unsigned addition of two words. -/
def wadd (a b : Nat) : Nat := (a + b) % WORD

/-- Unsigned subtraction of two words. -/
def wsub (a b : Nat) : Nat := (a + (WORD - b % WORD)) % WORD

/-- Unsigned multiplication of two words. -/
def wmul (a b : Nat) : Nat := (a * b) % WORD

/-- The constant `NGX_TIMER_INFINITE`, that is `(ngx_msec_t) -1`. -/
def NGX_TIMER_INFINITE : Nat := WORD - 1

/-! ## Lua values and the Lua stack -/

/-- Lua values, as far as `lws_state.c` handles them. A table is a reference
into the table store of the Lua state. -/
inductive LuaValue where
  | nil
  | boolean (b : Bool)
  | integer (i : Int)
  | string (s : List Char)
  | table (ref : Nat)
  | cfunction (name : String)
  | lightuserdata (p : Nat)
deriving DecidableEq, Repr

/-- Type tags returned by `lua_getglobal` and `lua_getfield`. -/
def LUA_TNIL : Nat := 0
def LUA_TBOOLEAN : Nat := 1
def LUA_TLIGHTUSERDATA : Nat := 2
def LUA_TNUMBER : Nat := 3
def LUA_TSTRING : Nat := 4
def LUA_TTABLE : Nat := 5
def LUA_TFUNCTION : Nat := 6

/-- The `lua_type` of a value. -/
def LuaValue.type : LuaValue → Nat
  | .nil => LUA_TNIL
  | .boolean _ => LUA_TBOOLEAN
  | .integer _ => LUA_TNUMBER
  | .string _ => LUA_TSTRING
  | .table _ => LUA_TTABLE
  | .cfunction _ => LUA_TFUNCTION
  | .lightuserdata _ => LUA_TLIGHTUSERDATA

/-- What `lua_gc` was asked to do. -/
inductive GcWhat where
  | count
  | countb
  | collect
deriving DecidableEq, Repr

/-- The part of a `lua_State` that `lws_state.c` reads and writes: the value
stack (bottom first), the globals, the table store, and a log of the `lua_gc`
calls made on it. `checked` records which allocator `lua_newstate` was given. -/
structure LuaState where
  stack : List LuaValue
  globals : String → LuaValue
  tables : Nat → String → LuaValue
  gc_log : List GcWhat
  checked : Bool

/-! ## The per-state record -/

/-- The fields of `ngx_event_t` used for the state timer. `key` is the absolute
expiry time `timer.key`. -/
structure TimerEvent where
  timer_set : Bool
  timedout : Bool
  key : Nat
deriving DecidableEq, Repr

/-- The record `lws_state_t`. `request_count` is a count of completed requests
and is kept unbounded (it cannot wrap within the life of a process). `L` is
`none` for the `NULL` pointer of a freshly zeroed record. -/
structure State where
  L : Option LuaState
  memory_used : Nat
  memory_max : Nat
  memory_monitor : Nat
  request_count : Nat
  time_max : Nat
  timeout : Nat
  tev : TimerEvent
  in_use : Bool
  close : Bool
  profiler : Nat

/-! ## Allocators -/

/-- A call made on the C heap by an allocator function. -/
inductive HeapCall where
  | free (ptr : Nat)
  | realloc (ptr : Nat) (nsize : Nat)
deriving DecidableEq, Repr

/-- Result of an allocator function: the returned pointer (`0` is `NULL`), the
user data afterwards, and the libc calls made. -/
structure AllocResult where
  ret : Nat
  state : State
  calls : List HeapCall

/-- The function `lws_alloc_unchecked`. The user data is `NULL`: the state is
passed through untouched. `realloc` is the value libc returns. -/
def lws_alloc_unchecked (realloc : Nat) (state : State) (ptr osize nsize : Nat) :
    AllocResult :=
  let _ := osize
  if nsize = 0 then
    { ret := 0, state := state, calls := [.free ptr] }
  else
    { ret := realloc, state := state, calls := [.realloc ptr nsize] }

/-- The function `lws_alloc_checked`. `realloc` is the value libc returns if
it is called (`0` on failure). -/
def lws_alloc_checked (realloc : Nat) (state : State) (ptr osize nsize : Nat) :
    AllocResult :=
  if nsize = 0 then
    { ret := 0
      state := { state with memory_used := wsub state.memory_used osize }
      calls := [.free ptr] }
  else
    let memory_used := wadd (wsub state.memory_used osize) nsize
    if memory_used > state.memory_max then
      { ret := 0, state := state, calls := [] }
    else
      let p := realloc
      if p ≠ 0 then
        { ret := p
          state := { state with memory_used := memory_used }
          calls := [.realloc ptr nsize] }
      else
        { ret := p, state := state, calls := [.realloc ptr nsize] }

/-- One call of the allocator by the Lua runtime, with libc's answer. -/
structure AllocCall where
  ptr : Nat
  osize : Nat
  nsize : Nat
  realloc : Nat
deriving DecidableEq, Repr

/-- A sequence of `lws_alloc_checked` calls on one state. -/
def alloc_checked_seq (state : State) : List AllocCall → State
  | [] => state
  | c :: cs =>
    alloc_checked_seq (lws_alloc_checked c.realloc state c.ptr c.osize c.nsize).state cs

/-- Every freeing call of the sequence (`nsize = 0`) gives back no more than is
accounted at the time of the call. -/
def FreesWithinUsed (state : State) : List AllocCall → Prop
  | [] => True
  | c :: cs =>
    (c.nsize = 0 → c.osize ≤ state.memory_used) ∧
      FreesWithinUsed (lws_alloc_checked c.realloc state c.ptr c.osize c.nsize).state cs

/-- The allocations the Lua runtime makes through the allocator installed in
`L`: the checked allocator accounts them in the state, the unchecked one has
no user data. -/
def lua_allocs (checked : Bool) (state : State) (calls : List AllocCall) : State :=
  if checked then alloc_checked_seq state calls else state

/-! ## The Lua C API, as used by `lws_state.c`

Stack index `i > 0` is the `i`-th value from the bottom of the current frame,
index `-i` the `i`-th from the top. An API call that raises a Lua error
returns `Except.error` with the message. -/

/-- Position in the stack list of a valid stack index. -/
def LuaState.slot (L : LuaState) (idx : Int) : Option Nat :=
  if 0 < idx then
    if idx.toNat ≤ L.stack.length then some (idx.toNat - 1) else none
  else if idx < 0 then
    if (-idx).toNat ≤ L.stack.length then some (L.stack.length - (-idx).toNat) else none
  else none

/-- The value at a stack index. -/
def LuaState.at (L : LuaState) (idx : Int) : Option LuaValue :=
  match L.slot idx with
  | some i => L.stack[i]?
  | none => none

/-- Push one value. -/
def lua_push (L : LuaState) (v : LuaValue) : LuaState :=
  { L with stack := L.stack ++ [v] }

/-- The call `lua_pop(L, n)`. -/
def lua_pop (L : LuaState) (n : Nat) : LuaState :=
  { L with stack := L.stack.take (L.stack.length - n) }

def lua_pushcfunction (L : LuaState) (name : String) : LuaState := lua_push L (.cfunction name)
def lua_pushlightuserdata (L : LuaState) (p : Nat) : LuaState := lua_push L (.lightuserdata p)
def lua_pushlstring (L : LuaState) (s : List Char) : LuaState := lua_push L (.string s)
def lua_pushliteral (L : LuaState) (s : List Char) : LuaState := lua_push L (.string s)
def lua_pushboolean (L : LuaState) (b : Bool) : LuaState := lua_push L (.boolean b)

/-- The call `lua_pushvalue(L, idx)`. An unacceptable index is an error. -/
def lua_pushvalue (L : LuaState) (idx : Int) : Except String LuaState :=
  match L.at idx with
  | some v => .ok (lua_push L v)
  | none => .error "invalid index"

/-- The call `lua_tolstring(L, idx, &len)`: the bytes of a string; a number is
converted to a string in place; anything else gives `NULL` and length 0. -/
def lua_tolstring (L : LuaState) (idx : Int) : LuaState × Option (List Char) :=
  match L.at idx, L.slot idx with
  | some (.string s), _ => (L, some s)
  | some (.integer i), some k =>
    ({ L with stack := L.stack.set k (.string (toString i).toList) }, some (toString i).toList)
  | _, _ => (L, none)

/-- The call `lua_toboolean(L, idx)`. -/
def lua_toboolean (L : LuaState) (idx : Int) : Bool :=
  match L.at idx with
  | some .nil => false
  | some (.boolean b) => b
  | some _ => true
  | none => false

/-- The call `lua_tointeger(L, idx)`: 0 when the value is not an integer. -/
def lua_tointeger (L : LuaState) (idx : Int) : Int :=
  match L.at idx with
  | some (.integer i) => i
  | _ => 0

/-- The call `lua_getglobal(L, name)`: pushes the global, returns its type. -/
def lua_getglobal (L : LuaState) (name : String) : Nat × LuaState :=
  ((L.globals name).type, lua_push L (L.globals name))

/-- The call `lua_getfield(L, idx, k)` on a table without metatable. -/
def lua_getfield (L : LuaState) (idx : Int) (k : String) : Except String (Nat × LuaState) :=
  match L.at idx with
  | some (.table r) => .ok ((L.tables r k).type, lua_push L (L.tables r k))
  | _ => .error "attempt to index a non-table value"

/-- The call `lua_setfield(L, idx, k)` on a table without metatable: stores the
value on top of the stack in field `k` and pops it. -/
def lua_setfield (L : LuaState) (idx : Int) (k : String) : Except String LuaState :=
  match L.at idx, L.at (-1) with
  | some (.table r), some v =>
    .ok (lua_pop { L with tables := Function.update L.tables r (Function.update (L.tables r) k v) } 1)
  | _, _ => .error "attempt to index a non-table value"

/-- The bytes a value contributes to a concatenation. -/
def LuaValue.concat_bytes : LuaValue → Option (List Char)
  | .string s => some s
  | .integer i => some (toString i).toList
  | _ => none

/-- Concatenation of a list of values, bottom first. -/
def concat_values : List LuaValue → Option (List Char)
  | [] => some []
  | v :: vs =>
    match v.concat_bytes, concat_values vs with
    | some a, some b => some (a ++ b)
    | _, _ => none

/-- The call `lua_concat(L, n)`: replaces the `n` values on top of the stack by
their concatenation. -/
def lua_concat (L : LuaState) (n : Nat) : Except String LuaState :=
  if n ≤ L.stack.length then
    match concat_values (L.stack.drop (L.stack.length - n)) with
    | some s => .ok (lua_push (lua_pop L n) (.string s))
    | none => .error "attempt to concatenate a non-string value"
  else .error "stack underflow"

/-- The call `lua_gc(L, what, 0)` as seen by the embedding: it is logged. -/
def lua_gc (L : LuaState) (what : GcWhat) : LuaState :=
  { L with gc_log := L.gc_log ++ [what] }

/-- The constant `LUA_LOADLIBNAME`. -/
def LUA_LOADLIBNAME : String := "package"

/-- Status codes of `lua_pcall`. -/
def LUA_OK : Nat := 0
def LUA_ERRRUN : Nat := 2

/-- The call `lua_pcall(L, nargs, nresults, msgh)` of a C function given by its
embedding `f`: the function runs in a frame holding its arguments; on success
the function and its arguments are replaced by `nresults` results, on error by
the error value. What the function did to globals and tables before it raised
the error is not tracked. -/
def lua_pcall_c (f : LuaState → Except String LuaState) (L : LuaState)
    (nargs nresults : Nat) : Nat × LuaState :=
  let base := L.stack.take (L.stack.length - (nargs + 1))
  let args := L.stack.drop (L.stack.length - nargs)
  match f { L with stack := args } with
  | .ok L1 =>
    let res := L1.stack.drop (L1.stack.length - nresults)
    (LUA_OK, { L1 with stack := base ++ (List.replicate (nresults - res.length) LuaValue.nil ++ res) })
  | .error e => (LUA_ERRRUN, { L with stack := base ++ [.string e.toList] })

/-! ## Search paths and initialization -/

/-- The function `lws_set_path`. -/
def lws_set_path (L : LuaState) (index : Int) (field : String) : Except String LuaState :=
  /- check path -/
  match lua_tolstring L index with
  | (L, path) =>
    let path_len := (path.getD []).length
    if path_len = 0 then .ok L
    else
      /- get loader -/
      match lua_getglobal L LUA_LOADLIBNAME with
      | (ty, L) =>
        if ty ≠ LUA_TTABLE then .error "failed to get loader"
        else
          /- process path -/
          let pushed : Except String LuaState :=
            if (path.getD []).head? = some '+' then
              match lua_getfield L (-1) field with
              | .error e => .error e
              | .ok (ty, L) =>
                if ty ≠ LUA_TSTRING then .error ("failed to get loader " ++ field)
                else
                  let L := lua_pushliteral L [';']
                  let L := lua_pushlstring L ((path.getD []).drop 1)
                  lua_concat L 3
            else lua_pushvalue L index
          match pushed with
          | .error e => .error e
          | .ok L =>
            match lua_setfield L (-2) field with
            | .error e => .error e
            | .ok L => .ok (lua_pop L 1)

/-- The library functions `lws_init` calls: `luaL_openlibs`, `luaL_requiref` of
the LWS library, and the call of `lws_open_profiler`. They belong to the Lua
runtime and to other files. -/
structure LuaLibs where
  luaL_openlibs : LuaState → Except String LuaState
  requiref_lws : LuaState → Except String LuaState
  call_open_profiler : LuaState → Except String LuaState

/-- The function `lws_init`, run with the two paths and the profiler flag at
stack indices 1 to 3. It returns no result. -/
def lws_init (libs : LuaLibs) (L : LuaState) : Except String LuaState :=
  /- open standard libraries -/
  match libs.luaL_openlibs L with
  | .error e => .error e
  | .ok L =>
    /- open LWS library -/
    match libs.requiref_lws L with
    | .error e => .error e
    | .ok L =>
      /- set paths -/
      match lws_set_path L 1 "path" with
      | .error e => .error e
      | .ok L =>
        match lws_set_path L 2 "cpath" with
        | .error e => .error e
        | .ok L =>
          /- open profiler -/
          if lua_toboolean L 3 then libs.call_open_profiler L else .ok L

/-- The allocator installed in the Lua state of `state`. -/
def State.checked (state : State) : Bool :=
  match state.L with
  | some L => L.checked
  | none => false

/-! ## Timers (nginx event timer interface) -/

/-- The nginx call `ngx_del_timer`. -/
def ngx_del_timer (ev : TimerEvent) : TimerEvent :=
  { ev with timer_set := false }

/-- The nginx call `ngx_add_timer(ev, timer)` on an event whose timer is not
set (`lws_set_state_timer` deletes a set timer first): the expiry key is
`ngx_current_msec + timer`. The `timedout` flag is left as it is. -/
def ngx_add_timer (ngx_current_msec : Nat) (ev : TimerEvent) (timer : Nat) : TimerEvent :=
  { ev with key := wadd ngx_current_msec timer, timer_set := true }

/-- The function `lws_set_state_timer`. -/
def lws_set_state_timer (ngx_current_msec : Nat) (state : State) : State :=
  let state :=
    if state.tev.timer_set then { state with tev := ngx_del_timer state.tev } else state
  if state.time_max ≠ NGX_TIMER_INFINITE ∨ state.timeout ≠ NGX_TIMER_INFINITE then
    let next := if state.timeout < state.time_max then state.timeout else state.time_max
    { state with tev := ngx_add_timer ngx_current_msec state.tev (wsub next ngx_current_msec) }
  else state

/-! ## Configuration, monitor, request contexts and the world -/

/-- The shared monitor record (`lmcf->monitor`): three atomic counters and the
profiler setting. -/
structure Monitor where
  states_n : Nat
  memory_used : Nat
  request_count : Nat
  profiler : Nat
deriving DecidableEq, Repr

/-- The location configuration `lws_loc_conf_t`: the configured limits, the
queue `states` of idle states (head first, by address) and the live count
`states_n`. -/
structure LocConf where
  state_memory_max : Nat
  state_timeout : Nat
  state_time_max : Nat
  state_requests_max : Nat
  state_gc : Nat
  diagnostic : Bool
  path : List Char
  cpath : List Char
  states : List Nat
  states_n : Int
deriving DecidableEq, Repr

/-- The string `ctx->diagnostic` (an `ngx_str_t`); `data = none` is `NULL`. -/
structure Diagnostic where
  data : Option (List Char)
  len : Nat
deriving DecidableEq, Repr

/-- The fields of `lws_request_ctx_t` used here; `state = none` is `NULL`. -/
structure RequestCtx where
  state : Option Nat
  diagnostic : Diagnostic
deriving DecidableEq, Repr

/-- The memory of one worker: the live `lws_state_t` records by address, the
next fresh address, the records leaked by `lws_create_state`, the location
configuration, the monitor (`none` when monitoring is off), the request
contexts by identifier, the clock `ngx_current_msec`, and the addresses
`dangling` of the records that were freed while their timer was set: their
events are still in the nginx timer tree. The timer of a live state is part of
its record. -/
structure World where
  heap : Nat → Option State
  brk : Nat
  leaked : List Nat
  llcf : LocConf
  monitor : Option Monitor
  ctx : Nat → RequestCtx
  ngx_current_msec : Nat
  dangling : List Nat

/-- The nginx queue call `ngx_queue_remove`, on the list of members. Removing
what is not a member is outside the list model. -/
def ngx_queue_remove (q : List Nat) (x : Nat) : Option (List Nat) :=
  if x ∈ q then some (q.erase x) else none

/-- The nginx queue call `ngx_queue_insert_head`. Inserting a node that is
already linked corrupts the C queue and is outside the list model. -/
def ngx_queue_insert_head (q : List Nat) (x : Nat) : Option (List Nat) :=
  if x ∈ q then none else some (x :: q)

/-- The atomic `ngx_atomic_fetch_add(&value, add)`, single worker. -/
def ngx_atomic_fetch_add (value add : Nat) : Nat := wadd value add

/-- A record as `ngx_calloc` returns it: all fields zero. -/
def State.zero : State :=
  { L := none, memory_used := 0, memory_max := 0, memory_monitor := 0, request_count := 0,
    time_max := 0, timeout := 0, tev := { timer_set := false, timedout := false, key := 0 },
    in_use := false, close := false, profiler := 0 }

/-! ## Destruction -/

/-- The body of `lws_close_state` for the record `state` at address `a`. The
call `lua_close` frees the Lua state; the record is freed at the end. The
function does not call `ngx_del_timer`: when the timer of the record is set,
its event stays in the timer tree, and the address joins `dangling`. -/
def close_state_at (w : World) (a : Nat) (state : State) : World :=
  { w with
    llcf.states_n := w.llcf.states_n - 1
    monitor := w.monitor.map fun (m : Monitor) =>
      { m with
        states_n := ngx_atomic_fetch_add m.states_n (WORD - 1)
        memory_used := ngx_atomic_fetch_add m.memory_used (wsub 0 state.memory_monitor) }
    heap := Function.update w.heap a none
    dangling := if state.tev.timer_set then a :: w.dangling else w.dangling }

/-- The function `lws_close_state`, called with a pointer to a live record. -/
def lws_close_state (w : World) (a : Nat) : Option World :=
  match w.heap a with
  | none => none
  | some state => some (close_state_at w a state)

/-! ## Timer expiry -/

/-- The function `lws_state_timer_handler`. -/
def lws_state_timer_handler (w : World) (a : Nat) : Option World :=
  match w.heap a with
  | none => none
  | some state =>
    if !state.in_use then
      match ngx_queue_remove w.llcf.states a with
      | none => none
      | some q => lws_close_state { w with llcf.states := q } a
    else
      /- handled when request completes -/
      some w

/-- Expiry of the timer of the state at `a`, as `ngx_event_expire_timers` does
it: the timer is unset, `timedout` is set, and the handler is called. There is
no such event unless the timer is set. The expiry of the timer of a freed
record runs the handler on freed memory, which has no defined behaviour: the
result is `none`. -/
def ngx_event_expire_timer (w : World) (a : Nat) : Option World :=
  match w.heap a with
  | none => none
  | some state =>
    if state.tev.timer_set then
      let state := { state with tev := { state.tev with timer_set := false, timedout := true } }
      lws_state_timer_handler { w with heap := Function.update w.heap a (some state) } a
    else none

/-! ## Creation -/

/-- What the environment answers during `lws_create_state`: whether
`ngx_calloc` succeeds, the allocator calls made by `lua_newstate` and the Lua
state it returns (`none` is `NULL`), the allocator calls made while the
protected initialization runs, and the library functions of `lws_init`. -/
structure CreateOracle where
  calloc_ok : Bool
  newstate_allocs : List AllocCall
  newstate : Option LuaState
  init_allocs : List AllocCall
  libs : LuaLibs

/-- The block "create Lua state" of `lws_create_state`, on the zeroed record:
the quota is recorded and the checked allocator installed when a quota is
configured, the unchecked allocator otherwise. `L` is `none` when
`lua_newstate` fails. -/
def create_lua_state (o : CreateOracle) (state_memory_max : Nat) : State :=
  let state := State.zero
  if state_memory_max > 0 then
    let state := { state with memory_max := state_memory_max }
    let state := lua_allocs true state o.newstate_allocs
    { state with L := o.newstate.map fun (L : LuaState) => { L with checked := true } }
  else
    { state with L := o.newstate.map fun (L : LuaState) => { L with checked := false } }

/-- The block "set timer" of `lws_create_state`. -/
def create_set_timer (ngx_current_msec state_time_max : Nat) (state : State) : State :=
  let state :=
    if state_time_max ≠ 0 then
      { state with time_max := wadd ngx_current_msec state_time_max }
    else
      { state with time_max := NGX_TIMER_INFINITE }
  let state := { state with timeout := NGX_TIMER_INFINITE }
  lws_set_state_timer ngx_current_msec state

/-- The block "done" of `lws_create_state`: the counters are incremented; the
finished record `state` is the one at address `a`. -/
def create_done (w : World) (a : Nat) (state : State) : World :=
  { w with
    llcf.states_n := w.llcf.states_n + 1
    monitor := w.monitor.map fun (m : Monitor) =>
      { m with states_n := ngx_atomic_fetch_add m.states_n 1 }
    heap := Function.update w.heap a (some state) }

/-- The stack `lws_create_state` prepares for the protected call of `lws_init`. -/
def create_init_stack (L : LuaState) (path cpath : List Char) (monitored : Bool) : LuaState :=
  let L := lua_pushcfunction L "lws_init"
  let L := lua_pushlstring L path
  let L := lua_pushlstring L cpath
  lua_pushboolean L monitored

/-- The function `lws_create_state`: the address of the new state, or `none`
for `NULL`. The record is allocated at the fresh address `w.brk`; when
`lua_newstate` fails the function returns without freeing it. -/
def lws_create_state (o : CreateOracle) (w : World) : Option Nat × World :=
  /- create state -/
  if !o.calloc_ok then (none, w)
  else
    let a := w.brk
    let w := { w with brk := w.brk + 1 }
    /- create Lua state -/
    let state := create_lua_state o w.llcf.state_memory_max
    match state.L with
    | none => (none, { w with leaked := a :: w.leaked })
    | some L =>
      /- initialize Lua state -/
      let L := create_init_stack L w.llcf.path w.llcf.cpath w.monitor.isSome
      let state := lua_allocs L.checked state o.init_allocs
      match lua_pcall_c (lws_init o.libs) L 3 0 with
      | (status, L) =>
        let state := { state with L := some L }
        if status ≠ LUA_OK then
          (none, close_state_at w a state)
        else
          /- push traceback -/
          let L := lua_pushcfunction L "lws_traceback"
          let state := { state with L := some L }
          /- set timer -/
          let state := create_set_timer w.ngx_current_msec w.llcf.state_time_max state
          /- done -/
          (some a, create_done w a state)

/-! ## Acquisition and release -/

/-- The common tail of `lws_acquire_state`: the state at `a`, whose record is
`state`, is marked in use and bound to the context `c`. -/
def acquire_bind (w : World) (c a : Nat) (state : State) : World :=
  let state :=
    { state with
      profiler := match w.monitor with
        | some m => m.profiler
        | none => 0
      in_use := true }
  { w with
    heap := Function.update w.heap a (some state)
    ctx := Function.update w.ctx c { w.ctx c with state := some a } }

/-- What `lws_acquire_state` does to the record it pops from the queue. -/
def acquire_disarm (ngx_current_msec state_timeout : Nat) (state : State) : State :=
  if state_timeout > 0 then
    lws_set_state_timer ngx_current_msec { state with timeout := NGX_TIMER_INFINITE }
  else state

/-- The function `lws_acquire_state` on the context `c`: the returned integer
and the memory afterwards. -/
def lws_acquire_state (o : CreateOracle) (w : World) (c : Nat) : Option (Int × World) :=
  match w.llcf.states with
  | q :: rest =>
    match w.heap q with
    | none => none
    | some state =>
      let w := { w with llcf.states := rest }
      let state := acquire_disarm w.ngx_current_msec w.llcf.state_timeout state
      some (0, acquire_bind w c q state)
  | [] =>
    match lws_create_state o w with
    | (none, w) => some (-1, w)
    | (some a, w) =>
      match w.heap a with
      | none => none
      | some state => some (0, acquire_bind w c a state)

/-- What a pair of `lua_gc` calls `LUA_GCCOUNT`, `LUA_GCCOUNTB` returns. -/
structure GcCount where
  count : Nat
  countb : Nat
deriving DecidableEq, Repr

/-- The expression `(size_t)lua_gc(L, LUA_GCCOUNT, 0) * 1024 + lua_gc(L, LUA_GCCOUNTB, 0)`. -/
def GcCount.bytes (g : GcCount) : Nat := wadd (wmul g.count 1024) g.countb

/-- What the Lua runtime answers during `lws_release_state`: the usage counters
before the collection, the allocator calls made by the collection, and the
usage counters after it. -/
structure ReleaseOracle where
  before : GcCount
  collect_allocs : List AllocCall
  after : GcCount

/-- The statement that updates the used memory from the Lua state. -/
def update_memory_used (state : State) (g : GcCount) : State :=
  { state with
    memory_used := g.bytes
    L := state.L.map fun L => lua_gc (lua_gc L .count) .countb }

/-- The block "perform GC and update monitor as needed" of
`lws_release_state`, as far as the state record goes. -/
def release_collect (o : ReleaseOracle) (llcf : LocConf) (monitored : Bool) (state : State) :
    State :=
  let state :=
    if llcf.state_memory_max = 0 ∧ (llcf.state_gc > 0 ∨ monitored) then
      /- update used memory from Lua state -/
      update_memory_used state o.before
    else state
  let state :=
    if llcf.state_gc > 0 ∧ state.memory_used > llcf.state_gc then
      let state := { state with L := state.L.map fun (L : LuaState) => lua_gc L .collect }
      let state := lua_allocs state.checked state o.collect_allocs
      if llcf.state_memory_max = 0 then update_memory_used state o.after else state
    else state
  state

/-- The block "update timeout" of `lws_release_state`. -/
def release_rearm (ngx_current_msec state_timeout : Nat) (state : State) : State :=
  if state_timeout > 0 then
    lws_set_state_timer ngx_current_msec
      { state with timeout := wadd ngx_current_msec state_timeout }
  else state

/-- The test "close state?" of `lws_release_state`, on the record whose request
has been counted. -/
def release_closes (llcf : LocConf) (state : State) : Bool :=
  state.close || state.tev.timedout ||
    (decide (llcf.state_requests_max > 0) &&
      decide (state.request_count ≥ llcf.state_requests_max))

/-- The monitor update of the block "count request". -/
def release_count (monitor : Option Monitor) : Option Monitor :=
  monitor.map fun (m : Monitor) =>
    { m with request_count := ngx_atomic_fetch_add m.request_count 1 }

/-- The monitor update of the block "perform GC and update monitor as needed",
for the record `state` the collection leaves. -/
def release_monitor (monitor : Option Monitor) (state : State) : Option Monitor :=
  monitor.map fun (m : Monitor) =>
    { m with memory_used :=
        ngx_atomic_fetch_add m.memory_used (wsub state.memory_used state.memory_monitor) }

/-- The record `lws_release_state` puts back on the queue, from the record
whose request has been counted: collection, monitor bookkeeping, timeout
update, and `in_use` cleared. -/
def release_record (o : ReleaseOracle) (llcf : LocConf) (monitored : Bool)
    (ngx_current_msec : Nat) (state : State) : State :=
  let state := release_collect o llcf monitored state
  let state := if monitored then { state with memory_monitor := state.memory_used } else state
  let state := release_rearm ngx_current_msec llcf.state_timeout state
  { state with in_use := false }

/-- The function `lws_release_state` on the context `c`. -/
def lws_release_state (o : ReleaseOracle) (w : World) (c : Nat) : Option World :=
  /- count request -/
  match (w.ctx c).state with
  | none => none
  | some a =>
    match w.heap a with
    | none => none
    | some state =>
      let state := { state with request_count := state.request_count + 1 }
      let w := { w with monitor := release_count w.monitor }
      /- close state? -/
      let llcf := w.llcf
      if release_closes llcf state then
        some (close_state_at w a state)
      else
        /- perform GC and update monitor as needed -/
        let state := release_collect o llcf w.monitor.isSome state
        let monitor := release_monitor w.monitor state
        let state :=
          if w.monitor.isSome then { state with memory_monitor := state.memory_used } else state
        /- update timeout -/
        let state := release_rearm w.ngx_current_msec llcf.state_timeout state
        /- done -/
        let state := { state with in_use := false }
        match ngx_queue_insert_head llcf.states a with
        | none => none
        | some q =>
          some { w with
            monitor := monitor
            heap := Function.update w.heap a (some state)
            llcf.states := q }

/-! ## Protected run -/

/-- How the protected call of `lws_run` ends: with its result value, or with
the error value the traceback handler leaves. -/
inductive CallOutcome where
  | ok (result : LuaValue)
  | error (value : LuaValue)
deriving DecidableEq, Repr

/-- The call `lua_pcall(L, nargs, 1, msgh)` of a function that is not part of
this file: the function and its arguments are replaced by one value. Changes
the callee makes to globals and tables are not tracked. -/
def lua_pcall_ext (out : CallOutcome) (L : LuaState) (nargs : Nat) : Nat × LuaState :=
  let base := L.stack.take (L.stack.length - (nargs + 1))
  match out with
  | .ok v => (LUA_OK, { L with stack := base ++ [v] })
  | .error e => (LUA_ERRRUN, { L with stack := base ++ [e] })

/-- What the environment answers during `lws_run_state`: the allocator calls
made while the protected call runs, how the call ends, the message
`lws_get_msg` (from another file) reads off the error value, and whether
`ngx_alloc` of the diagnostic buffer succeeds. -/
structure RunOracle where
  allocs : List AllocCall
  outcome : CallOutcome
  lws_get_msg : LuaState → Int → List Char
  diag_alloc_ok : Bool

/-- Conversion of a `lua_Integer` to the C type `int` (32 bits). -/
def to_c_int (i : Int) : Int := Int.bmod i (2 ^ 32)

/-- The function `lws_run_state` on the context `c`: the returned integer and
the memory afterwards. -/
def lws_run_state (o : RunOracle) (w : World) (c : Nat) : Option (Int × World) :=
  match (w.ctx c).state with
  | none => none
  | some a =>
    match w.heap a with
    | none => none
    | some state =>
      match state.L with
      | none => none
      | some L =>
        /- prepare stack -/
        let L := lua_pushcfunction L "lws_run"
        let L := lua_pushlightuserdata L c
        /- call -/
        let state := lua_allocs L.checked state o.allocs
        match lua_pcall_ext o.outcome L 1 with
        | (status, L) =>
          if status = LUA_OK then
            let result := to_c_int (lua_tointeger L (-1))
            /- clear result -/
            let L := lua_pop L 1
            some (result,
              { w with heap := Function.update w.heap a (some { state with L := some L }) })
          else
            /- set error result, mark for close -/
            let result : Int := -1
            let state := { state with close := true }
            /- log error -/
            let msg := o.lws_get_msg L (-1)
            let diagnostic : Diagnostic :=
              if !w.llcf.diagnostic then (w.ctx c).diagnostic
              else if !o.diag_alloc_ok then { (w.ctx c).diagnostic with data := none }
              else { data := some msg, len := msg.length }
            /- clear result -/
            let L := lua_pop L 1
            some (result,
              { w with
                heap := Function.update w.heap a (some { state with L := some L })
                ctx := Function.update w.ctx c { w.ctx c with diagnostic := diagnostic } })

/-! ## Event sequences -/

/-- What can happen in a worker: a request context acquires, runs or releases,
the timer of a state expires, or the clock moves. -/
inductive Event where
  | acquire (c : Nat) (o : CreateOracle)
  | run (c : Nat) (o : RunOracle)
  | release (c : Nat) (o : ReleaseOracle)
  | timer (a : Nat)
  | tick (now : Nat)

/-- The memory of the worker together with a ghost list `held` of the request
contexts that have acquired a state and not yet released it. The C code keeps
no such list (`lws_release_state` leaves `ctx->state` as it is); the list is
only used to state which contexts are outstanding. -/
structure Sys where
  w : World
  held : List Nat

/-- One event, the nginx timer tree being intact. The result is `none` when the
event has no defined behaviour in C (a `NULL` or dangling pointer is used, a
queue node is linked twice) or cannot occur (expiry of a timer that is not
set). -/
def step_intact (s : Sys) : Event → Option Sys
  | .acquire c o =>
    match lws_acquire_state o s.w c with
    | none => none
    | some (r, w) => some { w := w, held := if r = 0 then s.held.insert c else s.held }
  | .run c o =>
    match lws_run_state o s.w c with
    | none => none
    | some (_, w) => some { s with w := w }
  | .release c o =>
    match lws_release_state o s.w c with
    | none => none
    | some w => some { w := w, held := s.held.erase c }
  | .timer a =>
    match ngx_event_expire_timer s.w a with
    | none => none
    | some w => some { s with w := w }
  | .tick now => some { s with w := { s.w with ngx_current_msec := now % WORD } }

/-- Whether the call `lws_set_state_timer(state)` operates on the nginx timer
tree: it calls `ngx_del_timer` when the timer is set, and `ngx_add_timer` when
one of the deadlines is finite. -/
def lws_set_state_timer_calls (state : State) : Bool :=
  state.tev.timer_set ||
    decide (state.time_max ≠ NGX_TIMER_INFINITE ∨ state.timeout ≠ NGX_TIMER_INFINITE)

/-- Whether the event operates on the nginx timer tree: an acquire that pops a
state with an idle timeout configured, or that creates a state and registers
its timer; a release that recycles the state with an idle timeout configured;
and the expiry of a timer, for which nginx searches the tree. In the first
cases the operation is the one of `lws_set_state_timer`. -/
def timer_ops (w : World) : Event → Bool
  | .acquire _ o =>
    match w.llcf.states with
    | q :: _ =>
      match w.heap q with
      | some state =>
        decide (w.llcf.state_timeout > 0) &&
          lws_set_state_timer_calls { state with timeout := NGX_TIMER_INFINITE }
      | none => false
    | [] =>
      match lws_create_state o w with
      | (some a, w1) =>
        match w1.heap a with
        | some state => state.tev.timer_set
        | none => false
      | (none, _) => false
  | .release c _ =>
    match (w.ctx c).state with
    | some a =>
      match w.heap a with
      | some state =>
        !release_closes w.llcf { state with request_count := state.request_count + 1 } &&
          decide (w.llcf.state_timeout > 0) &&
          lws_set_state_timer_calls
            { state with timeout := wadd w.ngx_current_msec w.llcf.state_timeout }
      | none => false
    | none => false
  | .timer _ => true
  | .run _ _ => false
  | .tick _ => false

/-- One event. The result is `none` when the event has no defined behaviour in
C: where `step_intact` has none, and where the event operates on the timer
tree while the timer of a freed record is still registered in it. -/
def step (s : Sys) (e : Event) : Option Sys :=
  if s.w.dangling ≠ [] ∧ timer_ops s.w e = true then none else step_intact s e

/-- Discipline of the callers as far as release and run go: they are only
called on a context that holds an acquired state. -/
def release_on_held (s : Sys) : Event → Bool
  | .release c _ => decide (c ∈ s.held)
  | .run c _ => decide (c ∈ s.held)
  | _ => true

/-- Full discipline of the callers: in addition, acquire is only called on a
context that does not hold a state. -/
def disciplined (s : Sys) : Event → Bool
  | .acquire c _ => decide (c ∉ s.held)
  | e => release_on_held s e

/-- No discipline at all. -/
def any_event (_ : Sys) (_ : Event) : Bool := true

/-- A sequence of events, each checked against the discipline `ok` before it is
run. The result is `none` if an event is refused or has no defined behaviour. -/
def exec (ok : Sys → Event → Bool) : Sys → List Event → Option Sys
  | s, [] => some s
  | s, e :: es =>
    if ok s e then
      match step s e with
      | none => none
      | some s1 => exec ok s1 es
    else none

/-- A worker at start: no state exists, no context holds one. `conf` gives the
configured limits. -/
def Sys.init (conf : LocConf) (monitor : Option Monitor) (now : Nat) : Sys :=
  { w :=
      { heap := fun _ => none
        brk := 1
        leaked := []
        llcf := { conf with states := [], states_n := 0 }
        monitor := monitor
        ctx := fun _ => { state := none, diagnostic := { data := none, len := 0 } }
        ngx_current_msec := now % WORD
        dangling := [] }
    held := [] }

/-! ## Ownership view -/

/-- What exclusive ownership is about: which addresses hold a state and
whether it is in use, the queue of idle states, the state each context points
to, the contexts that hold a state, and the next fresh address. -/
structure View where
  inuse : Nat → Option Bool
  states : List Nat
  owner : Nat → Option Nat
  held : List Nat
  brk : Nat

/-- The ownership view of a worker. -/
def Sys.view (s : Sys) : View :=
  { inuse := fun a => (s.w.heap a).map State.in_use
    states := s.w.llcf.states
    owner := fun c => (s.w.ctx c).state
    held := s.held
    brk := s.w.brk }

/-- Well-formed ownership: idle states are exactly the members of the queue,
states in use are exactly the states of the holding contexts, one each. -/
structure View.Owned (v : View) : Prop where
  below : ∀ a, v.inuse a ≠ none → a < v.brk
  free_idle : ∀ a ∈ v.states, v.inuse a = some false
  free_nodup : v.states.Nodup
  idle_free : ∀ a, v.inuse a = some false → a ∈ v.states
  held_nodup : v.held.Nodup
  held_bound : ∀ c ∈ v.held, ∃ a, v.owner c = some a ∧ v.inuse a = some true
  held_inj : ∀ c1 ∈ v.held, ∀ c2 ∈ v.held, v.owner c1 = v.owner c2 → c1 = c2
  used_held : ∀ a, v.inuse a = some true → ∃ c ∈ v.held, v.owner c = some a

/-- The invariant of the pool: well-formed ownership, and every live state has
a Lua state. -/
def Inv (s : Sys) : Prop :=
  s.view.Owned ∧ ∀ a st, s.w.heap a = some st → st.L ≠ none

/-- The property C3 speaks of: no two outstanding contexts reference the same
state, and every live state is either a member of the free list, idle and
referenced by no outstanding context, or outside the free list, in use and
referenced by exactly one outstanding context. -/
def ExclusiveOwnership (s : Sys) : Prop :=
  (∀ c1 ∈ s.held, ∀ c2 ∈ s.held, c1 ≠ c2 → (s.w.ctx c1).state ≠ (s.w.ctx c2).state) ∧
  ∀ a st, s.w.heap a = some st →
    (a ∈ s.w.llcf.states ∧ st.in_use = false ∧ ∀ c ∈ s.held, (s.w.ctx c).state ≠ some a) ∨
    (a ∉ s.w.llcf.states ∧ st.in_use = true ∧ ∃! c, c ∈ s.held ∧ (s.w.ctx c).state = some a)

/-- The fields of a state other than the accounted memory. -/
def State.rest (st : State) :
    Option LuaState × Nat × Nat × Nat × Nat × Nat × TimerEvent × Bool × Bool × Nat :=
  (st.L, st.memory_max, st.memory_monitor, st.request_count, st.time_max, st.timeout, st.tev,
    st.in_use, st.close, st.profiler)

/-- The fields of a state that the collection policy of release leaves alone
(of the Lua state, only whether there is one). -/
def State.kept (st : State) : Bool × Nat × Nat × Nat × Nat × TimerEvent × Bool × Bool :=
  (st.L.isSome, st.memory_monitor, st.request_count, st.time_max, st.timeout, st.tev, st.in_use,
    st.close)

/-- A live state in use that no outstanding context references. -/
def orphan (s : Sys) (a : Nat) : Bool :=
  match s.w.heap a with
  | some st => st.in_use && !(s.held.any fun c => (s.w.ctx c).state == some a)
  | none => false

/-- Limits of a location: idle timeout 5000 ms, at most 3 requests per state,
no quota, diagnostics on, default search paths. -/
def demo_conf : LocConf :=
  { state_memory_max := 0, state_timeout := 5000, state_time_max := 0, state_requests_max := 3,
    state_gc := 0, diagnostic := true, path := [], cpath := [], states := [], states_n := 0 }

/-- A fresh Lua state as `lua_newstate` returns it. -/
def demo_lua : LuaState :=
  { stack := [], globals := fun _ => .nil, tables := fun _ _ => .nil, gc_log := [],
    checked := false }

/-- Library functions that succeed. -/
def demo_libs : LuaLibs :=
  { luaL_openlibs := fun L => .ok L, requiref_lws := fun L => .ok L,
    call_open_profiler := fun L => .ok L }

/-- An environment in which creation succeeds. -/
def demo_create : CreateOracle :=
  { calloc_ok := true, newstate_allocs := [], newstate := some demo_lua, init_allocs := [],
    libs := demo_libs }

/-- An environment in which the protected initialization fails. -/
def demo_create_init_fails : CreateOracle :=
  { demo_create with libs := { demo_libs with luaL_openlibs := fun _ => .error "not enough memory" } }

/-- The Lua runtime reports 1029 bytes in use, 7 after a collection. -/
def demo_release : ReleaseOracle :=
  { before := { count := 1, countb := 5 }, collect_allocs := [], after := { count := 0, countb := 7 } }

/-- A request that runs to completion with result 200. -/
def demo_run_ok : RunOracle :=
  { allocs := [], outcome := .ok (.integer 200), lws_get_msg := fun _ _ => [],
    diag_alloc_ok := true }

/-- A request that raises an error. -/
def demo_run_fails : RunOracle :=
  { allocs := [], outcome := .error (.string ['o', 'o', 'p', 's']),
    lws_get_msg := fun _ _ => ['o', 'o', 'p', 's'], diag_alloc_ok := true }

/-- The limits of `demo_conf` with a maximum lifetime of 60000 ms and no idle
timeout. -/
def demo_conf_lifetime : LocConf :=
  { demo_conf with state_timeout := 0, state_time_max := 60000 }

/-- The pool a disciplined sequence of events reaches from the start of a
worker configured by `conf` without monitor (the start itself if the sequence
is refused). -/
def demo_sys (conf : LocConf) (es : List Event) : Sys :=
  (exec disciplined (Sys.init conf none 0) es).getD (Sys.init conf none 0)

/-- The value `memory_monitor` of the record at address `a`, 0 where there is
no record. -/
def monitored_at (heap : Nat → Option State) (a : Nat) : Nat :=
  match heap a with
  | some st => st.memory_monitor
  | none => 0

/-- The sum of `memory_monitor` over the live states. -/
def monitor_sum (w : World) : Nat :=
  ((List.range w.brk).map (monitored_at w.heap)).sum

/-- The accounting invariant of the monitor, for a worker whose monitor started
with `m0` bytes: every record is below `brk`, monitoring is on, and the
aggregate `memory_used` is a word equal, modulo the word size, to `m0` plus the
sum of `memory_monitor` over the live states. -/
def MonInv (m0 : Nat) (w : World) : Prop :=
  (∀ a st, w.heap a = some st → a < w.brk) ∧
  ∃ m, w.monitor = some m ∧ m.memory_used < WORD ∧
    (m.memory_used : ZMod WORD) =
      (m0 : ZMod WORD) + ∑ i in Finset.range w.brk, (monitored_at w.heap i : ZMod WORD)

/-- A monitor that starts with 4096 bytes accounted by other pools. -/
def demo_monitor : Monitor :=
  { states_n := 0, memory_used := 4096, request_count := 0, profiler := 0 }

/-- Whether the event `e`, run in `s`, is a release of the state at address `a`
(1 if it is, 0 if not). -/
def release_hits (s : Sys) (e : Event) (a : Nat) : Nat :=
  match e with
  | .release c _ => if (s.w.ctx c).state = some a then 1 else 0
  | _ => 0

/-- The number of releases of the state at address `a` in the sequence of
events `es` run from `s`. Addresses are not reused, so this counts the
releases of one state. -/
def releases_of (a : Nat) : Sys → List Event → Nat
  | _, [] => 0
  | s, e :: es =>
    release_hits s e a +
      match step s e with
      | some s1 => releases_of a s1 es
      | none => 0

/-- The bookkeeping invariant of the request counter, for the limit `N` and a
count `K` of past releases by address: every record is below `brk`, its
`request_count` is the number of its releases so far and, when a limit is
set, is below the limit; no release is counted for an unused address; and
the configured limit is `N`. -/
def CountInv (N : Nat) (K : Nat → Nat) (w : World) : Prop :=
  (∀ a st, w.heap a = some st →
    a < w.brk ∧ st.request_count = K a ∧ (0 < N → st.request_count < N)) ∧
  (∀ a, w.brk ≤ a → K a = 0) ∧ w.llcf.state_requests_max = N

/-- The limits of `demo_conf` with at most 2 requests per state. -/
def demo_conf_two : LocConf := { demo_conf with state_requests_max := 2 }

/-! ## Live blocks of the C heap -/

/-- The size libc holds for the block at `ptr` in a list of live blocks, given
as pairs of address and size (0 where there is no block, as for `NULL`). -/
def size_at (blocks : List (Nat × Nat)) (ptr : Nat) : Nat :=
  ((blocks.filter fun b => b.1 = ptr).map Prod.snd).sum

/-- The sum of the sizes of the live blocks. -/
def live_total (blocks : List (Nat × Nat)) : Nat :=
  (blocks.map Prod.snd).sum

/-- What a libc call does to the live blocks, `ret` being the pointer it
returns: `free` ends the block, a successful `realloc` ends the block and
grants one of the new size at `ret`, a failed `realloc` changes nothing. -/
def libc_call (ret : Nat) (blocks : List (Nat × Nat)) : HeapCall → List (Nat × Nat)
  | .free ptr => blocks.filter fun b => b.1 ≠ ptr
  | .realloc ptr nsize =>
    if ret ≠ 0 then (ret, nsize) :: blocks.filter fun b => b.1 ≠ ptr else blocks

/-- A sequence of `lws_alloc_checked` calls on one state, with the live blocks
its libc calls leave. -/
def alloc_checked_blocks (state : State) (blocks : List (Nat × Nat)) :
    List AllocCall → State × List (Nat × Nat)
  | [] => (state, blocks)
  | c :: cs =>
    let r := lws_alloc_checked c.realloc state c.ptr c.osize c.nsize
    alloc_checked_blocks r.state (r.calls.foldl (libc_call r.ret) blocks) cs

/-- A well-formed sequence of allocator calls: each `osize` is the size
previously granted for the block at `ptr`. -/
def SizesAsGranted (state : State) (blocks : List (Nat × Nat)) : List AllocCall → Prop
  | [] => True
  | c :: cs =>
    let r := lws_alloc_checked c.realloc state c.ptr c.osize c.nsize
    c.osize = size_at blocks c.ptr ∧
      SizesAsGranted r.state (r.calls.foldl (libc_call r.ret) blocks) cs

/-! ## Deadlines and timers of the live states -/

/-- The timer bookkeeping of one record, for an idle timeout `T` and a maximum
lifetime `M` (0 when not configured): the deadlines are words; a deadline that
is not configured is infinite; the idle deadline of a state in use is
infinite; the key of a set timer is the earlier deadline; the timer of an idle
state has not fired; and a timer that has not fired is set exactly when one of
the deadlines is finite. -/
structure TimerOk (T M : Nat) (st : State) : Prop where
  time_max_word : st.time_max < WORD
  timeout_word : st.timeout < WORD
  no_idle_limit : T = 0 → st.timeout = NGX_TIMER_INFINITE
  no_lifetime : M = 0 → st.time_max = NGX_TIMER_INFINITE
  in_use_clear : st.in_use = true → st.timeout = NGX_TIMER_INFINITE
  key_eq : st.tev.timer_set = true →
    st.tev.key = if st.timeout < st.time_max then st.timeout else st.time_max
  idle_not_fired : st.in_use = false → st.tev.timedout = false
  set_iff : st.tev.timedout = false →
    (st.tev.timer_set = true ↔
      (st.time_max ≠ NGX_TIMER_INFINITE ∨ st.timeout ≠ NGX_TIMER_INFINITE))

/-- The timer bookkeeping of a worker: the configured idle timeout is `T`, the
configured maximum lifetime is `M`, and every live record is in order. -/
def TimerInv (T M : Nat) (w : World) : Prop :=
  w.llcf.state_timeout = T ∧ w.llcf.state_time_max = M ∧
    ∀ a st, w.heap a = some st → TimerOk T M st

/-- The events allowed while the clock stays at or below `B`: a tick sets the
clock to a time not after `B`. Every other event is allowed. -/
def clock_until (B : Nat) (_ : Sys) : Event → Bool
  | .tick now => decide (now ≤ B)
  | _ => true

/-- Bounds on the deadlines of one record while the clock stays at or below
`B`: a configured maximum lifetime `M` gives a lifetime deadline of at most
`B + M`, a configured idle timeout `T` gives an idle state an idle deadline of
at most `B + T`. -/
structure DeadlineOk (B T M : Nat) (st : State) : Prop where
  lifetime : 0 < M → st.time_max ≤ B + M
  idle : 0 < T → st.in_use = false → st.timeout ≤ B + T

/-- The bounds on the deadlines of a worker whose clock is at or below `B`. -/
def DeadlineInv (B T M : Nat) (w : World) : Prop :=
  w.ngx_current_msec ≤ B ∧ w.llcf.state_timeout = T ∧ w.llcf.state_time_max = M ∧
    ∀ a st, w.heap a = some st → DeadlineOk B T M st

/-- Limits of a location without idle timeout and without maximum lifetime. -/
def demo_conf_unlimited : LocConf := { demo_conf with state_timeout := 0 }

/-- The limits of `demo_conf` with a GC threshold of 1000 bytes. -/
def demo_conf_gc : LocConf := { demo_conf with state_gc := 1000 }

/-! ## Lua stack and close flag of the live states -/

/-- The events in which `lua_newstate`, when it returns a Lua state, returns
one with an empty stack, as the Lua runtime does. -/
def fresh_lua (_ : Sys) : Event → Bool
  | .acquire _ o =>
    match o.newstate with
    | some L => L.stack.isEmpty
    | none => true
  | _ => true

/-- Every live state has a Lua state whose stack holds the traceback function
and nothing else. -/
def StackInv (w : World) : Prop :=
  ∀ a st, w.heap a = some st → ∃ L, st.L = some L ∧ L.stack = [.cfunction "lws_traceback"]

/-- No live state that is not in use is marked for closure. -/
def CloseInv (w : World) : Prop :=
  ∀ a st, w.heap a = some st → st.in_use = false → st.close = false

/-! ## The pool under callers that run and release what they hold -/

/-- Well-formed pool, as the callers keep it who run and release only on a
context that holds a state (acquire may be called on any context): the members
of the queue are live idle states, one entry each, and every holding context
points to a live state in use, no two to the same. -/
structure View.Pooled (v : View) : Prop where
  below : ∀ a, v.inuse a ≠ none → a < v.brk
  free_idle : ∀ a ∈ v.states, v.inuse a = some false
  free_nodup : v.states.Nodup
  held_nodup : v.held.Nodup
  held_bound : ∀ c ∈ v.held, ∃ a, v.owner c = some a ∧ v.inuse a = some true
  held_inj : ∀ c1 ∈ v.held, ∀ c2 ∈ v.held, v.owner c1 = v.owner c2 → c1 = c2

/-- The invariant of the pool under such callers: a well-formed pool, and
every live state has a Lua state. -/
def Pool (s : Sys) : Prop :=
  s.view.Pooled ∧ ∀ a st, s.w.heap a = some st → st.L ≠ none

/-! ## Timers of destroyed states -/

/-- A state with quota 1000 and nothing accounted. -/
def quota_1000 : State := { State.zero with memory_max := 1000 }

/-- A Lua state in which `lws_init` has reached the path settings: the
configured string `s` at stack index 1, and the loader table `package` with a
default search path. -/
def path_demo (s : List Char) : LuaState :=
  { stack := [.string s, .string [], .boolean false]
    globals := fun n => if n = LUA_LOADLIBNAME then .table 1 else .nil
    tables := fun r k => if r = 1 ∧ k = "path" then .string "/usr/share/lua/?.lua".toList else .nil
    gc_log := []
    checked := false }

/-! # Theorems -/

/-! ## Facts about machine words -/

theorem WORD_pos : 0 < WORD := by
  unfold WORD; positivity

theorem wadd_lt (a b : Nat) : wadd a b < WORD :=
  Nat.mod_lt _ WORD_pos

theorem wsub_lt (a b : Nat) : wsub a b < WORD :=
  Nat.mod_lt _ WORD_pos

/-- Subtracting no more than there is does not wrap. -/
theorem wsub_le_self {a b : Nat} (h : b ≤ a) : wsub a b ≤ a := by
  unfold wsub
  have hr : b % WORD ≤ b := Nat.mod_le _ _
  have hw : b % WORD < WORD := Nat.mod_lt _ WORD_pos
  have e : a + (WORD - b % WORD) = (a - b % WORD) + WORD := by omega
  rw [e, Nat.add_mod_right]
  exact le_trans (Nat.mod_le _ _) (Nat.sub_le _ _)

/-! ## Events with a defined outcome -/

/-- An event with a defined outcome has the outcome it has with the timer tree
intact. -/
theorem step_intact_of_step {s s1 : Sys} {e : Event} (h : step s e = some s1) :
    step_intact s e = some s1 := by
  unfold step at h
  split_ifs at h
  exact h

/-- While no timer of a freed record is registered, every event has the
outcome it has with the timer tree intact. -/
theorem step_of_no_dangling {s : Sys} (e : Event) (h : s.w.dangling = []) :
    step s e = step_intact s e := by
  simp [step, h]

/-! ## The checked allocator -/

/-- The allocator never changes the quota. -/
theorem lws_alloc_checked_memory_max (realloc : Nat) (state : State) (ptr osize nsize : Nat) :
    (lws_alloc_checked realloc state ptr osize nsize).state.memory_max = state.memory_max := by
  simp only [lws_alloc_checked]
  split_ifs <;> rfl

/-- One call keeps the accounted memory within the quota, provided a freeing
call gives back no more than is accounted. -/
theorem lws_alloc_checked_within (realloc : Nat) (state : State) (ptr osize nsize : Nat)
    (h : state.memory_used ≤ state.memory_max)
    (hfree : nsize = 0 → osize ≤ state.memory_used) :
    (lws_alloc_checked realloc state ptr osize nsize).state.memory_used ≤ state.memory_max := by
  simp only [lws_alloc_checked]
  split_ifs with h0 hgt hp
  · exact le_trans (wsub_le_self (hfree h0)) h
  · exact h
  · exact not_lt.mp hgt
  · exact h

theorem alloc_checked_seq_memory_max (calls : List AllocCall) (state : State) :
    (alloc_checked_seq state calls).memory_max = state.memory_max := by
  induction calls generalizing state with
  | nil => rfl
  | cons c cs ih => simp only [alloc_checked_seq, ih, lws_alloc_checked_memory_max]

theorem alloc_checked_seq_within (calls : List AllocCall) (state : State)
    (h : state.memory_used ≤ state.memory_max) (hfree : FreesWithinUsed state calls) :
    (alloc_checked_seq state calls).memory_used ≤ state.memory_max := by
  induction calls generalizing state with
  | nil => exact h
  | cons c cs ih =>
    obtain ⟨h1, h2⟩ := hfree
    have hstep := lws_alloc_checked_within c.realloc state c.ptr c.osize c.nsize h h1
    have hmax := lws_alloc_checked_memory_max c.realloc state c.ptr c.osize c.nsize
    have := ih _ (by rw [hmax]; exact hstep) h2
    rw [hmax] at this
    exact this

theorem FreesWithinUsed_initial (calls pre : List AllocCall) (state : State)
    (hfree : FreesWithinUsed state calls) (hpre : pre <+: calls) :
    FreesWithinUsed state pre := by
  induction pre generalizing state calls with
  | nil => trivial
  | cons c cs ih =>
    obtain ⟨t, rfl⟩ := hpre
    obtain ⟨h1, h2⟩ := hfree
    exact ⟨h1, ih (cs ++ t) _ h2 ⟨t, rfl⟩⟩

/-- C1, as stated, fails: with quota 1000 and nothing accounted, one freeing
call with `osize = 1` wraps the accounted memory to `2 ^ 64 - 1`, above the
quota. -/
theorem alloc_checked_oversized_free_exceeds_quota :
    0 < quota_1000.memory_max ∧ quota_1000.memory_used = 0 ∧
      (alloc_checked_seq quota_1000 [⟨0, 1, 0, 0⟩]).memory_used = 2 ^ 64 - 1 ∧
      ¬ (alloc_checked_seq quota_1000 [⟨0, 1, 0, 0⟩]).memory_used ≤ quota_1000.memory_max := by
  decide

/-- C1, amended: for a state with a quota that starts with nothing accounted,
and a sequence of `lws_alloc_checked` calls (any sizes, any answer of realloc)
in which every freeing call gives back no more than is accounted at that
time, the accounted memory is within the quota after each call. -/
theorem alloc_checked_quota_ceiling (state : State) (calls pre : List AllocCall)
    (hmax : 0 < state.memory_max) (hused : state.memory_used = 0)
    (hfree : FreesWithinUsed state calls) (hpre : pre <+: calls) :
    (alloc_checked_seq state pre).memory_used ≤ state.memory_max :=
  alloc_checked_seq_within pre state (by omega) (FreesWithinUsed_initial calls pre state hfree hpre)

/-- Witness of C1 amended: 600 bytes granted, a block grown from 600 to 1000,
a request over the quota, a failed realloc, and the block freed. -/
theorem alloc_checked_quota_ceiling_witness :
    (alloc_checked_seq quota_1000
      [⟨0, 0, 600, 4096⟩, ⟨4096, 600, 1000, 8192⟩, ⟨0, 0, 1, 12288⟩, ⟨8192, 1000, 500, 0⟩,
        ⟨8192, 1000, 0, 0⟩]).memory_used ≤ quota_1000.memory_max :=
  alloc_checked_quota_ceiling quota_1000
    [⟨0, 0, 600, 4096⟩, ⟨4096, 600, 1000, 8192⟩, ⟨0, 0, 1, 12288⟩, ⟨8192, 1000, 500, 0⟩,
      ⟨8192, 1000, 0, 0⟩] _ (by decide) (by decide)
    (by simp [FreesWithinUsed, lws_alloc_checked, quota_1000, State.zero, wadd, wsub, WORD])
    (List.prefix_refl _)

/-- C2: a call with `nsize > 0` whose candidate `memory_used - osize + nsize`
(in `size_t` arithmetic, as the code computes it) is above the quota returns
`NULL`, leaves the state as it is and makes no libc call. -/
theorem alloc_checked_rejection_atomic (realloc : Nat) (state : State) (ptr osize nsize : Nat)
    (hn : 0 < nsize) (hover : wadd (wsub state.memory_used osize) nsize > state.memory_max) :
    lws_alloc_checked realloc state ptr osize nsize = { ret := 0, state := state, calls := [] } := by
  simp only [lws_alloc_checked]
  rw [if_neg (by omega), if_pos hover]

/-- Where nothing wraps, the candidate the code computes is the sum over the
natural numbers. -/
theorem candidate_of_no_wrap (used osize nsize : Nat) (h0 : used < WORD) (h1 : osize ≤ used)
    (h2 : used - osize + nsize < WORD) : wadd (wsub used osize) nsize = used - osize + nsize := by
  have ho : osize < WORD := lt_of_le_of_lt h1 h0
  have e : wsub used osize = used - osize := by
    unfold wsub
    rw [Nat.mod_eq_of_lt ho]
    have e1 : used + (WORD - osize) = (used - osize) + WORD := by omega
    rw [e1, Nat.add_mod_right, Nat.mod_eq_of_lt (by omega)]
  rw [e, wadd, Nat.mod_eq_of_lt h2]

/-- Witness of C2: with quota 1000, the request that brings the accounted
memory to exactly 1000 is granted, and the request for one more byte is
rejected with 1000 still accounted. -/
theorem alloc_checked_rejection_atomic_witness :
    (lws_alloc_checked 4096 quota_1000 0 0 1000).ret = 4096 ∧
      (lws_alloc_checked 4096 quota_1000 0 0 1000).state.memory_used = 1000 ∧
      lws_alloc_checked 8192 (lws_alloc_checked 4096 quota_1000 0 0 1000).state 0 0 1 =
        { ret := 0, state := (lws_alloc_checked 4096 quota_1000 0 0 1000).state, calls := [] } :=
  ⟨by decide, by decide,
    alloc_checked_rejection_atomic 8192 _ 0 0 1 (by decide) (by decide)⟩

/-! ## The search path rule -/

theorem slot_pos_eq (L : LuaState) (idx : Int) (h : 0 < idx) {v : LuaValue}
    (hv : L.at idx = some v) :
    L.slot idx = some (idx.toNat - 1) ∧ idx.toNat - 1 < L.stack.length := by
  unfold LuaState.at at hv
  unfold LuaState.slot at hv ⊢
  rw [if_pos h] at hv ⊢
  by_cases hl : idx.toNat ≤ L.stack.length
  · rw [if_pos hl]
    have : 0 < idx.toNat := by omega
    exact ⟨rfl, by omega⟩
  · rw [if_neg hl] at hv
    simp at hv

/-- A push leaves the values at positive indices where they are. -/
theorem at_push_pos (L : LuaState) (idx : Int) (h : 0 < idx) (v x : LuaValue)
    (hv : L.at idx = some x) : (lua_push L v).at idx = some x := by
  obtain ⟨hs, hlt⟩ := slot_pos_eq L idx h hv
  unfold LuaState.at at hv ⊢
  rw [hs] at hv
  have : (lua_push L v).slot idx = some (idx.toNat - 1) := by
    unfold LuaState.slot
    rw [if_pos h, if_pos]
    simp [lua_push]
    have : 0 < idx.toNat := by omega
    omega
  rw [this]
  simp only [lua_push]
  rw [List.getElem?_append_left hlt]
  exact hv

theorem at_push_top (L : LuaState) (v : LuaValue) : (lua_push L v).at (-1) = some v := by
  simp [LuaState.at, LuaState.slot, lua_push]

theorem at_push_second (L : LuaState) (u v : LuaValue) :
    (lua_push (lua_push L u) v).at (-2) = some u := by
  simp [LuaState.at, LuaState.slot, lua_push]
  rw [List.getElem_append_right (le_refl _)]
  simp

theorem lua_pop_push (L : LuaState) (v : LuaValue) : lua_pop (lua_push L v) 1 = L := by
  cases L
  simp [lua_pop, lua_push]

@[simp] theorem lua_push_tables (L : LuaState) (v : LuaValue) :
    (lua_push L v).tables = L.tables := rfl

@[simp] theorem lua_push_globals (L : LuaState) (v : LuaValue) :
    (lua_push L v).globals = L.globals := rfl

theorem lua_concat_three (L : LuaState) (a b c : List Char) :
    lua_concat (lua_push (lua_push (lua_push L (.string a)) (.string b)) (.string c)) 3 =
      .ok (lua_push L (.string (a ++ (b ++ c)))) := by
  cases L
  simp [lua_concat, lua_push, lua_pop, concat_values, LuaValue.concat_bytes]

theorem lua_setfield_push (L : LuaState) (r : Nat) (k : String) (v : LuaValue) :
    lua_setfield (lua_push (lua_push L (.table r)) v) (-2) k =
      .ok { lua_push L (.table r) with
            tables := Function.update L.tables r (Function.update (L.tables r) k v) } := by
  unfold lua_setfield
  rw [at_push_second, at_push_top]
  cases L
  simp [lua_pop, lua_push, List.take_append_eq_append_take]

/-- C10: with the configured string `s` at a positive stack index and the
loader table holding the default search path `d` in `field`, `lws_set_path`
returns normally, leaves the stack as it found it, and the loader field is
`d` when `s` is empty, `d ++ ";" ++ (s without its first character)` when `s`
starts with `+`, and `s` otherwise. -/
theorem lws_set_path_rule (L : LuaState) (index : Int) (field : String) (d s : List Char)
    (r : Nat) (hidx : 0 < index) (hs : L.at index = some (.string s))
    (hpkg : L.globals LUA_LOADLIBNAME = .table r) (hd : L.tables r field = .string d) :
    ∃ L1, lws_set_path L index field = .ok L1 ∧ L1.stack = L.stack ∧
      L1.tables r field = .string
        (if s = [] then d else if s.head? = some '+' then d ++ [';'] ++ s.drop 1 else s) := by
  unfold lws_set_path
  have ht : lua_tolstring L index = (L, some s) := by
    unfold lua_tolstring; rw [hs]
  rw [ht]
  simp only [Option.getD_some]
  by_cases he : s = []
  · subst he
    exact ⟨L, by simp, rfl, by simp [hd]⟩
  · have hlen : s.length ≠ 0 := by simpa using he
    rw [if_neg hlen]
    simp only [lua_getglobal, hpkg, LuaValue.type, ne_eq, not_true_eq_false, if_false, if_neg he]
    by_cases hp : s.head? = some '+'
    · simp only [hp, if_true]
      unfold lua_getfield
      rw [at_push_top]
      simp only [lua_push_tables, hd, LuaValue.type, ne_eq, not_true_eq_false, if_false,
        lua_pushliteral, lua_pushlstring, lua_concat_three, lua_setfield_push]
      refine ⟨_, rfl, ?_, ?_⟩
      · simp [lua_pop, lua_push]
      · simp [lua_pop, lua_push]
    · simp only [hp, if_false]
      unfold lua_pushvalue
      rw [at_push_pos L index hidx _ _ hs]
      simp only [lua_setfield_push]
      refine ⟨_, rfl, ?_, ?_⟩
      · simp [lua_pop, lua_push]
      · simp [lua_pop, lua_push]

/-- Witness of C10: `"+/extra/?.lua"` appends `";/extra/?.lua"` to the default
path, and `"/only/?.lua"` replaces it. -/
theorem lws_set_path_rule_witness :
    (∃ L1, lws_set_path (path_demo "+/extra/?.lua".toList) 1 "path" = .ok L1 ∧
      L1.stack = (path_demo "+/extra/?.lua".toList).stack ∧
      L1.tables 1 "path" = .string "/usr/share/lua/?.lua;/extra/?.lua".toList) ∧
    (∃ L1, lws_set_path (path_demo "/only/?.lua".toList) 1 "path" = .ok L1 ∧
      L1.stack = (path_demo "/only/?.lua".toList).stack ∧
      L1.tables 1 "path" = .string "/only/?.lua".toList) :=
  ⟨lws_set_path_rule (path_demo "+/extra/?.lua".toList) 1 "path" "/usr/share/lua/?.lua".toList
      "+/extra/?.lua".toList 1 (by decide) (by decide) (by decide) (by decide),
    lws_set_path_rule (path_demo "/only/?.lua".toList) 1 "path" "/usr/share/lua/?.lua".toList
      "/only/?.lua".toList 1 (by decide) (by decide) (by decide) (by decide)⟩

/-! ## Ownership is preserved by the transitions of the pool -/

/-- A context that holds no state takes the state at `q`, which is not in use:
the head of the free list, or a fresh address. -/
theorem View.Owned.bind {v : View} (h : v.Owned) {q c b : Nat}
    (hq : v.inuse q ≠ some true) (hc : c ∉ v.held) (hqb : q < b) (hb : v.brk ≤ b) :
    View.Owned { inuse := Function.update v.inuse q (some true), states := v.states.erase q,
                 owner := Function.update v.owner c (some q), held := c :: v.held,
                 brk := b } := by
  have key : ∀ c1, c1 ∈ v.held → v.owner c1 ≠ some q := by
    intro c1 hc1 e
    obtain ⟨a, ha1, ha2⟩ := h.held_bound c1 hc1
    rw [e] at ha1; cases ha1
    exact hq ha2
  constructor
  · intro a ha
    by_cases e : a = q
    · subst e; exact hqb
    · simp only [Function.update_noteq e] at ha; exact lt_of_lt_of_le (h.below a ha) hb
  · intro a ha
    have hm := (h.free_nodup.mem_erase_iff).mp ha
    simp only [Function.update_noteq hm.1]
    exact h.free_idle a hm.2
  · exact h.free_nodup.erase q
  · intro a ha
    by_cases e : a = q
    · subst e; simp at ha
    · simp only [Function.update_noteq e] at ha
      exact (h.free_nodup.mem_erase_iff).mpr ⟨e, h.idle_free a ha⟩
  · exact List.nodup_cons.mpr ⟨hc, h.held_nodup⟩
  · intro c1 hc1
    rcases List.mem_cons.mp hc1 with e | hm
    · subst e; exact ⟨q, by simp, by simp⟩
    · have ne : c1 ≠ c := fun e => hc (e ▸ hm)
      obtain ⟨a, ha1, ha2⟩ := h.held_bound c1 hm
      have e : a ≠ q := fun e => hq (e ▸ ha2)
      exact ⟨a, by simp [Function.update_noteq ne, ha1], by simp [Function.update_noteq e, ha2]⟩
  · intro c1 hc1 c2 hc2 heq
    rcases List.mem_cons.mp hc1 with e1 | hm1 <;> rcases List.mem_cons.mp hc2 with e2 | hm2
    · rw [e1, e2]
    · subst e1
      have ne : c2 ≠ c1 := fun e => hc (e ▸ hm2)
      simp [Function.update_noteq ne] at heq
      exact absurd heq.symm (key c2 hm2)
    · subst e2
      have ne : c1 ≠ c2 := fun e => hc (e ▸ hm1)
      simp [Function.update_noteq ne] at heq
      exact absurd heq (key c1 hm1)
    · have ne1 : c1 ≠ c := fun e => hc (e ▸ hm1)
      have ne2 : c2 ≠ c := fun e => hc (e ▸ hm2)
      simp only [Function.update_noteq ne1, Function.update_noteq ne2] at heq
      exact h.held_inj c1 hm1 c2 hm2 heq
  · intro a ha
    by_cases e : a = q
    · subst e; exact ⟨c, List.mem_cons_self _ _, by simp⟩
    · simp only [Function.update_noteq e] at ha
      obtain ⟨c1, hc1, ho⟩ := h.used_held a ha
      have ne : c1 ≠ c := fun e => hc (e ▸ hc1)
      exact ⟨c1, List.mem_cons_of_mem _ hc1, by simp [Function.update_noteq ne, ho]⟩

/-- Fresh addresses may be consumed without a state appearing. -/
theorem View.Owned.grow {v : View} (h : v.Owned) {b : Nat} (hb : v.brk ≤ b) :
    View.Owned { v with brk := b } :=
  { h with below := fun a ha => lt_of_lt_of_le (h.below a ha) hb }

/-- The state of a holding context leaves the pool: it is destroyed
(`r = none`) or goes back to the head of the free list (`r = some false`). -/
theorem View.Owned.unbind {v : View} (h : v.Owned) {c a : Nat} (hc : c ∈ v.held)
    (ha : v.owner c = some a) (destroy : Bool) :
    View.Owned { inuse := Function.update v.inuse a (if destroy then none else some false),
                 states := if destroy then v.states else a :: v.states,
                 owner := v.owner, held := v.held.erase c, brk := v.brk } := by
  obtain ⟨a1, ha1, hu⟩ := h.held_bound c hc
  rw [ha] at ha1; cases ha1
  have hns : a ∉ v.states := fun hm => by
    have := h.free_idle a hm; rw [hu] at this; simp at this
  have other : ∀ c1, c1 ∈ v.held.erase c → v.owner c1 ≠ some a := by
    intro c1 hc1 e
    have hm := (h.held_nodup.mem_erase_iff).mp hc1
    exact hm.1 (h.held_inj c1 hm.2 c hc (e.trans ha.symm))
  constructor
  · intro x hx
    by_cases e : x = a
    · subst e; exact h.below _ (by rw [hu]; simp)
    · simp only [Function.update_noteq e] at hx; exact h.below x hx
  · intro x hx
    cases destroy
    · simp only [Bool.false_eq_true, if_false] at hx ⊢
      rcases List.mem_cons.mp hx with e | hm
      · subst e; simp
      · have e : x ≠ a := fun e => hns (e ▸ hm)
        simp only [Function.update_noteq e]; exact h.free_idle x hm
    · simp only [if_true] at hx ⊢
      have e : x ≠ a := fun e => hns (e ▸ hx)
      simp only [Function.update_noteq e]; exact h.free_idle x hx
  · cases destroy
    · simp only [Bool.false_eq_true, if_false]
      exact List.nodup_cons.mpr ⟨hns, h.free_nodup⟩
    · simpa using h.free_nodup
  · intro x hx
    by_cases e : x = a
    · subst e
      cases destroy
      · simp
      · simp at hx
    · simp only [Function.update_noteq e] at hx
      have := h.idle_free x hx
      cases destroy
      · simp only [Bool.false_eq_true, if_false]; exact List.mem_cons_of_mem _ this
      · simpa using this
  · exact h.held_nodup.erase c
  · intro c1 hc1
    have hm := (h.held_nodup.mem_erase_iff).mp hc1
    obtain ⟨x, hx1, hx2⟩ := h.held_bound c1 hm.2
    have e : x ≠ a := fun e => other c1 hc1 (e ▸ hx1)
    exact ⟨x, hx1, by simp only [Function.update_noteq e]; exact hx2⟩
  · intro c1 hc1 c2 hc2 heq
    exact h.held_inj c1 (List.mem_of_mem_erase hc1) c2 (List.mem_of_mem_erase hc2) heq
  · intro x hx
    by_cases e : x = a
    · subst e
      cases destroy <;> simp at hx
    · simp only [Function.update_noteq e] at hx
      obtain ⟨c1, hc1, ho⟩ := h.used_held x hx
      have ne : c1 ≠ c := fun e1 => e (by rw [e1, ha] at ho; cases ho; rfl)
      exact ⟨c1, (h.held_nodup.mem_erase_iff).mpr ⟨ne, hc1⟩, ho⟩

/-- An idle state is taken off the free list and destroyed. -/
theorem View.Owned.evict {v : View} (h : v.Owned) {a : Nat} (ha : v.inuse a = some false) :
    View.Owned { inuse := Function.update v.inuse a none, states := v.states.erase a,
                 owner := v.owner, held := v.held, brk := v.brk } := by
  have other : ∀ c1, c1 ∈ v.held → v.owner c1 ≠ some a := by
    intro c1 hc1 e
    obtain ⟨x, hx1, hx2⟩ := h.held_bound c1 hc1
    rw [e] at hx1; cases hx1
    rw [ha] at hx2; simp at hx2
  constructor
  · intro x hx
    by_cases e : x = a
    · subst e; simp at hx
    · simp only [Function.update_noteq e] at hx; exact h.below x hx
  · intro x hx
    have hm := (h.free_nodup.mem_erase_iff).mp hx
    simp only [Function.update_noteq hm.1]; exact h.free_idle x hm.2
  · exact h.free_nodup.erase a
  · intro x hx
    by_cases e : x = a
    · subst e; simp at hx
    · simp only [Function.update_noteq e] at hx
      exact (h.free_nodup.mem_erase_iff).mpr ⟨e, h.idle_free x hx⟩
  · exact h.held_nodup
  · intro c1 hc1
    obtain ⟨x, hx1, hx2⟩ := h.held_bound c1 hc1
    have e : x ≠ a := fun e => other c1 hc1 (e ▸ hx1)
    exact ⟨x, hx1, by simp only [Function.update_noteq e]; exact hx2⟩
  · exact h.held_inj
  · intro x hx
    by_cases e : x = a
    · subst e; simp at hx
    · simp only [Function.update_noteq e] at hx
      exact h.used_held x hx

/-- Well-formed ownership gives the property C3 speaks of. -/
theorem Inv.exclusive {s : Sys} (h : Inv s) : ExclusiveOwnership s := by
  obtain ⟨h, -⟩ := h
  constructor
  · intro c1 hc1 c2 hc2 hne heq
    exact hne (h.held_inj c1 hc1 c2 hc2 heq)
  · intro a st hst
    have hv : s.view.inuse a = some st.in_use := by simp [Sys.view, hst]
    cases hu : st.in_use
    · left
      rw [hu] at hv
      refine ⟨h.idle_free a hv, rfl, ?_⟩
      intro c hc e
      obtain ⟨x, hx1, hx2⟩ := h.held_bound c hc
      have : x = a := by
        have : some x = some a := hx1.symm.trans e
        exact Option.some.inj this
      rw [this, hv] at hx2; simp at hx2
    · right
      rw [hu] at hv
      refine ⟨?_, rfl, ?_⟩
      · intro hm
        have := h.free_idle a hm
        rw [hv] at this; simp at this
      · obtain ⟨c, hc, ho⟩ := h.used_held a hv
        refine ⟨c, ⟨hc, ho⟩, ?_⟩
        rintro c1 ⟨hc1, ho1⟩
        exact h.held_inj c1 hc1 c hc (ho1.trans ho.symm)

/-! ## Fields left alone by the helpers -/

@[simp] theorem lws_set_state_timer_in_use (now : Nat) (st : State) :
    (lws_set_state_timer now st).in_use = st.in_use := by
  simp only [lws_set_state_timer]; split_ifs <;> rfl

@[simp] theorem lws_set_state_timer_L (now : Nat) (st : State) :
    (lws_set_state_timer now st).L = st.L := by
  simp only [lws_set_state_timer]; split_ifs <;> rfl

@[simp] theorem lws_set_state_timer_close (now : Nat) (st : State) :
    (lws_set_state_timer now st).close = st.close := by
  simp only [lws_set_state_timer]; split_ifs <;> rfl

@[simp] theorem lws_set_state_timer_request_count (now : Nat) (st : State) :
    (lws_set_state_timer now st).request_count = st.request_count := by
  simp only [lws_set_state_timer]; split_ifs <;> rfl

@[simp] theorem lws_set_state_timer_memory_used (now : Nat) (st : State) :
    (lws_set_state_timer now st).memory_used = st.memory_used := by
  simp only [lws_set_state_timer]; split_ifs <;> rfl

@[simp] theorem lws_set_state_timer_memory_monitor (now : Nat) (st : State) :
    (lws_set_state_timer now st).memory_monitor = st.memory_monitor := by
  simp only [lws_set_state_timer]; split_ifs <;> rfl

@[simp] theorem lws_set_state_timer_timedout (now : Nat) (st : State) :
    (lws_set_state_timer now st).tev.timedout = st.tev.timedout := by
  simp only [lws_set_state_timer, ngx_add_timer, ngx_del_timer]; split_ifs <;> rfl

theorem lws_alloc_checked_rest (realloc : Nat) (st : State) (ptr osize nsize : Nat) :
    (lws_alloc_checked realloc st ptr osize nsize).state.rest = st.rest := by
  simp only [lws_alloc_checked]; split_ifs <;> rfl

theorem alloc_checked_seq_rest (calls : List AllocCall) (st : State) :
    (alloc_checked_seq st calls).rest = st.rest := by
  induction calls generalizing st with
  | nil => rfl
  | cons c cs ih => simp only [alloc_checked_seq, ih, lws_alloc_checked_rest]

theorem lua_allocs_rest (checked : Bool) (st : State) (calls : List AllocCall) :
    (lua_allocs checked st calls).rest = st.rest := by
  unfold lua_allocs; split_ifs
  · exact alloc_checked_seq_rest calls st
  · rfl

@[simp] theorem lua_allocs_in_use (checked : Bool) (st : State) (calls : List AllocCall) :
    (lua_allocs checked st calls).in_use = st.in_use :=
  congrArg (fun r => r.2.2.2.2.2.2.2.1) (lua_allocs_rest checked st calls)

@[simp] theorem lua_allocs_L (checked : Bool) (st : State) (calls : List AllocCall) :
    (lua_allocs checked st calls).L = st.L :=
  congrArg (fun r => r.1) (lua_allocs_rest checked st calls)

@[simp] theorem lua_allocs_memory_monitor (checked : Bool) (st : State) (calls : List AllocCall) :
    (lua_allocs checked st calls).memory_monitor = st.memory_monitor :=
  congrArg (fun r => r.2.2.1) (lua_allocs_rest checked st calls)

@[simp] theorem lua_allocs_request_count (checked : Bool) (st : State) (calls : List AllocCall) :
    (lua_allocs checked st calls).request_count = st.request_count :=
  congrArg (fun r => r.2.2.2.1) (lua_allocs_rest checked st calls)

@[simp] theorem lua_allocs_tev (checked : Bool) (st : State) (calls : List AllocCall) :
    (lua_allocs checked st calls).tev = st.tev :=
  congrArg (fun r => r.2.2.2.2.2.2.1) (lua_allocs_rest checked st calls)

@[simp] theorem lua_allocs_close (checked : Bool) (st : State) (calls : List AllocCall) :
    (lua_allocs checked st calls).close = st.close :=
  congrArg (fun r => r.2.2.2.2.2.2.2.2.1) (lua_allocs_rest checked st calls)

@[simp] theorem lua_allocs_time_max (checked : Bool) (st : State) (calls : List AllocCall) :
    (lua_allocs checked st calls).time_max = st.time_max :=
  congrArg (fun r => r.2.2.2.2.1) (lua_allocs_rest checked st calls)

@[simp] theorem lua_allocs_timeout (checked : Bool) (st : State) (calls : List AllocCall) :
    (lua_allocs checked st calls).timeout = st.timeout :=
  congrArg (fun r => r.2.2.2.2.2.1) (lua_allocs_rest checked st calls)

theorem heap_map_update {β : Type} (h : Nat → Option State) (q : Nat) (x : Option State)
    (f : State → β) :
    (fun a => (Function.update h q x a).map f) = Function.update (fun a => (h a).map f) q (x.map f) := by
  funext a
  by_cases e : a = q
  · subst e; simp
  · simp [Function.update_noteq e]

/-! ## Fields left alone by the blocks of creation, acquisition and release -/

theorem create_lua_state_rest_fields (o : CreateOracle) (m : Nat) :
    (create_lua_state o m).in_use = false ∧ (create_lua_state o m).close = false ∧
      (create_lua_state o m).request_count = 0 ∧ (create_lua_state o m).memory_monitor = 0 ∧
      (create_lua_state o m).tev.timedout = false ∧ (create_lua_state o m).tev.timer_set = false := by
  unfold create_lua_state
  split_ifs <;> simp [State.zero]

theorem create_set_timer_fields (now tm : Nat) (st : State) :
    (create_set_timer now tm st).in_use = st.in_use ∧ (create_set_timer now tm st).close = st.close ∧
      (create_set_timer now tm st).request_count = st.request_count ∧
      (create_set_timer now tm st).memory_monitor = st.memory_monitor ∧
      (create_set_timer now tm st).memory_used = st.memory_used ∧
      (create_set_timer now tm st).tev.timedout = st.tev.timedout ∧
      (create_set_timer now tm st).L = st.L := by
  unfold create_set_timer
  split_ifs <;> simp

@[simp] theorem update_memory_used_in_use (st : State) (g : GcCount) :
    (update_memory_used st g).in_use = st.in_use := rfl

theorem update_memory_used_L_ne (st : State) (g : GcCount) (h : st.L ≠ none) :
    (update_memory_used st g).L ≠ none := by
  cases hL : st.L with
  | none => exact absurd hL h
  | some L => simp [update_memory_used, hL]

theorem update_memory_used_kept (st : State) (g : GcCount) :
    (update_memory_used st g).kept = st.kept := by
  cases hL : st.L <;> simp [update_memory_used, State.kept, hL]

theorem lua_allocs_kept (checked : Bool) (st : State) (calls : List AllocCall) :
    (lua_allocs checked st calls).kept = st.kept := by
  simp [State.kept]

theorem lua_gc_kept (st : State) (f : LuaState → LuaState) :
    ({ st with L := st.L.map f } : State).kept = st.kept := by
  cases hL : st.L <;> simp [State.kept, hL]

theorem release_collect_kept (o : ReleaseOracle) (llcf : LocConf) (mon : Bool) (st : State) :
    (release_collect o llcf mon st).kept = st.kept := by
  simp only [release_collect]
  split_ifs <;>
    simp only [update_memory_used_kept, lua_allocs_kept, lua_gc_kept]

theorem release_rearm_fields (now t : Nat) (st : State) :
    (release_rearm now t st).in_use = st.in_use ∧ (release_rearm now t st).close = st.close ∧
      (release_rearm now t st).request_count = st.request_count ∧
      (release_rearm now t st).memory_monitor = st.memory_monitor ∧
      (release_rearm now t st).memory_used = st.memory_used ∧
      (release_rearm now t st).tev.timedout = st.tev.timedout ∧
      (release_rearm now t st).L = st.L := by
  unfold release_rearm
  split_ifs <;> simp

theorem acquire_disarm_fields (now t : Nat) (st : State) :
    (acquire_disarm now t st).in_use = st.in_use ∧ (acquire_disarm now t st).close = st.close ∧
      (acquire_disarm now t st).request_count = st.request_count ∧
      (acquire_disarm now t st).memory_monitor = st.memory_monitor ∧
      (acquire_disarm now t st).memory_used = st.memory_used ∧
      (acquire_disarm now t st).tev.timedout = st.tev.timedout ∧
      (acquire_disarm now t st).L = st.L := by
  unfold acquire_disarm
  split_ifs <;> simp

/-! ## What creation does -/

/-- The outcomes of `lws_create_state`: `NULL` without any change (calloc
failed), `NULL` with the record leaked (no Lua state), `NULL` after
`lws_close_state` on the half-built record (initialization failed), or the
fresh address with the new record in place and the counters incremented. -/
theorem lws_create_state_cases (o : CreateOracle) (w : World) :
    lws_create_state o w = (none, w) ∨
    lws_create_state o w = (none, { w with brk := w.brk + 1, leaked := w.brk :: w.leaked }) ∨
    (∃ st, lws_create_state o w = (none, close_state_at { w with brk := w.brk + 1 } w.brk st) ∧
      st.memory_monitor = 0) ∨
    (∃ st, lws_create_state o w = (some w.brk, create_done { w with brk := w.brk + 1 } w.brk st) ∧
      st.in_use = false ∧ st.L ≠ none ∧ st.request_count = 0 ∧ st.close = false ∧
      st.tev.timedout = false ∧ st.memory_monitor = 0) := by
  unfold lws_create_state
  by_cases hc : o.calloc_ok
  · simp only [hc, Bool.not_true, Bool.false_eq_true, if_false]
    right
    obtain ⟨f1, f2, f3, f4, f5, -⟩ := create_lua_state_rest_fields o w.llcf.state_memory_max
    cases hL : (create_lua_state o w.llcf.state_memory_max).L with
    | none => left; rfl
    | some L0 =>
      right
      simp only []
      split_ifs with hs
      · left
        exact ⟨_, rfl, by simp [f4]⟩
      · right
        refine ⟨_, rfl, ?_⟩
        obtain ⟨g1, g2, g3, g4, -, g6, g7⟩ := create_set_timer_fields w.ngx_current_msec
          w.llcf.state_time_max
          { lua_allocs (create_init_stack L0 w.llcf.path w.llcf.cpath w.monitor.isSome).checked
              (create_lua_state o w.llcf.state_memory_max) o.init_allocs with
            L := some (lua_pushcfunction
              (lua_pcall_c (lws_init o.libs)
                (create_init_stack L0 w.llcf.path w.llcf.cpath w.monitor.isSome) 3 0).2
              "lws_traceback") }
        rw [g1, g2, g3, g4, g6, g7]
        simp [f1, f2, f3, f4, f5]
  · left
    simp [hc]

/-! ## The invariant is kept by every event -/

theorem View.ext_fields {v1 v2 : View} (h1 : ∀ a, v1.inuse a = v2.inuse a)
    (h2 : v1.states = v2.states) (h3 : ∀ c, v1.owner c = v2.owner c) (h4 : v1.held = v2.held)
    (h5 : v1.brk = v2.brk) : v1 = v2 := by
  cases v1; cases v2
  simp only [View.mk.injEq]
  exact ⟨funext h1, h2, funext h3, h4, h5⟩

/-- In a well-formed pool the address of a live record is below `brk`. -/
theorem Inv.heap_below {s : Sys} (h : Inv s) {a : Nat} {st : State}
    (hst : s.w.heap a = some st) : a < s.w.brk :=
  h.1.below a (by simp [Sys.view, hst])

theorem Inv.heap_brk {s : Sys} (h : Inv s) : s.w.heap s.w.brk = none := by
  cases hb : s.w.heap s.w.brk with
  | none => rfl
  | some st => exact absurd (h.heap_below hb) (lt_irrefl _)

/-- The head of the free list is a live idle record. -/
theorem Inv.free_live {s : Sys} (h : Inv s) {q : Nat} (hq : q ∈ s.w.llcf.states) :
    ∃ st, s.w.heap q = some st ∧ st.in_use = false := by
  have := h.1.free_idle q hq
  simp only [Sys.view] at this
  cases hh : s.w.heap q with
  | none => rw [hh] at this; simp at this
  | some st => rw [hh] at this; exact ⟨st, rfl, by simpa using this⟩

/-- A holding context points to a live record in use, off the free list. -/
theorem Inv.held_live {s : Sys} (h : Inv s) {c : Nat} (hc : c ∈ s.held) :
    ∃ a st, (s.w.ctx c).state = some a ∧ s.w.heap a = some st ∧ st.in_use = true ∧
      st.L ≠ none ∧ a ∉ s.w.llcf.states ∧ a < s.w.brk := by
  obtain ⟨a, ha, hu⟩ := h.1.held_bound c hc
  simp only [Sys.view] at ha hu
  cases hh : s.w.heap a with
  | none => rw [hh] at hu; simp at hu
  | some st =>
    rw [hh] at hu
    have hin : st.in_use = true := by simpa using hu
    refine ⟨a, st, ha, hh, hin, h.2 a st hh, ?_, h.heap_below hh⟩
    intro hm
    obtain ⟨st1, h1, h2⟩ := h.free_live hm
    rw [hh] at h1; cases h1
    rw [hin] at h2; cases h2

/-- Replacing a live record by one with the same `in_use` flag and a Lua
state, and touching no pointer, keeps the invariant. -/
theorem Inv.modify {s : Sys} (h : Inv s) {a : Nat} {st st1 : State} (w1 : World)
    (hst : s.w.heap a = some st) (hin : st1.in_use = st.in_use) (hL : st1.L ≠ none)
    (hheap : w1.heap = Function.update s.w.heap a (some st1))
    (hstates : w1.llcf.states = s.w.llcf.states)
    (hctx : ∀ c, (w1.ctx c).state = (s.w.ctx c).state) (hbrk : w1.brk = s.w.brk) :
    Inv { w := w1, held := s.held } := by
  constructor
  · have : Sys.view { w := w1, held := s.held } = s.view := by
      apply View.ext_fields
      · intro x
        simp only [Sys.view, hheap]
        by_cases e : x = a
        · subst e; simp [hst, hin]
        · simp [Function.update_noteq e]
      · exact hstates
      · exact hctx
      · rfl
      · exact hbrk
    rw [this]; exact h.1
  · intro x sx hx
    simp only [hheap] at hx
    by_cases e : x = a
    · subst e; simp at hx; subst hx; exact hL
    · simp only [Function.update_noteq e] at hx; exact h.2 x sx hx

theorem View.Owned.congr {v v1 : View} (h : v.Owned) (h1 : ∀ a, v1.inuse a = v.inuse a)
    (h2 : v1.states = v.states) (h3 : ∀ c, v1.owner c = v.owner c) (h4 : v1.held = v.held)
    (h5 : v1.brk = v.brk) : v1.Owned := by
  rw [View.ext_fields h1 h2 h3 h4 h5]; exact h

/-! ### Acquisition -/

/-- With a non-empty free list whose head is live, `lws_acquire_state` pops
the head, binds it to the context and returns 0. -/
theorem lws_acquire_state_pop (o : CreateOracle) (w : World) (c q : Nat) (rest : List Nat)
    (st : State) (hq : w.llcf.states = q :: rest) (hst : w.heap q = some st) :
    lws_acquire_state o w c =
      some (0, acquire_bind { w with llcf.states := rest } c q
        (acquire_disarm w.ngx_current_msec w.llcf.state_timeout st)) := by
  simp [lws_acquire_state, hq, hst]

/-- With an empty free list, `lws_acquire_state` returns -1 with the memory
`lws_create_state` leaves when creation fails, and binds the created state
otherwise. -/
theorem lws_acquire_state_create (o : CreateOracle) (w : World) (c : Nat)
    (hq : w.llcf.states = []) :
    (∃ w1, lws_create_state o w = (none, w1) ∧ lws_acquire_state o w c = some (-1, w1)) ∨
    (∃ st, lws_create_state o w = (some w.brk, create_done { w with brk := w.brk + 1 } w.brk st) ∧
      lws_acquire_state o w c =
        some (0, acquire_bind (create_done { w with brk := w.brk + 1 } w.brk st) c w.brk st) ∧
      st.in_use = false ∧ st.L ≠ none ∧ st.request_count = 0 ∧ st.close = false ∧
      st.tev.timedout = false ∧ st.memory_monitor = 0) := by
  rcases lws_create_state_cases o w with h | h | ⟨st, h, -⟩ | ⟨st, h, hf⟩
  · left; exact ⟨_, h, by simp [lws_acquire_state, hq, h]⟩
  · left; exact ⟨_, h, by simp [lws_acquire_state, hq, h]⟩
  · left; exact ⟨_, h, by simp [lws_acquire_state, hq, h]⟩
  · right
    exact ⟨st, h, by simp [lws_acquire_state, hq, h, create_done], hf⟩

/-- Binding a state that is not in use to a context that holds none keeps the
invariant. -/
theorem Inv.bind_keeps {s : Sys} (h : Inv s) {c q : Nat} {st : State} (w1 : World)
    (hc : c ∉ s.held) (hq : (s.w.heap q).map State.in_use ≠ some true)
    (hL : st.L ≠ none) (hqb : q < w1.brk) (hb : s.w.brk ≤ w1.brk)
    (hheap : ∀ x, x ≠ q → w1.heap x = s.w.heap x)
    (hstates : w1.llcf.states = s.w.llcf.states.erase q)
    (hctx : w1.ctx = s.w.ctx) :
    Inv { w := acquire_bind w1 c q st, held := c :: s.held } := by
  constructor
  · have hv := h.1.bind (q := q) (c := c) (b := w1.brk) (by simpa [Sys.view] using hq) hc hqb hb
    refine hv.congr ?_ ?_ ?_ ?_ ?_
    · intro x
      simp only [Sys.view, acquire_bind]
      by_cases e : x = q
      · subst e; simp
      · simp [Function.update_noteq e, hheap x e]
    · simp [Sys.view, acquire_bind, hstates]
    · intro x
      simp only [Sys.view, acquire_bind, hctx]
      by_cases e : x = c
      · subst e; simp
      · simp [Function.update_noteq e]
    · rfl
    · rfl
  · intro x sx hx
    simp only [acquire_bind] at hx
    by_cases e : x = q
    · subst e; simp at hx; subst hx; exact hL
    · simp only [Function.update_noteq e, hheap x e] at hx; exact h.2 x sx hx

/-- The invariant only looks at the records, the queue, the context pointers
and `brk` (which may grow). -/
theorem Inv.same {s : Sys} (h : Inv s) (w1 : World) (hheap : ∀ a, w1.heap a = s.w.heap a)
    (hstates : w1.llcf.states = s.w.llcf.states)
    (hctx : ∀ c, (w1.ctx c).state = (s.w.ctx c).state) (hb : s.w.brk ≤ w1.brk) :
    Inv { w := w1, held := s.held } := by
  constructor
  · have hv := h.1.grow hb
    refine hv.congr ?_ ?_ ?_ ?_ ?_
    · intro x; simp [Sys.view, hheap]
    · exact hstates
    · exact hctx
    · rfl
    · rfl
  · intro x sx hx
    rw [hheap] at hx; exact h.2 x sx hx

/-- A failed creation leaves records, queue and context pointers as they were. -/
theorem lws_create_state_fail_same (o : CreateOracle) (w w1 : World)
    (hb : w.heap w.brk = none) (h : lws_create_state o w = (none, w1)) :
    (∀ a, w1.heap a = w.heap a) ∧ w1.llcf.states = w.llcf.states ∧ w1.ctx = w.ctx ∧
      w.brk ≤ w1.brk := by
  rcases lws_create_state_cases o w with h1 | h1 | ⟨st, h1, -⟩ | ⟨st, h1, -⟩
  · rw [h1] at h; cases h; exact ⟨fun _ => rfl, rfl, rfl, le_refl _⟩
  · rw [h1] at h; cases h; exact ⟨fun _ => rfl, rfl, rfl, Nat.le_succ _⟩
  · rw [h1] at h; cases h
    refine ⟨?_, rfl, rfl, Nat.le_succ _⟩
    intro a
    simp only [close_state_at]
    by_cases e : a = w.brk
    · subst e; simp [hb]
    · simp [Function.update_noteq e]
  · rw [h1] at h; cases h

theorem Inv.acquire {s : Sys} (h : Inv s) (c : Nat) (o : CreateOracle) (hc : c ∉ s.held) :
    ∃ s1, step_intact s (.acquire c o) = some s1 ∧ Inv s1 := by
  cases hq : s.w.llcf.states with
  | cons q rest =>
    obtain ⟨st, hst, hin⟩ := h.free_live (q := q) (by rw [hq]; exact List.mem_cons_self _ _)
    have hpop := lws_acquire_state_pop o s.w c q rest st hq hst
    obtain ⟨-, -, -, -, -, -, f7⟩ := acquire_disarm_fields s.w.ngx_current_msec
      s.w.llcf.state_timeout st
    refine ⟨{ w := _, held := c :: s.held }, by
      simp only [step_intact, hpop, List.insert_of_not_mem hc, if_true]; rfl, ?_⟩
    refine h.bind_keeps _ hc (by simp [hst, hin]) (by rw [f7]; exact h.2 q st hst)
      (h.heap_below hst) (le_refl _) (fun _ _ => rfl) (by simp [hq]) rfl
  | nil =>
    rcases lws_acquire_state_create o s.w c hq with ⟨w1, hcr, hacq⟩ | ⟨st, hcr, hacq, hin, hL, -⟩
    · obtain ⟨g1, g2, g3, g4⟩ := lws_create_state_fail_same o s.w w1 h.heap_brk hcr
      refine ⟨{ w := w1, held := s.held }, by simp [step_intact, hacq], ?_⟩
      exact h.same w1 g1 g2 (by simp [g3]) g4
    · refine ⟨{ w := _, held := c :: s.held }, by
        simp only [step_intact, hacq, List.insert_of_not_mem hc, if_true]; rfl, ?_⟩
      refine h.bind_keeps _ hc (by simp [h.heap_brk]) hL (by simp [create_done]) (by simp [create_done])
        ?_ (by simp [create_done, hq]) rfl
      intro x hx
      simp [create_done, Function.update_noteq hx]

/-! ### Release -/

@[simp] theorem release_count_isSome (m : Option Monitor) :
    (release_count m).isSome = m.isSome := by
  cases m <;> rfl

/-- The record with its request counted. -/
theorem lws_release_state_eq (o : ReleaseOracle) (w : World) (c a : Nat) (st : State)
    (hc : (w.ctx c).state = some a) (hst : w.heap a = some st) (hns : a ∉ w.llcf.states) :
    lws_release_state o w c =
      some (if release_closes w.llcf { st with request_count := st.request_count + 1 } then
        close_state_at { w with monitor := release_count w.monitor } a
          { st with request_count := st.request_count + 1 }
      else
        { w with
          monitor := release_monitor (release_count w.monitor)
            (release_collect o w.llcf w.monitor.isSome
              { st with request_count := st.request_count + 1 })
          heap := Function.update w.heap a
            (some (release_record o w.llcf w.monitor.isSome w.ngx_current_msec
              { st with request_count := st.request_count + 1 }))
          llcf.states := a :: w.llcf.states }) := by
  simp only [lws_release_state, hc, hst, ngx_queue_insert_head, if_neg hns, release_count_isSome,
    release_record]
  split_ifs <;> rfl

@[simp] theorem release_rearm_in_use (now t : Nat) (st : State) :
    (release_rearm now t st).in_use = st.in_use := by
  unfold release_rearm; split_ifs <;> simp

@[simp] theorem release_rearm_close (now t : Nat) (st : State) :
    (release_rearm now t st).close = st.close := by
  unfold release_rearm; split_ifs <;> simp

@[simp] theorem release_rearm_request_count (now t : Nat) (st : State) :
    (release_rearm now t st).request_count = st.request_count := by
  unfold release_rearm; split_ifs <;> simp

@[simp] theorem release_rearm_memory_monitor (now t : Nat) (st : State) :
    (release_rearm now t st).memory_monitor = st.memory_monitor := by
  unfold release_rearm; split_ifs <;> simp

@[simp] theorem release_rearm_memory_used (now t : Nat) (st : State) :
    (release_rearm now t st).memory_used = st.memory_used := by
  unfold release_rearm; split_ifs <;> simp

@[simp] theorem release_rearm_L (now t : Nat) (st : State) :
    (release_rearm now t st).L = st.L := by
  unfold release_rearm; split_ifs <;> simp

@[simp] theorem release_rearm_timedout (now t : Nat) (st : State) :
    (release_rearm now t st).tev.timedout = st.tev.timedout := by
  unfold release_rearm; split_ifs <;> simp

theorem release_record_fields (o : ReleaseOracle) (llcf : LocConf) (mon : Bool) (now : Nat)
    (st : State) :
    (release_record o llcf mon now st).in_use = false ∧
      (release_record o llcf mon now st).close = st.close ∧
      (release_record o llcf mon now st).request_count = st.request_count ∧
      (release_record o llcf mon now st).tev.timedout = st.tev.timedout ∧
      ((release_record o llcf mon now st).L = none ↔ st.L = none) ∧
      (release_record o llcf mon now st).memory_used =
        (release_collect o llcf mon st).memory_used ∧
      (mon = true → (release_record o llcf mon now st).memory_monitor =
        (release_collect o llcf mon st).memory_used) ∧
      (mon = false → (release_record o llcf mon now st).memory_monitor = st.memory_monitor) := by
  have hk := release_collect_kept o llcf mon st
  simp only [State.kept, Prod.mk.injEq] at hk
  obtain ⟨k1, k2, k3, -, -, k6, -, k8⟩ := hk
  have hL : (release_collect o llcf mon st).L = none ↔ st.L = none := by
    rw [← Option.not_isSome_iff_eq_none, ← Option.not_isSome_iff_eq_none, k1]
  simp only [release_record]
  cases mon <;> simp [k2, k3, k6, k8, hL]

/-- The state of a holding context is destroyed (`r = none`) or put back on
the free list (`r = some _`, idle): the invariant is kept. -/
theorem Inv.unbind_keeps {s : Sys} (h : Inv s) {c a : Nat} (hc : c ∈ s.held)
    (ha : (s.w.ctx c).state = some a) (w1 : World) (r : Option State)
    (hheap : w1.heap = Function.update s.w.heap a r)
    (hr : ∀ st1, r = some st1 → st1.in_use = false ∧ st1.L ≠ none)
    (hstates : w1.llcf.states = if r.isNone then s.w.llcf.states else a :: s.w.llcf.states)
    (hctx : ∀ x, (w1.ctx x).state = (s.w.ctx x).state) (hbrk : w1.brk = s.w.brk) :
    Inv { w := w1, held := s.held.erase c } := by
  constructor
  · have hv := h.1.unbind (c := c) (a := a) hc ha r.isNone
    refine hv.congr ?_ ?_ ?_ ?_ ?_
    · intro x
      simp only [Sys.view, hheap]
      by_cases e : x = a
      · subst e
        cases r with
        | none => simp
        | some st1 => simp [(hr st1 rfl).1]
      · simp [Function.update_noteq e]
    · simp only [Sys.view, hstates]
    · exact hctx
    · rfl
    · exact hbrk
  · intro x sx hx
    simp only [hheap] at hx
    by_cases e : x = a
    · subst e; simp at hx; exact (hr sx hx).2
    · simp only [Function.update_noteq e] at hx; exact h.2 x sx hx

theorem Inv.release {s : Sys} (h : Inv s) (c : Nat) (o : ReleaseOracle) (hc : c ∈ s.held) :
    ∃ s1, step_intact s (.release c o) = some s1 ∧ Inv s1 := by
  obtain ⟨a, st, ha, hst, -, hL, hns, -⟩ := h.held_live hc
  have heq := lws_release_state_eq o s.w c a st ha hst hns
  refine ⟨{ w := _, held := s.held.erase c }, by simp only [step_intact, heq]; rfl, ?_⟩
  split_ifs with hcl
  · exact h.unbind_keeps hc ha _ none (by simp [close_state_at]) (by simp) (by simp [close_state_at])
      (by simp [close_state_at]) (by simp [close_state_at])
  · obtain ⟨f1, -, -, -, f5, -⟩ := release_record_fields o s.w.llcf s.w.monitor.isSome
      s.w.ngx_current_msec { st with request_count := st.request_count + 1 }
    refine h.unbind_keeps hc ha _ (some _) rfl ?_ (by simp) (by simp) (by simp)
    intro st1 e
    cases e
    exact ⟨f1, fun hn => hL (f5.mp hn)⟩

/-! ### Protected run -/

/-- What `lws_run_state` does on a context whose state is live and has a Lua
state: it returns, the record of the state is replaced by one that differs at
most in the Lua state, the accounted memory and the close flag, and the
context keeps its state pointer. On failure the result is -1 and the close
flag is set; on success the close flag is as before. -/
theorem lws_run_state_cases (o : RunOracle) (w : World) (c a : Nat) (st : State) (L : LuaState)
    (hc : (w.ctx c).state = some a) (hst : w.heap a = some st) (hL : st.L = some L) :
    ∃ r w1 st1, lws_run_state o w c = some (r, w1) ∧
      w1.heap = Function.update w.heap a (some st1) ∧
      (∀ x, (w1.ctx x).state = (w.ctx x).state) ∧ w1.llcf = w.llcf ∧ w1.brk = w.brk ∧
      w1.monitor = w.monitor ∧ w1.ngx_current_msec = w.ngx_current_msec ∧
      st1.in_use = st.in_use ∧ st1.L ≠ none ∧ st1.memory_monitor = st.memory_monitor ∧
      st1.request_count = st.request_count ∧ st1.tev = st.tev ∧
      (∀ e, o.outcome = .error e → r = -1 ∧ st1.close = true) ∧
      (∀ v, o.outcome = .ok v → st1.close = st.close) := by
  simp only [lws_run_state, hc, hst, hL]
  cases ho : o.outcome with
  | ok v =>
    simp only [lua_pcall_ext, if_true]
    refine ⟨_, _, _, rfl, rfl, fun _ => rfl, rfl, rfl, rfl, rfl, ?_⟩
    simp
  | error e =>
    simp only [lua_pcall_ext, LUA_ERRRUN, LUA_OK, OfNat.ofNat_ne_zero, if_false]
    refine ⟨_, _, _, rfl, rfl, ?_, rfl, rfl, rfl, rfl, ?_⟩
    · intro x
      by_cases hx : x = c
      · subst hx; simp [hc]
      · simp [Function.update_noteq hx]
    · simp

theorem Inv.run {s : Sys} (h : Inv s) (c : Nat) (o : RunOracle) (hc : c ∈ s.held) :
    ∃ s1, step_intact s (.run c o) = some s1 ∧ Inv s1 := by
  obtain ⟨a, st, ha, hst, -, hL, -, -⟩ := h.held_live hc
  obtain ⟨L, hL1⟩ := Option.ne_none_iff_exists'.mp hL
  obtain ⟨r, w1, st1, hrun, g1, g2, g3, g4, -, -, g7, g8, -⟩ :=
    lws_run_state_cases o s.w c a st L ha hst hL1
  refine ⟨{ w := w1, held := s.held }, by simp only [step_intact, hrun], ?_⟩
  exact h.modify w1 hst g7 g8 g1 (by rw [g3]) g2 g4

/-! ### Timer expiry -/

/-- Expiry of the timer of an idle state on the free list: the state is taken
off the list and destroyed. -/
theorem ngx_event_expire_timer_idle (w : World) (a : Nat) (st : State)
    (hst : w.heap a = some st) (hset : st.tev.timer_set = true) (hin : st.in_use = false)
    (hm : a ∈ w.llcf.states) :
    ngx_event_expire_timer w a =
      some (close_state_at { w with llcf.states := w.llcf.states.erase a } a
        { st with tev := { st.tev with timer_set := false, timedout := true } }) := by
  simp [ngx_event_expire_timer, hst, hset, lws_state_timer_handler, hin, ngx_queue_remove, hm,
    lws_close_state, close_state_at]

/-- Expiry of the timer of a state in use: only the flags `timer_set` and
`timedout` of its timer change. -/
theorem ngx_event_expire_timer_in_use (w : World) (a : Nat) (st : State)
    (hst : w.heap a = some st) (hset : st.tev.timer_set = true) (hin : st.in_use = true) :
    ngx_event_expire_timer w a =
      some { w with heap := Function.update w.heap a (some { st with tev := { st.tev with timer_set := false, timedout := true } }) } := by
  simp [ngx_event_expire_timer, hst, hset, lws_state_timer_handler, hin]

/-- An idle state leaves the free list and is destroyed: the invariant is kept. -/
theorem Inv.evict_keeps {s : Sys} (h : Inv s) {a : Nat} {st : State} (hst : s.w.heap a = some st)
    (hin : st.in_use = false) (w1 : World)
    (hheap : w1.heap = Function.update s.w.heap a none)
    (hstates : w1.llcf.states = s.w.llcf.states.erase a)
    (hctx : w1.ctx = s.w.ctx) (hbrk : w1.brk = s.w.brk) :
    Inv { w := w1, held := s.held } := by
  constructor
  · have hv := h.1.evict (a := a) (by simp [Sys.view, hst, hin])
    refine hv.congr ?_ ?_ ?_ ?_ ?_
    · intro x
      simp only [Sys.view, hheap]
      by_cases e : x = a
      · subst e; simp
      · simp [Function.update_noteq e]
    · exact hstates
    · intro x; simp [Sys.view, hctx]
    · rfl
    · exact hbrk
  · intro x sx hx
    simp only [hheap] at hx
    by_cases e : x = a
    · subst e; simp at hx
    · simp only [Function.update_noteq e] at hx; exact h.2 x sx hx

theorem Inv.timer {s : Sys} (h : Inv s) (a : Nat) {s1 : Sys}
    (hstep : step_intact s (.timer a) = some s1) : Inv s1 := by
  simp only [step_intact] at hstep
  cases hst : s.w.heap a with
  | none => simp [ngx_event_expire_timer, hst] at hstep
  | some st =>
    cases hset : st.tev.timer_set with
    | false => simp [ngx_event_expire_timer, hst, hset] at hstep
    | true =>
      cases hin : st.in_use with
      | false =>
        have hm : a ∈ s.w.llcf.states := h.1.idle_free a (by simp [Sys.view, hst, hin])
        rw [ngx_event_expire_timer_idle s.w a st hst hset hin hm] at hstep
        simp only [Option.some.injEq] at hstep
        subst hstep
        exact h.evict_keeps hst hin _ (by simp [close_state_at]) (by simp [close_state_at])
          (by simp [close_state_at]) (by simp [close_state_at])
      | true =>
        rw [ngx_event_expire_timer_in_use s.w a st hst hset hin] at hstep
        simp only [Option.some.injEq] at hstep
        subst hstep
        exact @Inv.modify s h a st
          { st with tev := { st.tev with timer_set := false, timedout := true } }
          _ hst rfl (h.2 a st hst) rfl rfl (fun _ => rfl) rfl

/-! ### Every disciplined event -/

/-- A disciplined event on a well-formed pool keeps it well-formed. -/
theorem Inv.step_keeps {s s1 : Sys} (h : Inv s) (e : Event) (hd : disciplined s e = true)
    (hstep : step_intact s e = some s1) : Inv s1 := by
  cases e with
  | acquire c o =>
    obtain ⟨s2, h2, hi⟩ := h.acquire c o (by simpa [disciplined] using hd)
    rw [h2] at hstep; cases hstep; exact hi
  | run c o =>
    obtain ⟨s2, h2, hi⟩ := h.run c o (by simpa [disciplined, release_on_held] using hd)
    rw [h2] at hstep; cases hstep; exact hi
  | release c o =>
    obtain ⟨s2, h2, hi⟩ := h.release c o (by simpa [disciplined, release_on_held] using hd)
    rw [h2] at hstep; cases hstep; exact hi
  | timer a => exact h.timer a hstep
  | tick now =>
    simp only [step_intact, Option.some.injEq] at hstep
    subst hstep
    exact h.same _ (fun _ => rfl) rfl (fun _ => rfl) (le_refl _)

/-- A disciplined event on a well-formed pool has a defined outcome; for a
timer event, provided the timer of a live state is set. -/
theorem Inv.progress {s : Sys} (h : Inv s) (e : Event) (hd : disciplined s e = true)
    (ht : ∀ a, e = .timer a → ∃ st, s.w.heap a = some st ∧ st.tev.timer_set = true) :
    ∃ s1, step_intact s e = some s1 := by
  cases e with
  | acquire c o =>
    obtain ⟨s2, h2, -⟩ := h.acquire c o (by simpa [disciplined] using hd)
    exact ⟨s2, h2⟩
  | run c o =>
    obtain ⟨s2, h2, -⟩ := h.run c o (by simpa [disciplined, release_on_held] using hd)
    exact ⟨s2, h2⟩
  | release c o =>
    obtain ⟨s2, h2, -⟩ := h.release c o (by simpa [disciplined, release_on_held] using hd)
    exact ⟨s2, h2⟩
  | timer a =>
    obtain ⟨st, hst, hset⟩ := ht a rfl
    cases hin : st.in_use with
    | false =>
      have hm : a ∈ s.w.llcf.states := h.1.idle_free a (by simp [Sys.view, hst, hin])
      exact ⟨_, by simp only [step_intact, ngx_event_expire_timer_idle s.w a st hst hset hin hm]; rfl⟩
    | true =>
      exact ⟨_, by simp only [step_intact, ngx_event_expire_timer_in_use s.w a st hst hset hin]; rfl⟩
  | tick now => exact ⟨_, rfl⟩

theorem Inv.at_start (conf : LocConf) (monitor : Option Monitor) (now : Nat) :
    Inv (Sys.init conf monitor now) := by
  constructor
  · constructor <;> simp [Sys.init, Sys.view]
  · intro a st hst
    simp [Sys.init] at hst

/-- Every pool reached from the start of the worker by disciplined events is
well-formed. -/
theorem Inv.exec_keeps {s s1 : Sys} (h : Inv s) (es : List Event)
    (hex : exec disciplined s es = some s1) : Inv s1 := by
  induction es generalizing s with
  | nil => simp only [exec, Option.some.injEq] at hex; subst hex; exact h
  | cons e es ih =>
    simp only [exec] at hex
    split_ifs at hex with hd
    cases hs : step s e with
    | none => rw [hs] at hex; cases hex
    | some s2 =>
      rw [hs] at hex
      exact ih (h.step_keeps e hd (step_intact_of_step hs)) hex

/-! ## Exclusive ownership (C3) -/

theorem exec_append (ok : Sys → Event → Bool) (s : Sys) (es1 es2 : List Event) :
    exec ok s (es1 ++ es2) = (exec ok s es1).bind fun s1 => exec ok s1 es2 := by
  induction es1 generalizing s with
  | nil => rfl
  | cons e es ih =>
    simp only [List.cons_append, exec]
    split_ifs
    · cases step s e with
      | none => rfl
      | some s1 => exact ih s1
    · rfl

/-- Every initial part of a sequence that runs to the end runs to its end. -/
theorem exec_initial (ok : Sys → Event → Bool) (s s1 : Sys) (es pre : List Event)
    (h : exec ok s es = some s1) (hpre : pre <+: es) : ∃ s2, exec ok s pre = some s2 := by
  obtain ⟨t, rfl⟩ := hpre
  rw [exec_append] at h
  cases hp : exec ok s pre with
  | none => rw [hp] at h; cases h
  | some s2 => exact ⟨s2, rfl⟩

theorem orphan_not_exclusive (s : Sys) (a : Nat) (h : orphan s a = true) :
    ¬ ExclusiveOwnership s := by
  intro hx
  unfold orphan at h
  cases hst : s.w.heap a with
  | none => rw [hst] at h; cases h
  | some st =>
    rw [hst] at h
    simp only [Bool.and_eq_true, Bool.not_eq_true', List.any_eq_false, beq_iff_eq] at h
    rcases hx.2 a st hst with ⟨-, hin, -⟩ | ⟨-, -, c, ⟨hc, ho⟩, -⟩
    · rw [h.1] at hin; cases hin
    · exact h.2 c hc ho

/-- C3, as stated, fails: nothing keeps a context that already holds a state
from acquiring again. After two acquisitions on context 0 (release is never
called), the state created first, at address 1, is live and in use, yet no
outstanding context references it. -/
theorem exclusive_ownership_fails_on_second_acquire :
    ∃ s, exec release_on_held (Sys.init demo_conf none 0)
        [.acquire 0 demo_create, .acquire 0 demo_create] = some s ∧
      ¬ ExclusiveOwnership s := by
  have h : ((exec release_on_held (Sys.init demo_conf none 0)
      [.acquire 0 demo_create, .acquire 0 demo_create]).map fun s => orphan s 1) = some true := by
    decide
  cases hs : exec release_on_held (Sys.init demo_conf none 0)
      [.acquire 0 demo_create, .acquire 0 demo_create] with
  | none => rw [hs] at h; cases h
  | some s =>
    rw [hs] at h
    exact ⟨s, rfl, orphan_not_exclusive s 1 (by simpa using h)⟩

/-- C3, amended: for every sequence of acquire, run, release, timer expiry
(of a set timer of a live state) and clock events from the start of a worker,
in which release is only called on a context that holds an acquired state and
acquire only on a context that holds none, after every initial part of the
sequence no two outstanding contexts reference the same state, and every live
state is either on the free list with `in_use = 0` or off the list with
`in_use = 1` and referenced by exactly one outstanding context. -/
theorem exclusive_ownership (conf : LocConf) (monitor : Option Monitor) (now : Nat)
    (es pre : List Event) (s : Sys)
    (hrun : exec disciplined (Sys.init conf monitor now) es = some s) (hpre : pre <+: es) :
    ∃ s1, exec disciplined (Sys.init conf monitor now) pre = some s1 ∧ ExclusiveOwnership s1 := by
  obtain ⟨s1, h1⟩ := exec_initial _ _ _ _ _ hrun hpre
  exact ⟨s1, h1, ((Inv.at_start conf monitor now).exec_keeps pre h1).exclusive⟩

/-- Witness of C3 amended: two contexts acquire, one request fails, both
release, the first context acquires again and the timer of its state expires. -/
theorem exclusive_ownership_witness :
    ∃ s1, exec disciplined (Sys.init demo_conf none 0)
        [.acquire 0 demo_create, .acquire 1 demo_create, .run 1 demo_run_fails,
          .release 0 demo_release, .release 1 demo_release, .acquire 1 demo_create,
          .tick 7000, .acquire 0 demo_create, .release 1 demo_release, .timer 1] = some s1 ∧
      ExclusiveOwnership s1 :=
  exclusive_ownership demo_conf none 0
    [.acquire 0 demo_create, .acquire 1 demo_create, .run 1 demo_run_fails,
      .release 0 demo_release, .release 1 demo_release, .acquire 1 demo_create,
      .tick 7000, .acquire 0 demo_create, .release 1 demo_release, .timer 1] _ _
    (by rfl) (List.prefix_refl _)

/-! ## LIFO reuse (C9) -/

/-- C9: with a non-empty free list whose head is a live state,
`lws_acquire_state` returns 0 with the head bound to the context and marked
in use, the rest of the list in the same order, no state created and no other
record touched; and when `lws_release_state` recycles the state of a context
(the state is live afterwards), the acquire that follows returns that state
and leaves the free list as it was before the release. -/
theorem acquire_lifo (w : World) :
    (∀ (o : CreateOracle) (c q : Nat) (rest : List Nat) (st : State),
      w.llcf.states = q :: rest → w.heap q = some st →
      ∃ w1 st1, lws_acquire_state o w c = some (0, w1) ∧ (w1.ctx c).state = some q ∧
        w1.heap q = some st1 ∧ st1.in_use = true ∧ w1.llcf.states = rest ∧
        w1.brk = w.brk ∧ w1.llcf.states_n = w.llcf.states_n ∧
        ∀ x, x ≠ q → w1.heap x = w.heap x) ∧
    (∀ (ro : ReleaseOracle) (c a : Nat) (w1 : World) (st1 : State),
      (w.ctx c).state = some a → lws_release_state ro w c = some w1 → w1.heap a = some st1 →
      ∀ (o : CreateOracle) (c2 : Nat),
        ∃ w2, lws_acquire_state o w1 c2 = some (0, w2) ∧ (w2.ctx c2).state = some a ∧
          w2.llcf.states = w.llcf.states) := by
  have pop : ∀ (w : World) (o : CreateOracle) (c q : Nat) (rest : List Nat) (st : State),
      w.llcf.states = q :: rest → w.heap q = some st →
      ∃ w1 st1, lws_acquire_state o w c = some (0, w1) ∧ (w1.ctx c).state = some q ∧
        w1.heap q = some st1 ∧ st1.in_use = true ∧ w1.llcf.states = rest ∧
        w1.brk = w.brk ∧ w1.llcf.states_n = w.llcf.states_n ∧
        ∀ x, x ≠ q → w1.heap x = w.heap x := by
    intro w o c q rest st hq hst
    refine ⟨_, { acquire_disarm w.ngx_current_msec w.llcf.state_timeout st with
        profiler := (match w.monitor with
          | some m => m.profiler
          | none => 0)
        in_use := true }, lws_acquire_state_pop o w c q rest st hq hst, ?_, ?_, rfl, rfl, rfl, rfl, ?_⟩
    · simp [acquire_bind]
    · simp only [acquire_bind, Function.update_same]
    · intro x hx
      simp [acquire_bind, Function.update_noteq hx]
  refine ⟨pop w, ?_⟩
  intro ro c a w1 st1 hc hrel hlive o c2
  cases hst : w.heap a with
  | none => simp [lws_release_state, hc, hst] at hrel
  | some st =>
    by_cases hm : a ∈ w.llcf.states
    · simp only [lws_release_state, hc, hst, ngx_queue_insert_head, if_pos hm] at hrel
      split_ifs at hrel
      simp only [Option.some.injEq] at hrel
      subst hrel
      simp [close_state_at] at hlive
    · rw [lws_release_state_eq ro w c a st hc hst hm] at hrel
      simp only [Option.some.injEq] at hrel
      split_ifs at hrel with hcl
      · subst hrel
        simp [close_state_at] at hlive
      · have hstates : w1.llcf.states = a :: w.llcf.states := by rw [← hrel]
        obtain ⟨w2, st2, h1, h2, -, -, h5, -⟩ := pop w1 o c2 a w.llcf.states st1 hstates hlive
        exact ⟨w2, h1, h2, h5⟩

/-- Witness of C9: context 0 and context 1 release the states at 1 and 2; the
free list is `[2, 1]`, the next acquire hands out 2 and leaves `[1]`; and after
the release of the state at 2 the next acquire hands out 2 again. -/
theorem acquire_lifo_witness :
    (∃ w1 st1, lws_acquire_state demo_create
        (demo_sys demo_conf [.acquire 0 demo_create, .acquire 1 demo_create, .release 0 demo_release,
          .release 1 demo_release]).w 5 = some (0, w1) ∧
      (w1.ctx 5).state = some 2 ∧ w1.heap 2 = some st1 ∧ st1.in_use = true ∧
      w1.llcf.states = [1]) ∧
    (∃ w1 w2, lws_release_state demo_release
        (demo_sys demo_conf [.acquire 0 demo_create, .acquire 1 demo_create, .release 0 demo_release]).w 1 =
          some w1 ∧
      lws_acquire_state demo_create w1 5 = some (0, w2) ∧ (w2.ctx 5).state = some 2 ∧
      w2.llcf.states = [1]) := by
  constructor
  · obtain ⟨w1, st1, h1, h2, h3, h4, h5, -⟩ :=
      (acquire_lifo (demo_sys demo_conf [.acquire 0 demo_create, .acquire 1 demo_create,
        .release 0 demo_release, .release 1 demo_release]).w).1 demo_create 5 2 [1] _ rfl rfl
    exact ⟨w1, st1, h1, h2, h3, h4, h5⟩
  · obtain ⟨w2, h1, h2, h3⟩ :=
      (acquire_lifo (demo_sys demo_conf [.acquire 0 demo_create, .acquire 1 demo_create,
        .release 0 demo_release]).w).2 demo_release 1 2 _ _ rfl rfl rfl demo_create 5
    exact ⟨_, w2, rfl, h1, h2, h3⟩

/-! ## Closure at release, timer expiry (C8) -/

/-- A record flagged for closure, or whose timer has fired, passes the test
"close state?". -/
theorem release_closes_of_flag (llcf : LocConf) (st : State)
    (h : st.close = true ∨ st.tev.timedout = true) : release_closes llcf st = true := by
  unfold release_closes
  rcases h with h | h <;> simp [h]

/-- A release that passes the test "close state?" destroys the state and
leaves the free list as it is. -/
theorem lws_release_state_destroys (o : ReleaseOracle) (w : World) (c a : Nat) (st : State)
    (hc : (w.ctx c).state = some a) (hst : w.heap a = some st) (hns : a ∉ w.llcf.states)
    (hcl : release_closes w.llcf { st with request_count := st.request_count + 1 } = true) :
    ∃ w1, lws_release_state o w c = some w1 ∧ w1.heap a = none ∧
      w1.llcf.states = w.llcf.states ∧ w1.llcf.states_n = w.llcf.states_n - 1 ∧
      w1.brk = w.brk ∧ ∀ x, x ≠ a → w1.heap x = w.heap x := by
  rw [lws_release_state_eq o w c a st hc hst hns, if_pos hcl]
  refine ⟨_, rfl, by simp [close_state_at], rfl, rfl, rfl, ?_⟩
  intro x hx
  simp [close_state_at, Function.update_noteq hx]

/-- C8: in a pool reached by disciplined events, let the timer of a live
state fire. If the state is not in use, `lws_state_timer_handler` takes it off
the free list and destroys it, and the live count of the pool goes down by
exactly one (from 1 to 0); nginx calls the handler with the timer unset, and
the handler called while the timer is still set does the same and leaves the
timer registered. If the state is in use, the handler
changes nothing at all; the expiry only leaves `timedout` set (and
`timer_set` cleared) in the timer of the state, and the next release of the
state destroys it and leaves the free list as it is. -/
theorem timer_expiry (conf : LocConf) (monitor : Option Monitor) (now : Nat) (es : List Event)
    (s : Sys) (hrun : exec disciplined (Sys.init conf monitor now) es = some s)
    (a : Nat) (st : State) (hst : s.w.heap a = some st) (hset : st.tev.timer_set = true) :
    (st.in_use = false →
      a ∈ s.w.llcf.states ∧
      ∃ w1, lws_state_timer_handler { s.w with heap := (Function.update s.w.heap a
          (some { st with tev := { st.tev with timer_set := false, timedout := true } })) } a =
          some w1 ∧
        lws_state_timer_handler s.w a = some { w1 with dangling := a :: s.w.dangling } ∧
        ngx_event_expire_timer s.w a = some w1 ∧
        w1.heap a = none ∧ w1.llcf.states = s.w.llcf.states.erase a ∧ a ∉ w1.llcf.states ∧
        w1.llcf.states_n = s.w.llcf.states_n - 1 ∧ ∀ x, x ≠ a → w1.heap x = s.w.heap x) ∧
    (st.in_use = true →
      lws_state_timer_handler s.w a = some s.w ∧
      ∃ w1, ngx_event_expire_timer s.w a = some w1 ∧
        w1.heap a = some { st with tev := { st.tev with timer_set := false, timedout := true } } ∧
        (∀ x, x ≠ a → w1.heap x = s.w.heap x) ∧ w1.llcf = s.w.llcf ∧ w1.ctx = s.w.ctx ∧
        w1.monitor = s.w.monitor ∧
        ∀ (c : Nat) (ro : ReleaseOracle), (s.w.ctx c).state = some a →
          ∃ w2, lws_release_state ro w1 c = some w2 ∧ w2.heap a = none ∧
            w2.llcf.states = s.w.llcf.states ∧ a ∉ w2.llcf.states) := by
  have hinv : Inv s := (Inv.at_start conf monitor now).exec_keeps es hrun
  constructor
  · intro hin
    have hm : a ∈ s.w.llcf.states := hinv.1.idle_free a (by simp [Sys.view, hst, hin])
    refine ⟨hm, _, ?_, ?_, ngx_event_expire_timer_idle s.w a st hst hset hin hm, ?_, rfl, ?_, rfl,
      ?_⟩
    · simp [lws_state_timer_handler, hin, ngx_queue_remove, hm, lws_close_state, close_state_at]
    · simp [lws_state_timer_handler, hst, hin, ngx_queue_remove, hm, lws_close_state,
        close_state_at, hset]
    · simp [close_state_at]
    · exact fun hmem => (hinv.1.free_nodup.mem_erase_iff.mp hmem).1 rfl
    · intro x hx
      simp [close_state_at, Function.update_noteq hx]
  · intro hin
    have hns : a ∉ s.w.llcf.states := fun hm => by
      obtain ⟨st1, h1, h2⟩ := hinv.free_live hm
      rw [hst] at h1; cases h1
      rw [hin] at h2; cases h2
    have hex : ∃ w1, ngx_event_expire_timer s.w a = some w1 ∧
        w1.heap = Function.update s.w.heap a
          (some { st with tev := { st.tev with timer_set := false, timedout := true } }) ∧
        w1.llcf = s.w.llcf ∧ w1.ctx = s.w.ctx ∧ w1.monitor = s.w.monitor :=
      ⟨_, ngx_event_expire_timer_in_use s.w a st hst hset hin, rfl, rfl, rfl, rfl⟩
    obtain ⟨w1, e1, e2, e3, e4, e5⟩ := hex
    refine ⟨by simp [lws_state_timer_handler, hst, hin], w1, e1, by simp [e2], ?_, e3, e4, e5, ?_⟩
    · intro x hx
      simp [e2, Function.update_noteq hx]
    · intro c ro hc
      obtain ⟨w2, h1, h2, h3, -⟩ := lws_release_state_destroys ro w1
        c a { st with tev := { st.tev with timer_set := false, timedout := true } }
        (by rw [e4]; exact hc) (by simp [e2]) (by rw [e3]; exact hns)
        (release_closes_of_flag _ _ (Or.inr rfl))
      rw [e3] at h3
      exact ⟨w2, h1, h2, h3, by rw [h3]; exact hns⟩

/-- Witness of C8. With an idle timeout of 5000 ms and one state, released
and idle: the expiry of its timer empties the free list and brings the live
count from 1 to 0. With a maximum lifetime and the state in use: the handler
changes nothing, and the release after the expiry destroys the state. -/
theorem timer_expiry_witness :
    (∃ st w1, (demo_sys demo_conf [.acquire 0 demo_create, .release 0 demo_release,
          .tick 5000]).w.heap 1 = some st ∧ st.in_use = false ∧
      (demo_sys demo_conf [.acquire 0 demo_create, .release 0 demo_release,
          .tick 5000]).w.llcf.states_n = 1 ∧
      ngx_event_expire_timer (demo_sys demo_conf [.acquire 0 demo_create,
          .release 0 demo_release, .tick 5000]).w 1 = some w1 ∧
      w1.heap 1 = none ∧ w1.llcf.states = [] ∧ w1.llcf.states_n = 0) ∧
    (∃ w1 w2, lws_state_timer_handler (demo_sys demo_conf_lifetime [.acquire 0 demo_create]).w 1 =
        some (demo_sys demo_conf_lifetime [.acquire 0 demo_create]).w ∧
      ngx_event_expire_timer (demo_sys demo_conf_lifetime [.acquire 0 demo_create]).w 1 =
        some w1 ∧
      lws_release_state demo_release w1 0 = some w2 ∧ w2.heap 1 = none ∧
      w2.llcf.states = []) := by
  constructor
  · obtain ⟨-, w1, -, -, h2, h3, h4, -, h6, -⟩ :=
      (timer_expiry demo_conf none 0 [.acquire 0 demo_create, .release 0 demo_release, .tick 5000]
        (demo_sys demo_conf [.acquire 0 demo_create, .release 0 demo_release, .tick 5000])
        rfl 1 _ rfl rfl).1 rfl
    exact ⟨_, w1, rfl, rfl, rfl, h2, h3, h4, h6⟩
  · obtain ⟨h1, w1, h2, -, -, -, -, -, h3⟩ :=
      (timer_expiry demo_conf_lifetime none 0 [.acquire 0 demo_create]
        (demo_sys demo_conf_lifetime [.acquire 0 demo_create]) rfl 1 _ rfl rfl).2 rfl
    obtain ⟨w2, h4, h5, h6, -⟩ := h3 0 demo_release rfl
    exact ⟨w1, w2, h1, h2, h4, h5, h6⟩

/-! ## Monitor memory accounting (C6) -/

theorem cast_wadd (a b : Nat) : ((wadd a b : Nat) : ZMod WORD) = (a : ZMod WORD) + b := by
  simp [wadd, ZMod.natCast_mod]

theorem cast_wsub (a b : Nat) : ((wsub a b : Nat) : ZMod WORD) = (a : ZMod WORD) - b := by
  have hw : b % WORD ≤ WORD := (Nat.mod_lt _ WORD_pos).le
  simp only [wsub, ZMod.natCast_mod, Nat.cast_add, Nat.cast_sub hw, ZMod.natCast_self]
  ring

/-- The sum of `memory_monitor` over the records below `n`, in words. -/
theorem monitor_sum_cast (heap : Nat → Option State) (n : Nat) :
    ((((List.range n).map (monitored_at heap)).sum : Nat) : ZMod WORD) =
      ∑ i in Finset.range n, (monitored_at heap i : ZMod WORD) := by
  induction n with
  | zero => simp
  | succ n ih => rw [List.sum_range_succ, Finset.sum_range_succ, Nat.cast_add, ih]

theorem monitor_sum_update (heap : Nat → Option State) (n a : Nat) (x : Option State)
    (ha : a < n) :
    (∑ i in Finset.range n, (monitored_at (Function.update heap a x) i : ZMod WORD)) =
      (∑ i in Finset.range n, (monitored_at heap i : ZMod WORD)) - monitored_at heap a +
        monitored_at (Function.update heap a x) a := by
  have hmem : a ∈ Finset.range n := Finset.mem_range.mpr ha
  rw [← Finset.add_sum_erase _ _ hmem, ← Finset.add_sum_erase (Finset.range n)
    (fun i => (monitored_at heap i : ZMod WORD)) hmem]
  have : ∑ i in (Finset.range n).erase a, (monitored_at (Function.update heap a x) i : ZMod WORD) =
      ∑ i in (Finset.range n).erase a, (monitored_at heap i : ZMod WORD) := by
    apply Finset.sum_congr rfl
    intro i hi
    have hne : i ≠ a := (Finset.mem_erase.mp hi).1
    simp [monitored_at, Function.update_noteq hne]
  rw [this]
  ring

/-- One record is replaced, created in place or destroyed, and the aggregate
moves by the difference of the monitored values: the invariant is kept. -/
theorem MonInv.update_keeps {m0 : Nat} {w : World} (h : MonInv m0 w) (w1 : World) (a : Nat)
    (x : Option State) (m m1 : Monitor) (hm : w.monitor = some m) (hm1 : w1.monitor = some m1)
    (ha : a < w.brk) (hheap : w1.heap = Function.update w.heap a x) (hbrk : w1.brk = w.brk)
    (hlt : m1.memory_used < WORD)
    (hmem : (m1.memory_used : ZMod WORD) =
      (m.memory_used : ZMod WORD) - monitored_at w.heap a + monitored_at w1.heap a) :
    MonInv m0 w1 := by
  obtain ⟨hb, m', hm', -, hsum⟩ := h
  rw [hm] at hm'; cases hm'
  constructor
  · intro y st hy
    rw [hbrk]
    rw [hheap] at hy
    by_cases e : y = a
    · rw [e]; exact ha
    · rw [Function.update_noteq e] at hy; exact hb y st hy
  · refine ⟨m1, hm1, hlt, ?_⟩
    rw [hmem, hbrk, hheap, monitor_sum_update w.heap w.brk a x ha, hsum]
    ring

/-- A fresh address is consumed, with no record or with a record whose
monitored value is 0, and the aggregate stays: the invariant is kept. -/
theorem MonInv.mon_grow_keeps {m0 : Nat} {w : World} (h : MonInv m0 w) (w1 : World)
    (x : Option State) (m m1 : Monitor) (hm : w.monitor = some m) (hm1 : w1.monitor = some m1)
    (hheap : w1.heap = Function.update w.heap w.brk x) (hbrk : w1.brk = w.brk + 1)
    (hx : ∀ st, x = some st → st.memory_monitor = 0)
    (hmem : m1.memory_used = m.memory_used) : MonInv m0 w1 := by
  obtain ⟨hb, m', hm', hlt, hsum⟩ := h
  rw [hm] at hm'; cases hm'
  have hnone : w.heap w.brk = none := by
    cases hh : w.heap w.brk with
    | none => rfl
    | some st => exact absurd (hb _ st hh) (lt_irrefl _)
  constructor
  · intro y st hy
    rw [hbrk]
    rw [hheap] at hy
    by_cases e : y = w.brk
    · omega
    · rw [Function.update_noteq e] at hy
      exact Nat.lt_succ_of_lt (hb y st hy)
  · refine ⟨m1, hm1, by rw [hmem]; exact hlt, ?_⟩
    rw [hmem, hbrk, hheap, monitor_sum_update w.heap (w.brk + 1) w.brk x (Nat.lt_succ_self _),
      Finset.sum_range_succ, hsum]
    have h0 : monitored_at w.heap w.brk = 0 := by simp [monitored_at, hnone]
    have h1 : monitored_at (Function.update w.heap w.brk x) w.brk = 0 := by
      cases x with
      | none => simp [monitored_at]
      | some st => simp [monitored_at, hx st rfl]
    rw [h0, h1]
    simp

/-- A release that returns has found a live record behind the context, and has
either destroyed it or, the record being off the queue, put it back. -/
theorem lws_release_state_some (o : ReleaseOracle) (w : World) (c : Nat) (w1 : World)
    (h : lws_release_state o w c = some w1) :
    ∃ a st, (w.ctx c).state = some a ∧ w.heap a = some st ∧
      ((release_closes w.llcf { st with request_count := st.request_count + 1 } = true ∧
        w1 = close_state_at { w with monitor := release_count w.monitor } a
          { st with request_count := st.request_count + 1 }) ∨
      (release_closes w.llcf { st with request_count := st.request_count + 1 } = false ∧
        a ∉ w.llcf.states ∧
        w1 =
          { w with
            monitor := release_monitor (release_count w.monitor)
              (release_collect o w.llcf w.monitor.isSome
                { st with request_count := st.request_count + 1 })
            heap := Function.update w.heap a
              (some (release_record o w.llcf w.monitor.isSome w.ngx_current_msec
                { st with request_count := st.request_count + 1 }))
            llcf.states := a :: w.llcf.states })) := by
  cases hc : (w.ctx c).state with
  | none => simp [lws_release_state, hc] at h
  | some a =>
    cases hst : w.heap a with
    | none => simp [lws_release_state, hc, hst] at h
    | some st =>
      refine ⟨a, st, rfl, hst, ?_⟩
      by_cases hcl : release_closes w.llcf { st with request_count := st.request_count + 1 } = true
      · left
        simp only [lws_release_state, hc, hst, if_pos hcl, Option.some.injEq] at h
        exact ⟨hcl, h.symm⟩
      · right
        by_cases hm : a ∈ w.llcf.states
        · simp [lws_release_state, hc, hst, hcl, ngx_queue_insert_head, hm] at h
        · rw [lws_release_state_eq o w c a st hc hst hm, if_neg hcl] at h
          simp only [Option.some.injEq] at h
          exact ⟨by simpa using hcl, hm, h.symm⟩

theorem monitored_at_update_same (heap : Nat → Option State) (a : Nat) (x : Option State) :
    monitored_at (Function.update heap a x) a = match x with
      | some st => st.memory_monitor
      | none => 0 := by
  simp [monitored_at]

/-- Destruction keeps the accounting invariant. -/
theorem MonInv.close_keeps {m0 : Nat} {w : World} (h : MonInv m0 w) (a : Nat) (st : State)
    (hst : w.heap a = some st) (w0 : World) (st0 : State)
    (hmon : w0.monitor.map Monitor.memory_used = w.monitor.map Monitor.memory_used)
    (hheap : Function.update w0.heap a none = Function.update w.heap a none)
    (hbrk : w0.brk = w.brk) (hst0 : st0.memory_monitor = st.memory_monitor) :
    MonInv m0 (close_state_at w0 a st0) := by
  obtain ⟨m, hm, hlt, -⟩ := id h.2
  cases hm0 : w0.monitor with
  | none => rw [hm0, hm] at hmon; cases hmon
  | some m' =>
    rw [hm0, hm] at hmon
    simp only [Option.map_some', Option.some.injEq] at hmon
    refine h.update_keeps _ a none m _ hm (by simp [close_state_at, hm0]; rfl) (h.1 a st hst)
      (by simp [close_state_at, hheap]) (by simp [close_state_at, hbrk]) ?_ ?_
    · exact wadd_lt _ _
    · simp only [ngx_atomic_fetch_add, cast_wadd, cast_wsub, close_state_at,
        Function.update_same, monitored_at, hst, hmon, hst0]
      simp [sub_eq_add_neg]

theorem wsub_self_zero : wsub 0 0 = 0 := by decide

theorem wadd_zero_of_lt {a : Nat} (h : a < WORD) : wadd a 0 = a := by
  simp [wadd, Nat.mod_eq_of_lt h]

/-- Every event with a defined outcome keeps the accounting invariant. -/
theorem MonInv.mon_step_keeps {m0 : Nat} {s s1 : Sys} (h : MonInv m0 s.w) (e : Event)
    (hstep : step_intact s e = some s1) : MonInv m0 s1.w := by
  obtain ⟨m, hm, hlt, -⟩ := id h.2
  have hnone : s.w.heap s.w.brk = none := by
    cases hh : s.w.heap s.w.brk with
    | none => rfl
    | some st => exact absurd (h.1 _ st hh) (lt_irrefl _)
  cases e with
  | acquire c o =>
    simp only [step_intact] at hstep
    cases hacq : lws_acquire_state o s.w c with
    | none => rw [hacq] at hstep; cases hstep
    | some rw1 =>
      obtain ⟨r, w1⟩ := rw1
      rw [hacq] at hstep
      simp only [Option.some.injEq] at hstep
      subst hstep
      show MonInv m0 w1
      cases hq : s.w.llcf.states with
      | cons q rest =>
        cases hst : s.w.heap q with
        | none => simp [lws_acquire_state, hq, hst] at hacq
        | some st =>
          rw [lws_acquire_state_pop o s.w c q rest st hq hst] at hacq
          simp only [Option.some.injEq, Prod.mk.injEq] at hacq
          obtain ⟨-, rfl⟩ := hacq
          obtain ⟨-, -, -, f4, -⟩ := acquire_disarm_fields s.w.ngx_current_msec
            s.w.llcf.state_timeout st
          refine h.update_keeps _ q (some _) m m hm hm (h.1 q st hst) rfl rfl hlt ?_
          simp [acquire_bind, monitored_at, hst, f4]
      | nil =>
        rcases lws_create_state_cases o s.w with hcr | hcr | ⟨st, hcr, hmon⟩ |
          ⟨st, hcr, -, -, -, -, -, hmon⟩
        · simp only [lws_acquire_state, hq, hcr, Option.some.injEq, Prod.mk.injEq] at hacq
          obtain ⟨-, rfl⟩ := hacq
          exact h
        · simp only [lws_acquire_state, hq, hcr, Option.some.injEq, Prod.mk.injEq] at hacq
          obtain ⟨-, rfl⟩ := hacq
          refine h.mon_grow_keeps _ none m m hm hm ?_ rfl (by simp) rfl
          show s.w.heap = _
          rw [← hnone, Function.update_eq_self]
        · simp only [lws_acquire_state, hq, hcr, Option.some.injEq, Prod.mk.injEq] at hacq
          obtain ⟨-, rfl⟩ := hacq
          refine h.mon_grow_keeps _ none m _ hm (by simp [close_state_at, hm]; rfl) rfl rfl (by simp) ?_
          simp [ngx_atomic_fetch_add, hmon, wsub_self_zero, wadd_zero_of_lt hlt]
        · simp only [lws_acquire_state, hq, hcr, create_done, Function.update_same,
            Option.some.injEq, Prod.mk.injEq] at hacq
          obtain ⟨-, rfl⟩ := hacq
          refine h.mon_grow_keeps _ (some _) m { m with states_n := ngx_atomic_fetch_add m.states_n 1 }
            hm (by simp [acquire_bind, create_done, hm])
            (by simp [acquire_bind, create_done]; rfl) rfl ?_ rfl
          intro st1 hst1
          simp only [Option.some.injEq] at hst1
          subst hst1
          exact hmon
  | run c o =>
    simp only [step_intact] at hstep
    cases hrun : lws_run_state o s.w c with
    | none => rw [hrun] at hstep; cases hstep
    | some rw1 =>
      obtain ⟨r, w1⟩ := rw1
      rw [hrun] at hstep
      simp only [Option.some.injEq] at hstep
      subst hstep
      show MonInv m0 w1
      cases hc : (s.w.ctx c).state with
      | none => simp [lws_run_state, hc] at hrun
      | some a =>
        cases hst : s.w.heap a with
        | none => simp [lws_run_state, hc, hst] at hrun
        | some st =>
          cases hL : st.L with
          | none => simp [lws_run_state, hc, hst, hL] at hrun
          | some L =>
            obtain ⟨r1, w2, st1, hr, g1, -, -, g4, g5, -, -, -, g9, -⟩ :=
              lws_run_state_cases o s.w c a st L hc hst hL
            rw [hr] at hrun
            simp only [Option.some.injEq, Prod.mk.injEq] at hrun
            obtain ⟨-, rfl⟩ := hrun
            refine h.update_keeps _ a (some st1) m m hm (by rw [g5, hm]) (h.1 a st hst) g1 g4 hlt ?_
            simp [g1, monitored_at, hst, g9]
  | release c o =>
    simp only [step_intact] at hstep
    cases hrel : lws_release_state o s.w c with
    | none => rw [hrel] at hstep; cases hstep
    | some w1 =>
      rw [hrel] at hstep
      simp only [Option.some.injEq] at hstep
      subst hstep
      show MonInv m0 w1
      obtain ⟨a, st, hc, hst, ⟨-, rfl⟩ | ⟨-, -, rfl⟩⟩ := lws_release_state_some o s.w c w1 hrel
      · exact h.close_keeps a st hst _ _ (by simp [release_count, hm]) rfl rfl rfl
      · have hsome : s.w.monitor.isSome = true := by simp [hm]
        obtain ⟨-, -, -, -, -, f6, f7, -⟩ := release_record_fields o s.w.llcf true
          s.w.ngx_current_msec { st with request_count := st.request_count + 1 }
        have hk := release_collect_kept o s.w.llcf true
          { st with request_count := st.request_count + 1 }
        simp only [State.kept, Prod.mk.injEq] at hk
        refine h.update_keeps _ a (some _) m _ hm (by simp [release_monitor, release_count, hm]; rfl)
          (h.1 a st hst) rfl rfl (wadd_lt _ _) ?_
        simp only [hsome, ngx_atomic_fetch_add, cast_wadd, cast_wsub, monitored_at, hst,
          Function.update_same, f7 rfl, hk.2.1]
        ring
  | timer a =>
    simp only [step_intact] at hstep
    cases hex : ngx_event_expire_timer s.w a with
    | none => rw [hex] at hstep; cases hstep
    | some w1 =>
      rw [hex] at hstep
      simp only [Option.some.injEq] at hstep
      subst hstep
      show MonInv m0 w1
      cases hst : s.w.heap a with
      | none => simp [ngx_event_expire_timer, hst] at hex
      | some st =>
        cases hset : st.tev.timer_set with
        | false => simp [ngx_event_expire_timer, hst, hset] at hex
        | true =>
          cases hin : st.in_use with
          | false =>
            by_cases hmem : a ∈ s.w.llcf.states
            · rw [ngx_event_expire_timer_idle s.w a st hst hset hin hmem] at hex
              simp only [Option.some.injEq] at hex
              subst hex
              exact h.close_keeps a st hst _ _ rfl rfl rfl rfl
            · simp [ngx_event_expire_timer, hst, hset, lws_state_timer_handler, hin,
                ngx_queue_remove, hmem] at hex
          | true =>
            rw [ngx_event_expire_timer_in_use s.w a st hst hset hin] at hex
            simp only [Option.some.injEq] at hex
            subst hex
            refine h.update_keeps _ a (some _) m m hm hm (h.1 a st hst) rfl rfl hlt ?_
            simp [monitored_at, hst]
  | tick now =>
    simp only [step_intact, Option.some.injEq] at hstep
    subst hstep
    exact h

theorem MonInv.mon_exec_keeps {m0 : Nat} {s s1 : Sys} (h : MonInv m0 s.w) (es : List Event)
    (hex : exec any_event s es = some s1) : MonInv m0 s1.w := by
  induction es generalizing s with
  | nil => simp only [exec, Option.some.injEq] at hex; subst hex; exact h
  | cons e es ih =>
    simp only [exec, any_event, if_true] at hex
    cases hs : step s e with
    | none => rw [hs] at hex; cases hex
    | some s2 =>
      rw [hs] at hex
      exact ih (h.mon_step_keeps e (step_intact_of_step hs)) hex

theorem MonInv.mon_at_start (conf : LocConf) (m0 : Monitor) (now : Nat) (h : m0.memory_used < WORD) :
    MonInv m0.memory_used (Sys.init conf (some m0) now).w := by
  constructor
  · intro a st hst
    simp [Sys.init] at hst
  · exact ⟨m0, rfl, h, by simp [Sys.init, monitored_at]⟩

/-- C6: with monitoring on. A release that recycles the state moves the
aggregate `memory_used` of the monitor by exactly the accounted memory after
the release minus the monitored value before it, and leaves the monitored
value equal to the accounted memory. `lws_close_state` moves the aggregate by
exactly minus the monitored value. Hence, after every sequence of events with
a defined outcome from the start of the worker, the aggregate equals its
starting value plus the sum of the monitored values of the live states (all of
which are below `brk`, the range of the sum), modulo the word size, and is
back at its starting value when no state is live. -/
theorem monitor_memory_no_drift (conf : LocConf) (m0 : Monitor) (now : Nat)
    (hm0 : m0.memory_used < WORD) :
    (∀ (ro : ReleaseOracle) (w w1 : World) (c a : Nat) (st st1 : State) (m : Monitor),
      w.monitor = some m → (w.ctx c).state = some a → w.heap a = some st →
      lws_release_state ro w c = some w1 → w1.heap a = some st1 →
      ∃ m1, w1.monitor = some m1 ∧
        m1.memory_used = wadd m.memory_used (wsub st1.memory_used st.memory_monitor) ∧
        st1.memory_monitor = st1.memory_used) ∧
    (∀ (w : World) (a : Nat) (st : State) (m : Monitor),
      w.monitor = some m → w.heap a = some st →
      ∃ w1 m1, lws_close_state w a = some w1 ∧ w1.monitor = some m1 ∧
        m1.memory_used = wadd m.memory_used (wsub 0 st.memory_monitor)) ∧
    (∀ (es : List Event) (s : Sys),
      exec any_event (Sys.init conf (some m0) now) es = some s →
      (∀ a st, s.w.heap a = some st → a < s.w.brk) ∧
      ∃ m, s.w.monitor = some m ∧
        m.memory_used = (m0.memory_used + monitor_sum s.w) % WORD ∧
        ((∀ a, s.w.heap a = none) → m.memory_used = m0.memory_used)) := by
  refine ⟨?_, ?_, ?_⟩
  · intro ro w w1 c a st st1 m hm hc hst hrel hlive
    obtain ⟨a1, st0, hc1, hst1, ⟨-, rfl⟩ | ⟨-, -, rfl⟩⟩ := lws_release_state_some ro w c w1 hrel
    · rw [hc] at hc1; cases hc1
      simp [close_state_at] at hlive
    · rw [hc] at hc1; cases hc1
      rw [hst] at hst1; cases hst1
      simp only [Function.update_same, Option.some.injEq] at hlive
      subst hlive
      have hsome : w.monitor.isSome = true := by simp [hm]
      obtain ⟨-, -, -, -, -, f6, f7, -⟩ := release_record_fields ro w.llcf true
        w.ngx_current_msec { st with request_count := st.request_count + 1 }
      have hk := release_collect_kept ro w.llcf true
        { st with request_count := st.request_count + 1 }
      simp only [State.kept, Prod.mk.injEq] at hk
      simp only [hsome]
      refine ⟨_, by simp [release_monitor, release_count, hm]; rfl, ?_, ?_⟩
      · simp only [ngx_atomic_fetch_add, f6, hk.2.1]
      · rw [f7 rfl, f6]
  · intro w a st m hm hst
    exact ⟨_, _, by simp [lws_close_state, hst]; rfl, by simp [close_state_at, hm]; rfl, rfl⟩
  · intro es s hex
    obtain ⟨hbelow, m, hm, hlt, hsum⟩ := (MonInv.mon_at_start conf m0 now hm0).mon_exec_keeps es hex
    have heq : m.memory_used = (m0.memory_used + monitor_sum s.w) % WORD := by
      have : ((m.memory_used : Nat) : ZMod WORD) = ((m0.memory_used + monitor_sum s.w : Nat) : ZMod WORD) := by
        rw [hsum, Nat.cast_add, monitor_sum, monitor_sum_cast]
      rw [ZMod.natCast_eq_natCast_iff', Nat.mod_eq_of_lt hlt] at this
      exact this
    refine ⟨hbelow, m, hm, heq, ?_⟩
    intro hall
    have hz : monitor_sum s.w = 0 := by
      apply List.sum_eq_zero
      intro x hx
      obtain ⟨i, -, rfl⟩ := List.mem_map.mp hx
      simp [monitored_at, hall]
    rw [heq, hz, Nat.add_zero, Nat.mod_eq_of_lt hm0]

/-- Witness of C6: a monitor that starts at 4096 bytes. After two states are
created and one is released with 1029 bytes in use, the aggregate is
4096 + 1029; after both are destroyed by timer or release it is 4096 again. -/
theorem monitor_memory_no_drift_witness :
    (∃ s m, exec any_event (Sys.init demo_conf (some demo_monitor) 0)
        [.acquire 0 demo_create, .acquire 1 demo_create, .release 0 demo_release] = some s ∧
      s.w.monitor = some m ∧ monitor_sum s.w = 1029 ∧ m.memory_used = 4096 + 1029) ∧
    (∃ s m, exec any_event (Sys.init demo_conf (some demo_monitor) 0)
        [.acquire 0 demo_create, .acquire 1 demo_create, .release 0 demo_release,
          .run 1 demo_run_fails, .release 1 demo_release, .timer 1] = some s ∧
      s.w.monitor = some m ∧ m.memory_used = 4096) := by
  have h := (monitor_memory_no_drift demo_conf demo_monitor 0 (by decide)).2.2
  constructor
  · obtain ⟨-, m, h1, h2, -⟩ := h [.acquire 0 demo_create, .acquire 1 demo_create,
      .release 0 demo_release] _ rfl
    exact ⟨_, m, rfl, h1, by decide, h2⟩
  · obtain ⟨-, m, h1, h2, -⟩ := h [.acquire 0 demo_create, .acquire 1 demo_create,
      .release 0 demo_release, .run 1 demo_run_fails, .release 1 demo_release, .timer 1] _ rfl
    exact ⟨_, m, rfl, h1, h2.trans (by decide)⟩

/-! ## Failed construction (C7) -/

/-- When the protected initialization fails, `lws_acquire_state` returns -1
after `lws_close_state` has run on the half-built record: the live count of
the pool and the state count of the monitor are one less than before the
call, although creation had not yet counted the state. -/
theorem lws_acquire_state_init_failure (o : CreateOracle) (w : World) (c : Nat) (L : LuaState)
    (hq : w.llcf.states = []) (hc : o.calloc_ok = true) (hn : o.newstate = some L)
    (hinit : ∀ L1, (lua_pcall_c (lws_init o.libs) L1 3 0).1 ≠ LUA_OK) :
    ∃ w1, lws_acquire_state o w c = some (-1, w1) ∧
      w1.llcf.states_n = w.llcf.states_n - 1 ∧
      w1.monitor.map Monitor.states_n =
        w.monitor.map (fun (m : Monitor) => wadd m.states_n (WORD - 1)) ∧
      w1.llcf.states = w.llcf.states := by
  have hL : (create_lua_state o w.llcf.state_memory_max).L ≠ none := by
    unfold create_lua_state
    split_ifs <;> simp [hn]
  obtain ⟨L0, hL0⟩ := Option.ne_none_iff_exists'.mp hL
  have hcr : ∃ st, lws_create_state o w = (none, close_state_at { w with brk := w.brk + 1 } w.brk st) := by
    simp only [lws_create_state, hc, Bool.not_true, Bool.false_eq_true, if_false, hL0]
    rw [if_pos (hinit _)]
    exact ⟨_, rfl⟩
  obtain ⟨st, hcr⟩ := hcr
  refine ⟨close_state_at { w with brk := w.brk + 1 } w.brk st,
    by simp only [lws_acquire_state, hq, hcr], rfl, ?_, rfl⟩
  cases hm : w.monitor <;> simp [close_state_at, hm, ngx_atomic_fetch_add]

/-- C7 fails on the code: at the start of a worker (live count 0, monitor state
count 0), an acquire whose protected initialization fails returns -1 and
leaves the live count at -1 and the state count of the monitor at
`2 ^ 64 - 1`. The free list and the memory aggregate are as before. -/
theorem acquire_init_failure_unregisters :
    (Sys.init demo_conf (some demo_monitor) 0).w.llcf.states_n = 0 ∧
    (Sys.init demo_conf (some demo_monitor) 0).w.monitor.map Monitor.states_n = some 0 ∧
    ∃ w1, lws_acquire_state demo_create_init_fails (Sys.init demo_conf (some demo_monitor) 0).w 0 =
        some (-1, w1) ∧
      w1.llcf.states_n = -1 ∧ w1.monitor.map Monitor.states_n = some (2 ^ 64 - 1) ∧
      w1.monitor.map Monitor.memory_used = some 4096 ∧ w1.llcf.states = [] :=
  ⟨rfl, rfl, _, rfl, rfl, rfl, rfl, rfl⟩

/-! ## The request counter -/

/-- One record is replaced by one whose request count is as recorded. -/
theorem CountInv.replace_keeps {N : Nat} {K : Nat → Nat} {w : World} (h : CountInv N K w)
    (w1 : World) (a : Nat) (st1 : State) (K1 : Nat → Nat) (hK : ∀ x, x ≠ a → K1 x = K x)
    (ha : a < w.brk)
    (hheap : w1.heap = Function.update w.heap a (some st1)) (hbrk : w1.brk = w.brk)
    (hmax : w1.llcf.state_requests_max = w.llcf.state_requests_max)
    (hrc : st1.request_count = K1 a) (hlim : 0 < N → st1.request_count < N) :
    CountInv N K1 w1 := by
  obtain ⟨h1, h2, h3⟩ := h
  refine ⟨?_, ?_, by rw [hmax]; exact h3⟩
  · intro x sx hx
    rw [hbrk]
    rw [hheap] at hx
    by_cases e : x = a
    · subst e
      simp only [Function.update_same, Option.some.injEq] at hx
      subst hx
      exact ⟨ha, hrc, hlim⟩
    · rw [Function.update_noteq e] at hx
      rw [hK x e]
      exact h1 x sx hx
  · intro x hx
    rw [hbrk] at hx
    rw [hK x (by omega)]
    exact h2 x hx

/-- One record is replaced by one with the same request count. -/
theorem CountInv.modify_keeps {N : Nat} {K : Nat → Nat} {w : World} (h : CountInv N K w)
    (w1 : World) (a : Nat) (st st1 : State) (hst : w.heap a = some st)
    (hheap : w1.heap = Function.update w.heap a (some st1)) (hbrk : w1.brk = w.brk)
    (hmax : w1.llcf.state_requests_max = w.llcf.state_requests_max)
    (hrc : st1.request_count = st.request_count) : CountInv N K w1 := by
  obtain ⟨g1, g2, g3⟩ := h.1 a st hst
  exact h.replace_keeps w1 a st1 K (fun _ _ => rfl) g1 hheap hbrk hmax (by rw [hrc]; exact g2)
    (fun hN => by rw [hrc]; exact g3 hN)

/-- One record is destroyed. -/
theorem CountInv.destroy_keeps {N : Nat} {K : Nat → Nat} {w : World} (h : CountInv N K w)
    (w1 : World) (a : Nat) (K1 : Nat → Nat) (hK : ∀ x, x ≠ a → K1 x = K x)
    (ha : a < w.brk)
    (hheap : w1.heap = Function.update w.heap a none) (hbrk : w1.brk = w.brk)
    (hmax : w1.llcf.state_requests_max = w.llcf.state_requests_max) : CountInv N K1 w1 := by
  obtain ⟨h1, h2, h3⟩ := h
  refine ⟨?_, ?_, by rw [hmax]; exact h3⟩
  · intro x sx hx
    rw [hbrk]
    rw [hheap] at hx
    by_cases e : x = a
    · subst e; simp at hx
    · rw [Function.update_noteq e] at hx
      rw [hK x e]
      exact h1 x sx hx
  · intro x hx
    rw [hbrk] at hx
    rw [hK x (by omega)]
    exact h2 x hx

/-- A fresh address is consumed, with no record or a record that has served no
request. -/
theorem CountInv.count_grow_keeps {N : Nat} {K : Nat → Nat} {w : World} (h : CountInv N K w)
    (w1 : World) (x : Option State)
    (hheap : w1.heap = Function.update w.heap w.brk x) (hbrk : w1.brk = w.brk + 1)
    (hmax : w1.llcf.state_requests_max = w.llcf.state_requests_max)
    (hx : ∀ st, x = some st → st.request_count = 0) : CountInv N K w1 := by
  obtain ⟨h1, h2, h3⟩ := h
  refine ⟨?_, ?_, by rw [hmax]; exact h3⟩
  · intro y sy hy
    rw [hbrk]
    rw [hheap] at hy
    by_cases e : y = w.brk
    · subst e
      simp only [Function.update_same] at hy
      have h0 := hx sy hy
      refine ⟨Nat.lt_succ_self _, by rw [h0, h2 _ (le_refl _)], fun hN => by rw [h0]; exact hN⟩
    · rw [Function.update_noteq e] at hy
      obtain ⟨g1, g2, g3⟩ := h1 y sy hy
      exact ⟨Nat.lt_succ_of_lt g1, g2, g3⟩
  · intro y hy
    rw [hbrk] at hy
    exact h2 y (by omega)

theorem release_closes_false_iff (llcf : LocConf) (st : State)
    (h : release_closes llcf st = false) :
    st.close = false ∧ st.tev.timedout = false ∧
      (0 < llcf.state_requests_max → st.request_count < llcf.state_requests_max) := by
  unfold release_closes at h
  simp only [Bool.or_eq_false_iff, Bool.and_eq_false_iff, decide_eq_false_iff_not] at h
  refine ⟨h.1.1, h.1.2, fun hN => ?_⟩
  rcases h.2 with h2 | h2
  · exact absurd hN h2
  · omega

/-- Every event with a defined outcome keeps the bookkeeping invariant, with
the release it may be added to the count. -/
theorem CountInv.count_step_keeps {N : Nat} {K : Nat → Nat} {s s1 : Sys} (h : CountInv N K s.w)
    (e : Event) (hstep : step_intact s e = some s1) :
    CountInv N (fun a => K a + release_hits s e a) s1.w := by
  have hnone : s.w.heap s.w.brk = none := by
    cases hh : s.w.heap s.w.brk with
    | none => rfl
    | some st => exact absurd (h.1 _ st hh).1 (lt_irrefl _)
  cases e with
  | acquire c o =>
    simp only [step_intact] at hstep
    cases hacq : lws_acquire_state o s.w c with
    | none => rw [hacq] at hstep; cases hstep
    | some rw1 =>
      obtain ⟨r, w1⟩ := rw1
      rw [hacq] at hstep
      simp only [Option.some.injEq] at hstep
      subst hstep
      show CountInv N (fun a => K a + 0) w1
      simp only [Nat.add_zero]
      cases hq : s.w.llcf.states with
      | cons q rest =>
        cases hst : s.w.heap q with
        | none => simp [lws_acquire_state, hq, hst] at hacq
        | some st =>
          rw [lws_acquire_state_pop o s.w c q rest st hq hst] at hacq
          simp only [Option.some.injEq, Prod.mk.injEq] at hacq
          obtain ⟨-, rfl⟩ := hacq
          obtain ⟨-, -, f3, -⟩ := acquire_disarm_fields s.w.ngx_current_msec
            s.w.llcf.state_timeout st
          exact h.modify_keeps _ q st _ hst rfl rfl rfl f3
      | nil =>
        rcases lws_create_state_cases o s.w with hcr | hcr | ⟨st, hcr, -⟩ |
          ⟨st, hcr, -, -, hrc, -⟩
        · simp only [lws_acquire_state, hq, hcr, Option.some.injEq, Prod.mk.injEq] at hacq
          obtain ⟨-, rfl⟩ := hacq
          exact h
        · simp only [lws_acquire_state, hq, hcr, Option.some.injEq, Prod.mk.injEq] at hacq
          obtain ⟨-, rfl⟩ := hacq
          refine h.count_grow_keeps _ none ?_ rfl rfl (by simp)
          show s.w.heap = _
          rw [← hnone, Function.update_eq_self]
        · simp only [lws_acquire_state, hq, hcr, Option.some.injEq, Prod.mk.injEq] at hacq
          obtain ⟨-, rfl⟩ := hacq
          exact h.count_grow_keeps _ none rfl rfl rfl (by simp)
        · simp only [lws_acquire_state, hq, hcr, create_done, Function.update_same,
            Option.some.injEq, Prod.mk.injEq] at hacq
          obtain ⟨-, rfl⟩ := hacq
          refine h.count_grow_keeps _ (some _) (by simp [acquire_bind, create_done]; rfl) rfl rfl ?_
          intro st1 hst1
          simp only [Option.some.injEq] at hst1
          subst hst1
          exact hrc
  | run c o =>
    simp only [step_intact] at hstep
    cases hrun : lws_run_state o s.w c with
    | none => rw [hrun] at hstep; cases hstep
    | some rw1 =>
      obtain ⟨r, w1⟩ := rw1
      rw [hrun] at hstep
      simp only [Option.some.injEq] at hstep
      subst hstep
      show CountInv N (fun a => K a + 0) w1
      simp only [Nat.add_zero]
      cases hc : (s.w.ctx c).state with
      | none => simp [lws_run_state, hc] at hrun
      | some a =>
        cases hst : s.w.heap a with
        | none => simp [lws_run_state, hc, hst] at hrun
        | some st =>
          cases hL : st.L with
          | none => simp [lws_run_state, hc, hst, hL] at hrun
          | some L =>
            obtain ⟨r1, w2, st1, hr, g1, -, g3, g4, -, -, -, -, -, g10, -⟩ :=
              lws_run_state_cases o s.w c a st L hc hst hL
            rw [hr] at hrun
            simp only [Option.some.injEq, Prod.mk.injEq] at hrun
            obtain ⟨-, rfl⟩ := hrun
            exact h.modify_keeps _ a st st1 hst g1 g4 (by rw [g3]) g10
  | release c o =>
    simp only [step_intact] at hstep
    cases hrel : lws_release_state o s.w c with
    | none => rw [hrel] at hstep; cases hstep
    | some w1 =>
      rw [hrel] at hstep
      simp only [Option.some.injEq] at hstep
      subst hstep
      show CountInv N (fun a => K a + release_hits s (.release c o) a) w1
      obtain ⟨a, st, hc, hst, ⟨-, rfl⟩ | ⟨hcl, -, rfl⟩⟩ := lws_release_state_some o s.w c w1 hrel
      · refine h.destroy_keeps _ a _ ?_ (h.1 a st hst).1 rfl rfl rfl
        intro x hx
        simp [release_hits, hc, Ne.symm hx]
      · obtain ⟨-, -, f3, -⟩ := release_record_fields o s.w.llcf s.w.monitor.isSome
          s.w.ngx_current_msec { st with request_count := st.request_count + 1 }
        obtain ⟨-, -, hlim⟩ := release_closes_false_iff _ _ hcl
        refine h.replace_keeps _ a _ _ ?_ (h.1 a st hst).1 rfl rfl rfl ?_ ?_
        · intro x hx
          simp [release_hits, hc, Ne.symm hx]
        · rw [f3]
          simp [release_hits, hc, (h.1 a st hst).2.1]
        · intro hN
          rw [f3]
          exact h.2.2 ▸ hlim (h.2.2 ▸ hN)
  | timer a =>
    simp only [step_intact] at hstep
    cases hex : ngx_event_expire_timer s.w a with
    | none => rw [hex] at hstep; cases hstep
    | some w1 =>
      rw [hex] at hstep
      simp only [Option.some.injEq] at hstep
      subst hstep
      show CountInv N (fun a => K a + 0) w1
      simp only [Nat.add_zero]
      cases hst : s.w.heap a with
      | none => simp [ngx_event_expire_timer, hst] at hex
      | some st =>
        cases hset : st.tev.timer_set with
        | false => simp [ngx_event_expire_timer, hst, hset] at hex
        | true =>
          cases hin : st.in_use with
          | false =>
            by_cases hmem : a ∈ s.w.llcf.states
            · rw [ngx_event_expire_timer_idle s.w a st hst hset hin hmem] at hex
              simp only [Option.some.injEq] at hex
              subst hex
              exact h.destroy_keeps _ a K (fun _ _ => rfl) (h.1 a st hst).1 rfl rfl rfl
            · simp [ngx_event_expire_timer, hst, hset, lws_state_timer_handler, hin,
                ngx_queue_remove, hmem] at hex
          | true =>
            rw [ngx_event_expire_timer_in_use s.w a st hst hset hin] at hex
            simp only [Option.some.injEq] at hex
            subst hex
            exact h.modify_keeps _ a st _ hst rfl rfl rfl rfl
  | tick now =>
    simp only [step_intact, Option.some.injEq] at hstep
    subst hstep
    show CountInv N (fun a => K a + 0) _
    simp only [Nat.add_zero]
    exact h

theorem CountInv.count_exec_keeps {N : Nat} {K : Nat → Nat} {s s1 : Sys} (ok : Sys → Event → Bool)
    (h : CountInv N K s.w) (es : List Event) (hex : exec ok s es = some s1) :
    CountInv N (fun a => K a + releases_of a s es) s1.w := by
  induction es generalizing s K with
  | nil =>
    simp only [exec, Option.some.injEq] at hex
    subst hex
    simpa [releases_of] using h
  | cons e es ih =>
    simp only [exec] at hex
    split_ifs at hex with hd
    cases hs : step s e with
    | none => rw [hs] at hex; cases hex
    | some s2 =>
      rw [hs] at hex
      have := ih (h.count_step_keeps e (step_intact_of_step hs)) hex
      have hfun : (fun a => K a + releases_of a s (e :: es)) =
          fun a => K a + release_hits s e a + releases_of a s2 es := by
        funext a
        simp only [releases_of, hs, Nat.add_assoc]
      rw [hfun]
      exact this

theorem CountInv.count_at_start (conf : LocConf) (monitor : Option Monitor) (now : Nat) :
    CountInv conf.state_requests_max (fun _ => 0) (Sys.init conf monitor now).w := by
  refine ⟨?_, fun _ _ => rfl, rfl⟩
  intro a st hst
  simp [Sys.init] at hst

/-! ## Allocation accounting (C12) -/

theorem live_total_split (blocks : List (Nat × Nat)) (ptr : Nat) :
    live_total blocks = size_at blocks ptr + live_total (blocks.filter fun b => b.1 ≠ ptr) := by
  induction blocks with
  | nil => rfl
  | cons b bs ih =>
    simp only [live_total, size_at, List.map_cons, List.sum_cons] at ih ⊢
    by_cases hb : b.1 = ptr
    · simp only [List.filter_cons, hb, decide_True, if_true, ne_eq, not_true_eq_false,
        decide_False, List.map_cons, List.sum_cons, Bool.false_eq_true, if_false]
      simp only [ne_eq] at ih
      omega
    · simp only [List.filter_cons, hb, decide_False, ne_eq, not_false_eq_true, decide_True,
        if_true, List.map_cons, List.sum_cons, Bool.false_eq_true, if_false]
      simp only [ne_eq] at ih
      omega

/-- One call of the checked allocator with the `osize` libc holds keeps
`memory_used` equal, modulo the word size, to the sum of the live blocks. -/
theorem lws_alloc_checked_blocks (realloc : Nat) (state : State) (blocks : List (Nat × Nat))
    (ptr osize nsize : Nat) (ho : osize = size_at blocks ptr)
    (h : (state.memory_used : ZMod WORD) = (live_total blocks : ZMod WORD)) :
    (((lws_alloc_checked realloc state ptr osize nsize).state.memory_used : Nat) : ZMod WORD) =
      (live_total ((lws_alloc_checked realloc state ptr osize nsize).calls.foldl
        (libc_call (lws_alloc_checked realloc state ptr osize nsize).ret) blocks) : ZMod WORD) := by
  have hs := live_total_split blocks ptr
  have hs1 : (live_total blocks : ZMod WORD) =
      (osize : ZMod WORD) + (live_total (blocks.filter fun b => b.1 ≠ ptr) : ZMod WORD) := by
    rw [hs, ho]; push_cast; rfl
  simp only [lws_alloc_checked]
  split_ifs with h1 h2 h3
  · simp only [List.foldl_cons, List.foldl_nil, libc_call, cast_wsub, h, hs1]
    ring
  · exact h
  · have hc : live_total ((realloc, nsize) :: blocks.filter fun b => b.1 ≠ ptr) =
        nsize + live_total (blocks.filter fun b => b.1 ≠ ptr) := rfl
    simp only [List.foldl_cons, List.foldl_nil, libc_call, if_pos h3, cast_wadd, cast_wsub, h, hs1,
      hc]
    push_cast
    ring
  · simp only [List.foldl_cons, List.foldl_nil, libc_call, if_neg h3]
    exact h

theorem alloc_checked_blocks_total (calls : List AllocCall) (state : State)
    (blocks : List (Nat × Nat)) (hw : SizesAsGranted state blocks calls)
    (h : (state.memory_used : ZMod WORD) = (live_total blocks : ZMod WORD)) :
    (((alloc_checked_blocks state blocks calls).1.memory_used : Nat) : ZMod WORD) =
      (live_total (alloc_checked_blocks state blocks calls).2 : ZMod WORD) := by
  induction calls generalizing state blocks with
  | nil => exact h
  | cons c cs ih =>
    simp only [alloc_checked_blocks]
    exact ih _ _ hw.2 (lws_alloc_checked_blocks c.realloc state blocks c.ptr c.osize c.nsize hw.1 h)

theorem lws_alloc_checked_word (realloc : Nat) (state : State) (ptr osize nsize : Nat)
    (h : state.memory_used < WORD) :
    (lws_alloc_checked realloc state ptr osize nsize).state.memory_used < WORD := by
  simp only [lws_alloc_checked]
  split_ifs
  · exact wsub_lt _ _
  · exact h
  · exact wadd_lt _ _
  · exact h

theorem alloc_checked_blocks_word (calls : List AllocCall) (state : State)
    (blocks : List (Nat × Nat)) (h : state.memory_used < WORD) :
    (alloc_checked_blocks state blocks calls).1.memory_used < WORD := by
  induction calls generalizing state blocks with
  | nil => exact h
  | cons c cs ih =>
    simp only [alloc_checked_blocks]
    exact ih _ _ (lws_alloc_checked_word _ _ _ _ _ h)

/-- C12: `lws_alloc_checked` with `nsize = 0` returns `NULL` and leaves
`memory_used - osize`; with `nsize > 0`, a candidate `memory_used - osize +
nsize` within `memory_max` and a successful `realloc` it returns the new
pointer and leaves exactly the candidate; when `realloc` fails it returns
`NULL` and leaves `memory_used` as it is. Hence, from a state with nothing
accounted and no live block, after every sequence of calls in which each
`osize` is the size previously granted for the block, `memory_used` is the sum
of the sizes of the live blocks (as a word; the sum itself when it fits in a
word). -/
theorem alloc_checked_accounting :
    (∀ (realloc : Nat) (state : State) (ptr osize : Nat),
      (lws_alloc_checked realloc state ptr osize 0).ret = 0 ∧
      (lws_alloc_checked realloc state ptr osize 0).state.memory_used =
        wsub state.memory_used osize) ∧
    (∀ (realloc : Nat) (state : State) (ptr osize nsize : Nat), nsize ≠ 0 →
      wadd (wsub state.memory_used osize) nsize ≤ state.memory_max → realloc ≠ 0 →
      (lws_alloc_checked realloc state ptr osize nsize).ret = realloc ∧
      (lws_alloc_checked realloc state ptr osize nsize).calls = [.realloc ptr nsize] ∧
      (lws_alloc_checked realloc state ptr osize nsize).state.memory_used =
        wadd (wsub state.memory_used osize) nsize) ∧
    (∀ (state : State) (ptr osize nsize : Nat), nsize ≠ 0 →
      wadd (wsub state.memory_used osize) nsize ≤ state.memory_max →
      (lws_alloc_checked 0 state ptr osize nsize).ret = 0 ∧
      (lws_alloc_checked 0 state ptr osize nsize).calls = [.realloc ptr nsize] ∧
      (lws_alloc_checked 0 state ptr osize nsize).state.memory_used = state.memory_used) ∧
    (∀ (state : State) (calls : List AllocCall), state.memory_used = 0 →
      SizesAsGranted state [] calls →
      (alloc_checked_blocks state [] calls).1.memory_used =
        live_total (alloc_checked_blocks state [] calls).2 % WORD ∧
      (live_total (alloc_checked_blocks state [] calls).2 < WORD →
        (alloc_checked_blocks state [] calls).1.memory_used =
          live_total (alloc_checked_blocks state [] calls).2)) := by
  refine ⟨?_, ?_, ?_, ?_⟩
  · intro realloc state ptr osize
    simp [lws_alloc_checked]
  · intro realloc state ptr osize nsize h1 h2 h3
    simp [lws_alloc_checked, h1, Nat.not_lt.mpr h2, h3]
  · intro state ptr osize nsize h1 h2
    simp [lws_alloc_checked, h1, Nat.not_lt.mpr h2]
  · intro state calls h0 hw
    have hc := alloc_checked_blocks_total calls state [] hw (by rw [h0]; simp [live_total])
    have hlt := alloc_checked_blocks_word calls state [] (by rw [h0]; exact WORD_pos)
    have hmod := (ZMod.natCast_eq_natCast_iff' _ _ _).mp hc
    rw [Nat.mod_eq_of_lt hlt] at hmod
    exact ⟨hmod, fun hfit => by rw [hmod, Nat.mod_eq_of_lt hfit]⟩

/-- Witness of C12: with quota 1000, a block of 600 bytes is granted at 16,
grown to 900 bytes at 32, a second block of 200 bytes is refused (the candidate
is 1100), a `realloc` that fails leaves the 900 bytes, and the free of the
block leaves nothing. -/
theorem alloc_checked_accounting_witness :
    (lws_alloc_checked 32 { quota_1000 with memory_used := 600 } 16 600 900).state.memory_used = 900 ∧
    (lws_alloc_checked 0 { quota_1000 with memory_used := 900 } 0 0 50).state.memory_used = 900 ∧
    (alloc_checked_blocks quota_1000 []
      [⟨0, 0, 600, 16⟩, ⟨16, 600, 900, 32⟩, ⟨0, 0, 200, 48⟩, ⟨0, 0, 50, 0⟩]).1.memory_used = 900 ∧
    (alloc_checked_blocks quota_1000 []
      [⟨0, 0, 600, 16⟩, ⟨16, 600, 900, 32⟩, ⟨0, 0, 200, 48⟩, ⟨0, 0, 50, 0⟩]).2 = [(32, 900)] ∧
    (alloc_checked_blocks quota_1000 []
      [⟨0, 0, 600, 16⟩, ⟨16, 600, 900, 32⟩, ⟨32, 900, 0, 0⟩]).1.memory_used = 0 := by
  have h := alloc_checked_accounting
  have h2 := h.2.1 32 { quota_1000 with memory_used := 600 } 16 600 900 (by decide) (by decide)
    (by decide)
  have h3 := h.2.2.1 { quota_1000 with memory_used := 900 } 0 0 50 (by decide) (by decide)
  have h4 := h.2.2.2 quota_1000
    [⟨0, 0, 600, 16⟩, ⟨16, 600, 900, 32⟩, ⟨0, 0, 200, 48⟩, ⟨0, 0, 50, 0⟩] rfl ⟨rfl, rfl, rfl, rfl, trivial⟩
  have h5 := h.2.2.2 quota_1000 [⟨0, 0, 600, 16⟩, ⟨16, 600, 900, 32⟩, ⟨32, 900, 0, 0⟩] rfl
    ⟨rfl, rfl, rfl, trivial⟩
  refine ⟨h2.2.2.trans (by decide), h3.2.2, h4.1.trans (by decide), by decide,
    h5.1.trans (by decide)⟩

/-! ## The protected run (C15, C16) -/

theorem to_c_int_of_int_range (i : Int) (h1 : -2147483648 ≤ i) (h2 : i < 2147483648) :
    to_c_int i = i := by
  unfold to_c_int
  rw [Int.bmod_def]
  have e : ((2 ^ 32 : Nat) : Int) = 4294967296 := by norm_num
  rw [e]
  split_ifs <;> omega

theorem lua_tointeger_top (L : LuaState) (v : LuaValue) :
    lua_tointeger (lua_push L v) (-1) = match v with
      | .integer i => i
      | _ => 0 := by
  unfold lua_tointeger
  rw [at_push_top]
  cases v <;> rfl

/-- The two pushes of `lws_run_state` followed by the protected call leave the
stack of entry with one value on top, and nothing else of the Lua state is
changed. -/
theorem lua_pcall_ext_run (out : CallOutcome) (L : LuaState) (c : Nat) :
    (lua_pcall_ext out (lua_pushlightuserdata (lua_pushcfunction L "lws_run") c) 1).2 =
      lua_push L (match out with
        | .ok v => v
        | .error e => e) := by
  cases out <;>
    simp [lua_pcall_ext, lua_pushlightuserdata, lua_pushcfunction, lua_push, List.take_append_eq_append_take]

/-- What `lws_run_state` does, in full: the Lua state is the one of entry, the
record changes in the accounted memory and, on failure, the close flag; the
context changes in the diagnostic, on failure. -/
theorem lws_run_state_eq (o : RunOracle) (w : World) (c a : Nat) (st : State) (L : LuaState)
    (hc : (w.ctx c).state = some a) (hst : w.heap a = some st) (hL : st.L = some L) :
    lws_run_state o w c = some (match o.outcome with
      | .ok v =>
        (to_c_int (lua_tointeger (lua_push L v) (-1)),
          { w with heap := (Function.update w.heap a
              (some { lua_allocs L.checked st o.allocs with L := some L })) })
      | .error e =>
        (-1,
          { w with
            heap := (Function.update w.heap a
              (some { lua_allocs L.checked st o.allocs with L := some L, close := true }))
            ctx := (Function.update w.ctx c
              { w.ctx c with diagnostic :=
                  if !w.llcf.diagnostic then (w.ctx c).diagnostic
                  else if !o.diag_alloc_ok then { (w.ctx c).diagnostic with data := none }
                  else { data := some (o.lws_get_msg (lua_push L e) (-1)),
                         len := (o.lws_get_msg (lua_push L e) (-1)).length } }) })) := by
  have hp := lua_pcall_ext_run o.outcome L c
  simp only [lws_run_state, hc, hst, hL]
  cases ho : o.outcome with
  | ok v =>
    rw [ho] at hp
    have h1 : (lua_pcall_ext (.ok v) (lua_pushlightuserdata (lua_pushcfunction L "lws_run") c) 1).1
        = LUA_OK := rfl
    simp only [h1, hp, if_true, lua_pop_push]
    rfl
  | error e =>
    rw [ho] at hp
    have h1 : (lua_pcall_ext (.error e) (lua_pushlightuserdata (lua_pushcfunction L "lws_run") c) 1).1
        = LUA_ERRRUN := rfl
    have h2 : ¬ LUA_ERRRUN = LUA_OK := by decide
    simp only [h1, hp, if_neg h2, lua_pop_push]
    rfl

/-- C15: on a context whose state is live and has a Lua state,
`lws_run_state` returns. When the protected call succeeds, the result is the
integer `lua_tointeger` reads off the value the work returned, converted to
`int` (the integer itself when it is in the range of `int`), and the close
flag and the diagnostic of the context are as before. When it fails, the
result is -1 and the close flag is set, whatever the diagnostic settings and
the allocation of the buffer do; the diagnostic holds the bytes of the message
`lws_get_msg` reads off the error value, with the length of the message, when
diagnostics are enabled and `ngx_alloc` succeeds; it has a `NULL` pointer and
its former length when diagnostics are enabled and `ngx_alloc` fails; it is as
before when diagnostics are disabled. So, for a context that starts without
a diagnostic, the diagnostic is set if and only if diagnostics are enabled and
the allocation succeeds. -/
theorem run_result_and_diagnostic (o : RunOracle) (w : World) (c a : Nat) (st : State)
    (L : LuaState) (hc : (w.ctx c).state = some a) (hst : w.heap a = some st)
    (hL : st.L = some L) :
    ∃ r w1 st1, lws_run_state o w c = some (r, w1) ∧ w1.heap a = some st1 ∧
      (∀ v, o.outcome = .ok v →
        r = to_c_int (lua_tointeger (lua_push L v) (-1)) ∧
        (∀ i, v = .integer i → -2147483648 ≤ i → i < 2147483648 → r = i) ∧
        st1.close = st.close ∧ (w1.ctx c).diagnostic = (w.ctx c).diagnostic) ∧
      (∀ e, o.outcome = .error e →
        r = -1 ∧ st1.close = true ∧
        (w.llcf.diagnostic = true → o.diag_alloc_ok = true →
          (w1.ctx c).diagnostic =
            { data := some (o.lws_get_msg (lua_push L e) (-1)),
              len := (o.lws_get_msg (lua_push L e) (-1)).length }) ∧
        (w.llcf.diagnostic = true → o.diag_alloc_ok = false →
          (w1.ctx c).diagnostic = { data := none, len := (w.ctx c).diagnostic.len }) ∧
        (w.llcf.diagnostic = false → (w1.ctx c).diagnostic = (w.ctx c).diagnostic) ∧
        ((w.ctx c).diagnostic.data = none →
          ((w1.ctx c).diagnostic.data ≠ none ↔
            (w.llcf.diagnostic = true ∧ o.diag_alloc_ok = true)))) := by
  have h := lws_run_state_eq o w c a st L hc hst hL
  cases ho : o.outcome with
  | ok v =>
    rw [ho] at h
    refine ⟨_, _, _, h, Function.update_same _ _ _, ?_, ?_⟩
    · intro v1 hv1
      cases hv1
      refine ⟨rfl, ?_, by simp, rfl⟩
      intro i hi h1 h2
      subst hi
      rw [lua_tointeger_top]
      exact to_c_int_of_int_range i h1 h2
    · intro e he; cases he
  | error e =>
    rw [ho] at h
    refine ⟨_, _, _, h, Function.update_same _ _ _, ?_, ?_⟩
    · intro v hv; cases hv
    · intro e1 he1
      cases he1
      refine ⟨rfl, rfl, ?_, ?_, ?_, ?_⟩
      · intro h1 h2; simp [h1, h2]
      · intro h1 h2; simp [h1, h2]
      · intro h1; simp [h1]
      · intro h0
        cases h1 : w.llcf.diagnostic <;> cases h2 : o.diag_alloc_ok <;> simp [h1, h2, h0]

/-- Witness of C15: on the state a first acquire creates, a request that
returns 200 gives 200 and leaves the close flag clear and the context without
diagnostic; a request that fails with the message `oops` gives -1, sets the
close flag and stores the four bytes of the message; when the allocation of
the buffer fails, the result is -1 and the close flag is set all the same, and
the context has no diagnostic. -/
theorem run_result_and_diagnostic_witness :
    ∃ w1 st1 w2 st2 w3 st3,
      lws_run_state demo_run_ok (demo_sys demo_conf [.acquire 0 demo_create]).w 0 = some (200, w1) ∧
      w1.heap 1 = some st1 ∧ st1.close = false ∧ (w1.ctx 0).diagnostic = ⟨none, 0⟩ ∧
      lws_run_state demo_run_fails (demo_sys demo_conf [.acquire 0 demo_create]).w 0 =
        some (-1, w2) ∧
      w2.heap 1 = some st2 ∧ st2.close = true ∧
      (w2.ctx 0).diagnostic = ⟨some ['o', 'o', 'p', 's'], 4⟩ ∧
      lws_run_state { demo_run_fails with diag_alloc_ok := false }
        (demo_sys demo_conf [.acquire 0 demo_create]).w 0 = some (-1, w3) ∧
      w3.heap 1 = some st3 ∧ st3.close = true ∧ (w3.ctx 0).diagnostic = ⟨none, 0⟩ := by
  obtain ⟨r, w1, st1, h1, h2, h3, -⟩ := run_result_and_diagnostic demo_run_ok
    (demo_sys demo_conf [.acquire 0 demo_create]).w 0 1
    (((demo_sys demo_conf [.acquire 0 demo_create]).w.heap 1).getD State.zero)
    { demo_lua with stack := [.cfunction "lws_traceback"] } rfl rfl rfl
  obtain ⟨r2, w2, st2, k1, k2, -, k4⟩ := run_result_and_diagnostic demo_run_fails
    (demo_sys demo_conf [.acquire 0 demo_create]).w 0 1
    (((demo_sys demo_conf [.acquire 0 demo_create]).w.heap 1).getD State.zero)
    { demo_lua with stack := [.cfunction "lws_traceback"] } rfl rfl rfl
  obtain ⟨r3, w3, st3, m1, m2, -, m4⟩ := run_result_and_diagnostic
    { demo_run_fails with diag_alloc_ok := false }
    (demo_sys demo_conf [.acquire 0 demo_create]).w 0 1
    (((demo_sys demo_conf [.acquire 0 demo_create]).w.heap 1).getD State.zero)
    { demo_lua with stack := [.cfunction "lws_traceback"] } rfl rfl rfl
  obtain ⟨g1, g2, g3, g4⟩ := h3 (.integer 200) rfl
  obtain ⟨f1, f2, f3, -⟩ := k4 (.string ['o', 'o', 'p', 's']) rfl
  obtain ⟨n1, n2, -, n4, -⟩ := m4 (.string ['o', 'o', 'p', 's']) rfl
  have e1 : r = 200 := g2 200 rfl (by decide) (by decide)
  subst e1
  subst f1
  subst n1
  exact ⟨w1, st1, w2, st2, w3, st3, h1, h2, g3, g4, k1, k2, f2, f3 rfl rfl, m1, m2, n2,
    n4 rfl rfl⟩

/-! ## The records an event leaves -/

theorem wadd_wsub_cancel (now next : Nat) (h : next < WORD) : wadd now (wsub next now) = next := by
  unfold wadd wsub WORD at *
  omega

theorem NGX_TIMER_INFINITE_lt : NGX_TIMER_INFINITE < WORD := by decide

/-- What `lws_set_state_timer` leaves: the deadlines and the `timedout` flag
are as before; the timer is set exactly when one of the deadlines is finite,
and then its key is the earlier deadline. -/
theorem lws_set_state_timer_spec (now : Nat) (st : State) (h1 : st.timeout < WORD)
    (h2 : st.time_max < WORD) :
    (lws_set_state_timer now st).time_max = st.time_max ∧
    (lws_set_state_timer now st).timeout = st.timeout ∧
    ((lws_set_state_timer now st).tev.timer_set = true ↔
      (st.time_max ≠ NGX_TIMER_INFINITE ∨ st.timeout ≠ NGX_TIMER_INFINITE)) ∧
    ((lws_set_state_timer now st).tev.timer_set = true →
      (lws_set_state_timer now st).tev.key =
        wadd now (wsub (if st.timeout < st.time_max then st.timeout else st.time_max) now) ∧
      (lws_set_state_timer now st).tev.key =
        if st.timeout < st.time_max then st.timeout else st.time_max) := by
  have hn : (if st.timeout < st.time_max then st.timeout else st.time_max) < WORD := by
    split_ifs <;> assumption
  simp only [lws_set_state_timer, ngx_del_timer, ngx_add_timer]
  by_cases hs : st.tev.timer_set = true <;>
    by_cases hd : st.time_max ≠ NGX_TIMER_INFINITE ∨ st.timeout ≠ NGX_TIMER_INFINITE <;>
    simp only [hs, hd, if_true, if_false, true_and, and_true, iff_true, iff_false,
      Bool.false_eq_true, not_false_eq_true, not_true_eq_false, false_implies, true_implies] <;>
    exact wadd_wsub_cancel now _ hn

/-- A protected call without results that succeeds leaves the stack below the
function. -/
theorem lua_pcall_c_ok_stack (f : LuaState → Except String LuaState) (L : LuaState) (nargs : Nat)
    (h : (lua_pcall_c f L nargs 0).1 = LUA_OK) :
    (lua_pcall_c f L nargs 0).2.stack = L.stack.take (L.stack.length - (nargs + 1)) := by
  simp only [lua_pcall_c] at h ⊢
  generalize f { L with stack := L.stack.drop (L.stack.length - nargs) } = r at h ⊢
  cases r with
  | ok L1 => simp
  | error e =>
    have h2 : LUA_ERRRUN = LUA_OK := h
    exact absurd h2 (by decide)

theorem create_init_stack_stack (L : LuaState) (path cpath : List Char) (monitored : Bool) :
    (create_init_stack L path cpath monitored).stack =
      L.stack ++ [.cfunction "lws_init", .string path, .string cpath, .boolean monitored] := by
  simp [create_init_stack, lua_pushcfunction, lua_pushlstring, lua_pushboolean, lua_push]

/-- The record of a state `lws_create_state` has created: the record of the
block "set timer" on a record that is idle, not marked for closure, without
requests, with a timer never set, and whose Lua stack is the stack of the
fresh Lua state with the traceback function on top. -/
theorem lws_create_state_some (o : CreateOracle) (w : World) (a : Nat) (w1 : World)
    (h : lws_create_state o w = (some a, w1)) :
    a = w.brk ∧ ∃ st0 L0 L,
      w1 = create_done { w with brk := w.brk + 1 } w.brk
        (create_set_timer w.ngx_current_msec w.llcf.state_time_max st0) ∧
      o.newstate = some L0 ∧ st0.L = some L ∧
      L.stack = L0.stack ++ [.cfunction "lws_traceback"] ∧
      st0.in_use = false ∧ st0.close = false ∧ st0.request_count = 0 ∧
      st0.tev = { timer_set := false, timedout := false, key := 0 } := by
  unfold lws_create_state at h
  by_cases hc : o.calloc_ok
  · simp only [hc, Bool.not_true, Bool.false_eq_true, if_false] at h
    cases hn : o.newstate with
    | none =>
      have hL : (create_lua_state o w.llcf.state_memory_max).L = none := by
        unfold create_lua_state; split_ifs <;> simp [hn]
      rw [hL] at h
      simp at h
    | some L0 =>
      obtain ⟨L0c, hL, hstack⟩ : ∃ L0c, (create_lua_state o w.llcf.state_memory_max).L = some L0c ∧
          L0c.stack = L0.stack := by
        unfold create_lua_state; split_ifs <;> simp [hn]
      have hrest : (create_lua_state o w.llcf.state_memory_max).in_use = false ∧
          (create_lua_state o w.llcf.state_memory_max).close = false ∧
          (create_lua_state o w.llcf.state_memory_max).request_count = 0 ∧
          (create_lua_state o w.llcf.state_memory_max).tev =
            { timer_set := false, timedout := false, key := 0 } := by
        unfold create_lua_state; split_ifs <;> simp [State.zero]
      rw [hL] at h
      simp only [] at h
      split_ifs at h with hs
      · simp at h
      · simp only [Prod.mk.injEq, Option.some.injEq] at h
        obtain ⟨h1, h2⟩ := h
        refine ⟨h1.symm, _, L0, _, h2.symm, rfl, rfl, ?_, ?_, ?_, ?_, ?_⟩
        · have hok := lua_pcall_c_ok_stack (lws_init o.libs)
            (create_init_stack L0c w.llcf.path w.llcf.cpath w.monitor.isSome) 3
            (by simpa using hs)
          simp only [lua_pushcfunction, lua_push, hok, create_init_stack_stack, hstack]
          simp
        · simpa using hrest.1
        · simpa using hrest.2.1
        · simpa using hrest.2.2.1
        · simpa using hrest.2.2.2
  · simp [hc] at h

/-- Every event leaves the configured limits as they are. -/
theorem step_limits {s s1 : Sys} {e : Event} (h : step_intact s e = some s1) :
    s1.w.llcf.state_timeout = s.w.llcf.state_timeout ∧
    s1.w.llcf.state_time_max = s.w.llcf.state_time_max ∧
    s1.w.llcf.state_requests_max = s.w.llcf.state_requests_max ∧
    s1.w.llcf.state_memory_max = s.w.llcf.state_memory_max ∧
    s1.w.llcf.state_gc = s.w.llcf.state_gc ∧
    s1.w.llcf.diagnostic = s.w.llcf.diagnostic := by
  cases e with
  | acquire c o =>
    simp only [step_intact] at h
    cases hacq : lws_acquire_state o s.w c with
    | none => rw [hacq] at h; cases h
    | some rw1 =>
      obtain ⟨r, w1⟩ := rw1
      rw [hacq] at h
      simp only [Option.some.injEq] at h
      subst h
      cases hq : s.w.llcf.states with
      | cons q rest =>
        cases hst : s.w.heap q with
        | none => simp [lws_acquire_state, hq, hst] at hacq
        | some st =>
          rw [lws_acquire_state_pop o s.w c q rest st hq hst] at hacq
          simp only [Option.some.injEq, Prod.mk.injEq] at hacq
          obtain ⟨-, rfl⟩ := hacq
          simp [acquire_bind]
      | nil =>
        rcases lws_create_state_cases o s.w with hcr | hcr | ⟨st, hcr, -⟩ | ⟨st, hcr, -⟩
        · simp only [lws_acquire_state, hq, hcr, Option.some.injEq, Prod.mk.injEq] at hacq
          obtain ⟨-, rfl⟩ := hacq
          simp
        · simp only [lws_acquire_state, hq, hcr, Option.some.injEq, Prod.mk.injEq] at hacq
          obtain ⟨-, rfl⟩ := hacq
          simp
        · simp only [lws_acquire_state, hq, hcr, Option.some.injEq, Prod.mk.injEq] at hacq
          obtain ⟨-, rfl⟩ := hacq
          simp [close_state_at]
        · simp only [lws_acquire_state, hq, hcr, create_done, Function.update_same,
            Option.some.injEq, Prod.mk.injEq] at hacq
          obtain ⟨-, rfl⟩ := hacq
          simp [acquire_bind]
  | run c o =>
    simp only [step_intact] at h
    cases hrun : lws_run_state o s.w c with
    | none => rw [hrun] at h; cases h
    | some rw1 =>
      obtain ⟨r, w1⟩ := rw1
      rw [hrun] at h
      simp only [Option.some.injEq] at h
      subst h
      cases hc : (s.w.ctx c).state with
      | none => simp [lws_run_state, hc] at hrun
      | some a =>
        cases hst : s.w.heap a with
        | none => simp [lws_run_state, hc, hst] at hrun
        | some st =>
          cases hL : st.L with
          | none => simp [lws_run_state, hc, hst, hL] at hrun
          | some L =>
            obtain ⟨r1, w2, st1, hr, -, -, g3, -⟩ := lws_run_state_cases o s.w c a st L hc hst hL
            rw [hr] at hrun
            simp only [Option.some.injEq, Prod.mk.injEq] at hrun
            obtain ⟨-, rfl⟩ := hrun
            simp [g3]
  | release c o =>
    simp only [step_intact] at h
    cases hrel : lws_release_state o s.w c with
    | none => rw [hrel] at h; cases h
    | some w1 =>
      rw [hrel] at h
      simp only [Option.some.injEq] at h
      subst h
      obtain ⟨a, st, -, -, ⟨-, rfl⟩ | ⟨-, -, rfl⟩⟩ := lws_release_state_some o s.w c w1 hrel
      · simp [close_state_at]
      · simp
  | timer a =>
    simp only [step_intact] at h
    cases hex : ngx_event_expire_timer s.w a with
    | none => rw [hex] at h; cases h
    | some w1 =>
      rw [hex] at h
      simp only [Option.some.injEq] at h
      subst h
      cases hst : s.w.heap a with
      | none => simp [ngx_event_expire_timer, hst] at hex
      | some st =>
        cases hset : st.tev.timer_set with
        | false => simp [ngx_event_expire_timer, hst, hset] at hex
        | true =>
          cases hin : st.in_use with
          | false =>
            by_cases hmem : a ∈ s.w.llcf.states
            · rw [ngx_event_expire_timer_idle s.w a st hst hset hin hmem] at hex
              simp only [Option.some.injEq] at hex
              subst hex
              simp [close_state_at]
            · simp [ngx_event_expire_timer, hst, hset, lws_state_timer_handler, hin,
                ngx_queue_remove, hmem] at hex
          | true =>
            rw [ngx_event_expire_timer_in_use s.w a st hst hset hin] at hex
            simp only [Option.some.injEq] at hex
            subst hex
            simp
  | tick now =>
    simp only [step_intact, Option.some.injEq] at h
    subst h
    simp

/-- Every event leaves the clock as it is, except a tick, which sets it to a
word. -/
theorem step_clock {s s1 : Sys} {e : Event} (h : step_intact s e = some s1) :
    (s1.w.ngx_current_msec = s.w.ngx_current_msec ∧ ∀ now, e ≠ .tick now) ∨
    ∃ now, e = .tick now ∧ s1.w.ngx_current_msec = now % WORD := by
  cases e with
  | acquire c o =>
    left
    refine ⟨?_, fun _ hh => by cases hh⟩
    simp only [step_intact] at h
    cases hacq : lws_acquire_state o s.w c with
    | none => rw [hacq] at h; cases h
    | some rw1 =>
      obtain ⟨r, w1⟩ := rw1
      rw [hacq] at h
      simp only [Option.some.injEq] at h
      subst h
      cases hq : s.w.llcf.states with
      | cons q rest =>
        cases hst : s.w.heap q with
        | none => simp [lws_acquire_state, hq, hst] at hacq
        | some st =>
          rw [lws_acquire_state_pop o s.w c q rest st hq hst] at hacq
          simp only [Option.some.injEq, Prod.mk.injEq] at hacq
          obtain ⟨-, rfl⟩ := hacq
          simp [acquire_bind]
      | nil =>
        rcases lws_create_state_cases o s.w with hcr | hcr | ⟨st, hcr, -⟩ | ⟨st, hcr, -⟩
        · simp only [lws_acquire_state, hq, hcr, Option.some.injEq, Prod.mk.injEq] at hacq
          obtain ⟨-, rfl⟩ := hacq
          simp
        · simp only [lws_acquire_state, hq, hcr, Option.some.injEq, Prod.mk.injEq] at hacq
          obtain ⟨-, rfl⟩ := hacq
          simp
        · simp only [lws_acquire_state, hq, hcr, Option.some.injEq, Prod.mk.injEq] at hacq
          obtain ⟨-, rfl⟩ := hacq
          simp [close_state_at]
        · simp only [lws_acquire_state, hq, hcr, create_done, Function.update_same,
            Option.some.injEq, Prod.mk.injEq] at hacq
          obtain ⟨-, rfl⟩ := hacq
          simp [acquire_bind]
  | run c o =>
    left
    refine ⟨?_, fun _ hh => by cases hh⟩
    simp only [step_intact] at h
    cases hrun : lws_run_state o s.w c with
    | none => rw [hrun] at h; cases h
    | some rw1 =>
      obtain ⟨r, w1⟩ := rw1
      rw [hrun] at h
      simp only [Option.some.injEq] at h
      subst h
      cases hc : (s.w.ctx c).state with
      | none => simp [lws_run_state, hc] at hrun
      | some a =>
        cases hst : s.w.heap a with
        | none => simp [lws_run_state, hc, hst] at hrun
        | some st =>
          cases hL : st.L with
          | none => simp [lws_run_state, hc, hst, hL] at hrun
          | some L =>
            obtain ⟨r1, w2, st1, hr, -, -, -, -, -, g6, -⟩ :=
              lws_run_state_cases o s.w c a st L hc hst hL
            rw [hr] at hrun
            simp only [Option.some.injEq, Prod.mk.injEq] at hrun
            obtain ⟨-, rfl⟩ := hrun
            exact g6
  | release c o =>
    left
    refine ⟨?_, fun _ hh => by cases hh⟩
    simp only [step_intact] at h
    cases hrel : lws_release_state o s.w c with
    | none => rw [hrel] at h; cases h
    | some w1 =>
      rw [hrel] at h
      simp only [Option.some.injEq] at h
      subst h
      obtain ⟨a, st, -, -, ⟨-, rfl⟩ | ⟨-, -, rfl⟩⟩ := lws_release_state_some o s.w c w1 hrel
      · simp [close_state_at]
      · simp
  | timer a =>
    left
    refine ⟨?_, fun _ hh => by cases hh⟩
    simp only [step_intact] at h
    cases hex : ngx_event_expire_timer s.w a with
    | none => rw [hex] at h; cases h
    | some w1 =>
      rw [hex] at h
      simp only [Option.some.injEq] at h
      subst h
      cases hst : s.w.heap a with
      | none => simp [ngx_event_expire_timer, hst] at hex
      | some st =>
        cases hset : st.tev.timer_set with
        | false => simp [ngx_event_expire_timer, hst, hset] at hex
        | true =>
          cases hin : st.in_use with
          | false =>
            by_cases hmem : a ∈ s.w.llcf.states
            · rw [ngx_event_expire_timer_idle s.w a st hst hset hin hmem] at hex
              simp only [Option.some.injEq] at hex
              subst hex
              simp [close_state_at]
            · simp [ngx_event_expire_timer, hst, hset, lws_state_timer_handler, hin,
                ngx_queue_remove, hmem] at hex
          | true =>
            rw [ngx_event_expire_timer_in_use s.w a st hst hset hin] at hex
            simp only [Option.some.injEq] at hex
            subst hex
            simp
  | tick now =>
    right
    simp only [step_intact, Option.some.injEq] at h
    subst h
    exact ⟨now, rfl, rfl⟩

/-- The record an event leaves at an address: the record that was there, or
the record popped by an acquire, the record created by an acquire, the record
of a run, the record recycled by a release, or the record of a state in use
whose timer has expired. -/
theorem step_record {s s1 : Sys} {e : Event} (h : step_intact s e = some s1) {a : Nat} {st1 : State}
    (h1 : s1.w.heap a = some st1) :
    s.w.heap a = some st1 ∨
    (∃ c o st p, e = .acquire c o ∧ s.w.heap a = some st ∧ s.w.llcf.states.head? = some a ∧
      st1 = { acquire_disarm s.w.ngx_current_msec s.w.llcf.state_timeout st with
        profiler := p, in_use := true }) ∨
    (∃ c o st0 L0 L p, e = .acquire c o ∧ s.w.llcf.states = [] ∧ a = s.w.brk ∧
      o.newstate = some L0 ∧
      st1 = { create_set_timer s.w.ngx_current_msec s.w.llcf.state_time_max st0 with
        profiler := p, in_use := true } ∧
      st0.L = some L ∧ L.stack = L0.stack ++ [.cfunction "lws_traceback"] ∧
      st0.in_use = false ∧ st0.close = false ∧ st0.request_count = 0 ∧
      st0.tev = { timer_set := false, timedout := false, key := 0 }) ∨
    (∃ c o st L, e = .run c o ∧ (s.w.ctx c).state = some a ∧ s.w.heap a = some st ∧
      st.L = some L ∧
      (st1 = { lua_allocs L.checked st o.allocs with L := some L } ∨
        st1 = { lua_allocs L.checked st o.allocs with L := some L, close := true })) ∨
    (∃ c o st, e = .release c o ∧ (s.w.ctx c).state = some a ∧ s.w.heap a = some st ∧
      release_closes s.w.llcf { st with request_count := st.request_count + 1 } = false ∧
      a ∉ s.w.llcf.states ∧
      st1 = release_record o s.w.llcf s.w.monitor.isSome s.w.ngx_current_msec
        { st with request_count := st.request_count + 1 }) ∨
    (∃ st, e = .timer a ∧ s.w.heap a = some st ∧ st.in_use = true ∧ st.tev.timer_set = true ∧
      st1 = { st with tev := { st.tev with timer_set := false, timedout := true } }) := by
  cases e with
  | acquire c o =>
    simp only [step_intact] at h
    cases hacq : lws_acquire_state o s.w c with
    | none => rw [hacq] at h; cases h
    | some rw1 =>
      obtain ⟨r, w1⟩ := rw1
      rw [hacq] at h
      simp only [Option.some.injEq] at h
      subst h
      cases hq : s.w.llcf.states with
      | cons q rest =>
        cases hst : s.w.heap q with
        | none => simp [lws_acquire_state, hq, hst] at hacq
        | some st =>
          rw [lws_acquire_state_pop o s.w c q rest st hq hst] at hacq
          simp only [Option.some.injEq, Prod.mk.injEq] at hacq
          obtain ⟨-, rfl⟩ := hacq
          by_cases hx : a = q
          · subst hx
            right; left
            simp only [acquire_bind, Function.update_same, Option.some.injEq] at h1
            exact ⟨c, o, st, _, rfl, hst, rfl, h1.symm⟩
          · left
            simpa [acquire_bind, Function.update_noteq hx] using h1
      | nil =>
        cases hcr : lws_create_state o s.w with
        | mk r0 w0 =>
          cases r0 with
          | none =>
            simp only [lws_acquire_state, hq, hcr, Option.some.injEq, Prod.mk.injEq] at hacq
            obtain ⟨-, rfl⟩ := hacq
            left
            rcases lws_create_state_cases o s.w with hc1 | hc1 | ⟨st, hc1, -⟩ | ⟨st, hc1, -⟩
            · rw [hc1] at hcr; cases hcr; exact h1
            · rw [hc1] at hcr; cases hcr; exact h1
            · rw [hc1] at hcr; cases hcr
              simp only [close_state_at] at h1
              by_cases hx : a = s.w.brk
              · subst hx; simp at h1
              · simpa [Function.update_noteq hx] using h1
            · rw [hc1] at hcr; cases hcr
          | some a0 =>
            obtain ⟨ha0, st0, L0, L, hw0, hn, hL, hstack, f1, f2, f3, f4⟩ :=
              lws_create_state_some o s.w a0 w0 hcr
            subst ha0
            subst hw0
            simp only [lws_acquire_state, hq, hcr, create_done, Function.update_same,
              Option.some.injEq, Prod.mk.injEq] at hacq
            obtain ⟨-, rfl⟩ := hacq
            by_cases hx : a = s.w.brk
            · subst hx
              right; right; left
              simp only [acquire_bind, Function.update_same, Option.some.injEq] at h1
              exact ⟨c, o, st0, L0, L, _, rfl, rfl, rfl, hn, h1.symm, hL, hstack, f1, f2, f3, f4⟩
            · left
              simpa [acquire_bind, Function.update_noteq hx] using h1
  | run c o =>
    simp only [step_intact] at h
    cases hrun : lws_run_state o s.w c with
    | none => rw [hrun] at h; cases h
    | some rw1 =>
      obtain ⟨r, w1⟩ := rw1
      rw [hrun] at h
      simp only [Option.some.injEq] at h
      subst h
      cases hc : (s.w.ctx c).state with
      | none => simp [lws_run_state, hc] at hrun
      | some a0 =>
        cases hst : s.w.heap a0 with
        | none => simp [lws_run_state, hc, hst] at hrun
        | some st =>
          cases hL : st.L with
          | none => simp [lws_run_state, hc, hst, hL] at hrun
          | some L =>
            rw [lws_run_state_eq o s.w c a0 st L hc hst hL] at hrun
            simp only [Option.some.injEq] at hrun
            by_cases hx : a = a0
            · subst hx
              right; right; right; left
              refine ⟨c, o, st, L, rfl, hc, hst, hL, ?_⟩
              cases ho : o.outcome with
              | ok v =>
                rw [ho] at hrun
                simp only [Prod.mk.injEq] at hrun
                obtain ⟨-, rfl⟩ := hrun
                left
                simp only [Function.update_same, Option.some.injEq] at h1
                exact h1.symm
              | error v =>
                rw [ho] at hrun
                simp only [Prod.mk.injEq] at hrun
                obtain ⟨-, rfl⟩ := hrun
                right
                simp only [Function.update_same, Option.some.injEq] at h1
                exact h1.symm
            · left
              cases ho : o.outcome with
              | ok v =>
                rw [ho] at hrun
                simp only [Prod.mk.injEq] at hrun
                obtain ⟨-, rfl⟩ := hrun
                simpa [Function.update_noteq hx] using h1
              | error v =>
                rw [ho] at hrun
                simp only [Prod.mk.injEq] at hrun
                obtain ⟨-, rfl⟩ := hrun
                simpa [Function.update_noteq hx] using h1
  | release c o =>
    simp only [step_intact] at h
    cases hrel : lws_release_state o s.w c with
    | none => rw [hrel] at h; cases h
    | some w1 =>
      rw [hrel] at h
      simp only [Option.some.injEq] at h
      subst h
      obtain ⟨a0, st, hc, hst, ⟨-, rfl⟩ | ⟨hcl, hns, rfl⟩⟩ := lws_release_state_some o s.w c w1 hrel
      · left
        simp only [close_state_at] at h1
        by_cases hx : a = a0
        · subst hx; simp at h1
        · simpa [Function.update_noteq hx] using h1
      · by_cases hx : a = a0
        · subst hx
          right; right; right; right; left
          simp only [Function.update_same, Option.some.injEq] at h1
          exact ⟨c, o, st, rfl, hc, hst, hcl, hns, h1.symm⟩
        · left
          simpa [Function.update_noteq hx] using h1
  | timer a0 =>
    simp only [step_intact] at h
    cases hex : ngx_event_expire_timer s.w a0 with
    | none => rw [hex] at h; cases h
    | some w1 =>
      rw [hex] at h
      simp only [Option.some.injEq] at h
      subst h
      cases hst : s.w.heap a0 with
      | none => simp [ngx_event_expire_timer, hst] at hex
      | some st =>
        cases hset : st.tev.timer_set with
        | false => simp [ngx_event_expire_timer, hst, hset] at hex
        | true =>
          cases hin : st.in_use with
          | false =>
            by_cases hmem : a0 ∈ s.w.llcf.states
            · rw [ngx_event_expire_timer_idle s.w a0 st hst hset hin hmem] at hex
              simp only [Option.some.injEq] at hex
              subst hex
              left
              simp only [close_state_at] at h1
              by_cases hx : a = a0
              · subst hx; simp at h1
              · simpa [Function.update_noteq hx] using h1
            · simp [ngx_event_expire_timer, hst, hset, lws_state_timer_handler, hin,
                ngx_queue_remove, hmem] at hex
          | true =>
            rw [ngx_event_expire_timer_in_use s.w a0 st hst hset hin] at hex
            simp only [Option.some.injEq] at hex
            subst hex
            by_cases hx : a = a0
            · subst hx
              right; right; right; right; right
              simp only [Function.update_same, Option.some.injEq] at h1
              exact ⟨st, rfl, hst, hin, hset, h1.symm⟩
            · left
              simpa [Function.update_noteq hx] using h1
  | tick now =>
    simp only [step_intact, Option.some.injEq] at h
    subst h
    left
    exact h1

/-! ## Timer bookkeeping is kept by every event -/

/-- The block "update timeout" of `lws_release_state` with an idle timeout
configured: the idle deadline is `now + T`, and the timer is set, with the
earlier deadline as key, unless both deadlines are infinite. -/
theorem release_rearm_spec (now T : Nat) (x r : State) (hr : r = release_rearm now T x)
    (hT : 0 < T) (h : x.time_max < WORD) :
    r.time_max = x.time_max ∧ r.timeout = wadd now T ∧
    (r.tev.timer_set = true ↔
      (r.time_max ≠ NGX_TIMER_INFINITE ∨ r.timeout ≠ NGX_TIMER_INFINITE)) ∧
    (r.tev.timer_set = true →
      r.tev.key = wadd now (wsub (if r.timeout < r.time_max then r.timeout else r.time_max) now) ∧
      r.tev.key = if r.timeout < r.time_max then r.timeout else r.time_max) := by
  obtain ⟨s1, s2, s3, s4⟩ := lws_set_state_timer_spec now { x with timeout := wadd now T }
    (wadd_lt _ _) h
  have e : r = lws_set_state_timer now { x with timeout := wadd now T } := by
    rw [hr]; simp [release_rearm, hT]
  subst e
  refine ⟨s1, s2, ?_, ?_⟩
  · rw [s1, s2]; exact s3
  · rw [s1, s2]; exact s4

/-- The deadlines and the timer of the record `lws_release_state` puts back on
the queue. -/
theorem release_record_timer (o : ReleaseOracle) (llcf : LocConf) (mon : Bool) (now : Nat)
    (st rr : State) (hrr : rr = release_record o llcf mon now st) (htm : st.time_max < WORD) :
    rr.time_max = st.time_max ∧ rr.in_use = false ∧ rr.tev.timedout = st.tev.timedout ∧
    (llcf.state_timeout = 0 → rr.timeout = st.timeout ∧ rr.tev = st.tev) ∧
    (0 < llcf.state_timeout →
      rr.timeout = wadd now llcf.state_timeout ∧
      (rr.tev.timer_set = true ↔
        (rr.time_max ≠ NGX_TIMER_INFINITE ∨ rr.timeout ≠ NGX_TIMER_INFINITE)) ∧
      (rr.tev.timer_set = true →
        rr.tev.key =
          wadd now (wsub (if rr.timeout < rr.time_max then rr.timeout else rr.time_max) now) ∧
        rr.tev.key = if rr.timeout < rr.time_max then rr.timeout else rr.time_max)) := by
  have hk := release_collect_kept o llcf mon st
  simp only [State.kept, Prod.mk.injEq] at hk
  obtain ⟨-, -, -, k4, k5, k6, -, -⟩ := hk
  obtain ⟨x, hx, x1, x2, x3⟩ : ∃ x, rr = { release_rearm now llcf.state_timeout x with
      in_use := false } ∧ x.time_max = st.time_max ∧ x.timeout = st.timeout ∧ x.tev = st.tev := by
    refine ⟨_, hrr, ?_⟩
    cases mon <;> simp [k4, k5, k6]
  subst hx
  by_cases hT : llcf.state_timeout = 0
  · simp [release_rearm, hT, x1, x2, x3]
  · have hT2 : 0 < llcf.state_timeout := Nat.pos_of_ne_zero hT
    obtain ⟨r1, r2, r3, r4⟩ := release_rearm_spec now llcf.state_timeout x _ rfl hT2
      (by rw [x1]; exact htm)
    refine ⟨by rw [← x1]; exact r1, rfl, by simp [x3], fun h0 => absurd h0 hT, fun _ => ?_⟩
    exact ⟨r2, r3, r4⟩

theorem TimerOk.acquired {T M : Nat} {st : State} (h : TimerOk T M st) (now p : Nat) :
    TimerOk T M { acquire_disarm now T st with profiler := p, in_use := true } := by
  by_cases hT : T = 0
  · have e : acquire_disarm now T st = st := by simp [acquire_disarm, hT]
    rw [e]
    exact ⟨h.time_max_word, h.timeout_word, h.no_idle_limit, h.no_lifetime,
      fun _ => h.no_idle_limit hT, h.key_eq, (fun hh => by cases hh), h.set_iff⟩
  · have e : acquire_disarm now T st =
        lws_set_state_timer now { st with timeout := NGX_TIMER_INFINITE } := by
      simp [acquire_disarm, Nat.pos_of_ne_zero hT]
    rw [e]
    obtain ⟨s1, s2, s3, s4⟩ := lws_set_state_timer_spec now
      { st with timeout := NGX_TIMER_INFINITE } NGX_TIMER_INFINITE_lt h.time_max_word
    refine ⟨?_, ?_, fun _ => s2, fun hM => ?_, fun _ => s2, ?_, (fun hh => by cases hh), fun _ => ?_⟩
    · show (lws_set_state_timer now { st with timeout := NGX_TIMER_INFINITE }).time_max < WORD
      rw [s1]; exact h.time_max_word
    · show (lws_set_state_timer now { st with timeout := NGX_TIMER_INFINITE }).timeout < WORD
      rw [s2]; exact NGX_TIMER_INFINITE_lt
    · show (lws_set_state_timer now { st with timeout := NGX_TIMER_INFINITE }).time_max = _
      rw [s1]; exact h.no_lifetime hM
    · intro hs
      show (lws_set_state_timer now { st with timeout := NGX_TIMER_INFINITE }).tev.key =
        if (lws_set_state_timer now { st with timeout := NGX_TIMER_INFINITE }).timeout <
            (lws_set_state_timer now { st with timeout := NGX_TIMER_INFINITE }).time_max
          then (lws_set_state_timer now { st with timeout := NGX_TIMER_INFINITE }).timeout
          else (lws_set_state_timer now { st with timeout := NGX_TIMER_INFINITE }).time_max
      rw [s1, s2]
      exact (s4 hs).2
    · show (lws_set_state_timer now { st with timeout := NGX_TIMER_INFINITE }).tev.timer_set = true ↔
        ((lws_set_state_timer now { st with timeout := NGX_TIMER_INFINITE }).time_max ≠
            NGX_TIMER_INFINITE ∨
          (lws_set_state_timer now { st with timeout := NGX_TIMER_INFINITE }).timeout ≠
            NGX_TIMER_INFINITE)
      rw [s1, s2]
      exact s3

theorem TimerOk.created (T M now p : Nat) (st0 : State) :
    TimerOk T M { create_set_timer now M st0 with profiler := p, in_use := true } := by
  obtain ⟨x, hx, x1, x2, x3⟩ : ∃ x, create_set_timer now M st0 = lws_set_state_timer now x ∧
      x.timeout = NGX_TIMER_INFINITE ∧ x.time_max < WORD ∧
      (M = 0 → x.time_max = NGX_TIMER_INFINITE) := by
    by_cases hM : M = 0
    · refine ⟨{ st0 with time_max := NGX_TIMER_INFINITE, timeout := NGX_TIMER_INFINITE }, ?_, rfl,
        NGX_TIMER_INFINITE_lt, fun _ => rfl⟩
      simp only [create_set_timer, hM, ne_eq, not_true_eq_false, if_false]
    · refine ⟨{ st0 with time_max := wadd now M, timeout := NGX_TIMER_INFINITE }, ?_, rfl,
        wadd_lt _ _, fun h0 => absurd h0 hM⟩
      simp only [create_set_timer, hM, ne_eq, not_false_eq_true, if_true]
  rw [hx]
  obtain ⟨s1, s2, s3, s4⟩ := lws_set_state_timer_spec now x (by rw [x1]; exact NGX_TIMER_INFINITE_lt)
    x2
  refine ⟨?_, ?_, fun _ => s2.trans x1, fun hM => ?_, fun _ => s2.trans x1, ?_,
    (fun hh => by cases hh), fun _ => ?_⟩
  · show (lws_set_state_timer now x).time_max < WORD
    rw [s1]; exact x2
  · show (lws_set_state_timer now x).timeout < WORD
    rw [s2, x1]; exact NGX_TIMER_INFINITE_lt
  · show (lws_set_state_timer now x).time_max = _
    rw [s1]; exact x3 hM
  · intro hs
    show (lws_set_state_timer now x).tev.key =
      if (lws_set_state_timer now x).timeout < (lws_set_state_timer now x).time_max
        then (lws_set_state_timer now x).timeout else (lws_set_state_timer now x).time_max
    rw [s1, s2]
    exact (s4 hs).2
  · show (lws_set_state_timer now x).tev.timer_set = true ↔
      ((lws_set_state_timer now x).time_max ≠ NGX_TIMER_INFINITE ∨
        (lws_set_state_timer now x).timeout ≠ NGX_TIMER_INFINITE)
    rw [s1, s2]
    exact s3

theorem TimerOk.ran {T M : Nat} {st : State} (h : TimerOk T M st) (checked : Bool)
    (allocs : List AllocCall) (L : LuaState) (cl : Bool) :
    TimerOk T M { lua_allocs checked st allocs with L := some L, close := cl } := by
  constructor <;>
    simp only [lua_allocs_time_max, lua_allocs_timeout, lua_allocs_tev, lua_allocs_in_use]
  · exact h.time_max_word
  · exact h.timeout_word
  · exact h.no_idle_limit
  · exact h.no_lifetime
  · exact h.in_use_clear
  · exact h.key_eq
  · exact h.idle_not_fired
  · exact h.set_iff

theorem TimerOk.released {T M : Nat} {st : State} (h : TimerOk T M st) (o : ReleaseOracle)
    (llcf : LocConf) (mon : Bool) (now : Nat) (hT : llcf.state_timeout = T)
    (hcl : release_closes llcf { st with request_count := st.request_count + 1 } = false) :
    TimerOk T M (release_record o llcf mon now { st with request_count := st.request_count + 1 }) := by
  obtain ⟨-, hto, -⟩ := release_closes_false_iff _ _ hcl
  obtain ⟨r1, r2, r3, r4, r5⟩ := release_record_timer o llcf mon now
    { st with request_count := st.request_count + 1 } _ rfl h.time_max_word
  have hto1 : st.tev.timedout = false := hto
  by_cases h0 : T = 0
  · obtain ⟨q1, q2⟩ := r4 (hT.trans h0)
    refine ⟨(by rw [r1]; exact h.time_max_word), (by rw [q1]; exact h.timeout_word),
      (fun _ => by rw [q1]; exact h.no_idle_limit h0),
      (fun hM => by rw [r1]; exact h.no_lifetime hM),
      (fun hh => by rw [r2] at hh; cases hh), ?_, (fun _ => by rw [r3]; exact hto1), ?_⟩
    · rw [q1, q2, r1]; exact h.key_eq
    · rw [q1, q2, r1]; exact h.set_iff
  · obtain ⟨q1, q2, q3⟩ := r5 (by rw [hT]; exact Nat.pos_of_ne_zero h0)
    refine ⟨(by rw [r1]; exact h.time_max_word), (by rw [q1]; exact wadd_lt _ _),
      fun hh => absurd hh h0, (fun hM => by rw [r1]; exact h.no_lifetime hM),
      (fun hh => by rw [r2] at hh; cases hh), fun hs => (q3 hs).2,
      (fun _ => by rw [r3]; exact hto1), fun _ => q2⟩

theorem TimerOk.fired {T M : Nat} {st : State} (h : TimerOk T M st) (hin : st.in_use = true) :
    TimerOk T M { st with tev := { st.tev with timer_set := false, timedout := true } } :=
  ⟨h.time_max_word, h.timeout_word, h.no_idle_limit, h.no_lifetime, h.in_use_clear,
    (fun hh => by cases hh), (fun hh => by rw [hin] at hh; cases hh), (fun hh => by cases hh)⟩

/-- Every event with a defined outcome keeps the timer bookkeeping. -/
theorem TimerInv.timer_step_keeps {T M : Nat} {s s1 : Sys} (h : TimerInv T M s.w) (e : Event)
    (hstep : step_intact s e = some s1) : TimerInv T M s1.w := by
  obtain ⟨l1, l2, -⟩ := step_limits hstep
  refine ⟨l1.trans h.1, l2.trans h.2.1, ?_⟩
  intro a st1 h1
  rcases step_record hstep h1 with hsame | ⟨c, o, st, p, -, hst, -, rfl⟩ |
    ⟨c, o, st0, L0, L, p, -, -, -, -, rfl, -⟩ | ⟨c, o, st, L, -, -, hst, -, rfl | rfl⟩ |
    ⟨c, o, st, -, -, hst, hcl, -, rfl⟩ | ⟨st, -, hst, hin, -, rfl⟩
  · exact h.2.2 a st1 hsame
  · rw [h.1]; exact (h.2.2 a st hst).acquired _ p
  · rw [h.2.1]; exact TimerOk.created T M _ p st0
  · exact (h.2.2 a st hst).ran _ o.allocs L (lua_allocs L.checked st o.allocs).close
  · exact (h.2.2 a st hst).ran _ _ L true
  · exact (h.2.2 a st hst).released o _ _ _ h.1 hcl
  · exact (h.2.2 a st hst).fired hin

theorem TimerInv.timer_exec_keeps {T M : Nat} {s s1 : Sys} (ok : Sys → Event → Bool)
    (h : TimerInv T M s.w) (es : List Event) (hex : exec ok s es = some s1) :
    TimerInv T M s1.w := by
  induction es generalizing s with
  | nil => simp only [exec, Option.some.injEq] at hex; subst hex; exact h
  | cons e es ih =>
    simp only [exec] at hex
    split_ifs at hex with hd
    cases hs : step s e with
    | none => rw [hs] at hex; cases hex
    | some s2 =>
      rw [hs] at hex
      exact ih (h.timer_step_keeps e (step_intact_of_step hs)) hex

theorem TimerInv.timer_at_start (conf : LocConf) (monitor : Option Monitor) (now : Nat) :
    TimerInv conf.state_timeout conf.state_time_max (Sys.init conf monitor now).w := by
  refine ⟨rfl, rfl, ?_⟩
  intro a st hst
  simp [Sys.init] at hst

/-! ## Deadlines while the clock is bounded -/

@[simp] theorem lws_set_state_timer_time_max (now : Nat) (st : State) :
    (lws_set_state_timer now st).time_max = st.time_max := by
  simp only [lws_set_state_timer]; split_ifs <;> rfl

@[simp] theorem lws_set_state_timer_timeout (now : Nat) (st : State) :
    (lws_set_state_timer now st).timeout = st.timeout := by
  simp only [lws_set_state_timer]; split_ifs <;> rfl

theorem wadd_le (a b : Nat) : wadd a b ≤ a + b := Nat.mod_le _ _

theorem acquire_disarm_time_max (now t : Nat) (st : State) :
    (acquire_disarm now t st).time_max = st.time_max := by
  unfold acquire_disarm; split_ifs <;> simp

theorem create_set_timer_time_max (now tm : Nat) (st : State) :
    (create_set_timer now tm st).time_max =
      if tm ≠ 0 then wadd now tm else NGX_TIMER_INFINITE := by
  unfold create_set_timer; split_ifs <;> simp

/-- While the clock stays at or below `B`, every event keeps the bounds on the
deadlines. -/
theorem DeadlineInv.deadline_step_keeps {B T M : Nat} {s s1 : Sys} (h : DeadlineInv B T M s.w)
    (htm : ∀ a st, s.w.heap a = some st → st.time_max < WORD)
    (e : Event) (hd : clock_until B s e = true) (hstep : step_intact s e = some s1) :
    DeadlineInv B T M s1.w := by
  obtain ⟨l1, l2, -⟩ := step_limits hstep
  obtain ⟨hnow, hT, hM, hall⟩ := h
  have hclock : s1.w.ngx_current_msec ≤ B := by
    rcases step_clock hstep with ⟨hc, -⟩ | ⟨now, rfl, hc⟩
    · rw [hc]; exact hnow
    · rw [hc]
      have : now ≤ B := by simpa [clock_until] using hd
      exact le_trans (Nat.mod_le _ _) this
  refine ⟨hclock, l1.trans hT, l2.trans hM, ?_⟩
  intro a st1 h1
  rcases step_record hstep h1 with hsame | ⟨c, o, st, p, -, hst, -, rfl⟩ |
    ⟨c, o, st0, L0, L, p, -, -, -, -, rfl, -⟩ | ⟨c, o, st, L, -, -, hst, -, rfl | rfl⟩ |
    ⟨c, o, st, -, -, hst, hcl, -, rfl⟩ | ⟨st, -, hst, hin, -, rfl⟩
  · exact hall a st1 hsame
  · refine ⟨fun h0 => ?_, fun _ hh => by cases hh⟩
    show (acquire_disarm _ _ st).time_max ≤ _
    rw [acquire_disarm_time_max]
    exact (hall a st hst).lifetime h0
  · refine ⟨fun h0 => ?_, fun _ hh => by cases hh⟩
    show (create_set_timer _ _ st0).time_max ≤ _
    rw [create_set_timer_time_max, hM, if_pos (Nat.pos_iff_ne_zero.mp h0)]
    exact le_trans (wadd_le _ _) (Nat.add_le_add_right hnow _)
  · refine ⟨fun h0 => ?_, fun h0 hh => ?_⟩
    · simpa using (hall a st hst).lifetime h0
    · simpa using (hall a st hst).idle h0 (by simpa using hh)
  · refine ⟨fun h0 => ?_, fun h0 hh => ?_⟩
    · simpa using (hall a st hst).lifetime h0
    · simpa using (hall a st hst).idle h0 (by simpa using hh)
  · obtain ⟨r1, -, -, -, r5⟩ := release_record_timer o s.w.llcf s.w.monitor.isSome
      s.w.ngx_current_msec { st with request_count := st.request_count + 1 } _ rfl (htm a st hst)
    refine ⟨fun h0 => ?_, fun h0 _ => ?_⟩
    · rw [r1]; exact (hall a st hst).lifetime h0
    · rw [(r5 (by rw [hT]; exact h0)).1, hT]
      exact le_trans (wadd_le _ _) (Nat.add_le_add_right hnow _)
  · exact ⟨(hall a st hst).lifetime, fun h0 hh => (hall a st hst).idle h0 hh⟩

theorem deadline_exec_keeps {B T M : Nat} {s s1 : Sys} (h : DeadlineInv B T M s.w)
    (ht : TimerInv T M s.w) (es : List Event) (hex : exec (clock_until B) s es = some s1) :
    DeadlineInv B T M s1.w := by
  induction es generalizing s with
  | nil => simp only [exec, Option.some.injEq] at hex; subst hex; exact h
  | cons e es ih =>
    simp only [exec] at hex
    split_ifs at hex with hd
    cases hs : step s e with
    | none => rw [hs] at hex; cases hex
    | some s2 =>
      rw [hs] at hex
      exact ih (h.deadline_step_keeps (fun a st hst => (ht.2.2 a st hst).time_max_word) e hd (step_intact_of_step hs))
        (ht.timer_step_keeps e (step_intact_of_step hs)) hex

theorem deadline_at_start (conf : LocConf) (monitor : Option Monitor) (now B : Nat)
    (h : now ≤ B) :
    DeadlineInv B conf.state_timeout conf.state_time_max (Sys.init conf monitor now).w := by
  refine ⟨le_trans (Nat.mod_le _ _) h, rfl, rfl, ?_⟩
  intro a st hst
  simp [Sys.init] at hst

/-! ## Timer registration of idle states (C11) and the idle deadline in use (C14) -/

/-- C11, as stated, fails for a location without idle timeout and without
maximum lifetime: after an acquire and a release the state at 1 is live and
idle, and its timer is not registered. -/
theorem idle_state_without_limits_has_no_timer :
    ∃ s st, exec disciplined (Sys.init demo_conf_unlimited none 0)
        [.acquire 0 demo_create, .release 0 demo_release] = some s ∧
      s.w.heap 1 = some st ∧ st.in_use = false ∧ st.tev.timer_set = false :=
  ⟨_, _, rfl, rfl, rfl, rfl⟩

/-- C11, amended: in every configuration reached from the start of a worker
through acquire, run, release, timer expiry and clock ticks, whatever the
callers do, as long as the clock stays at or below a time `B` from which no
configured deadline reaches `NGX_TIMER_INFINITE`, the timer of a live state
that is not in use is registered if and only if an idle timeout or a maximum
lifetime is configured. With neither configured no idle state has a timer. -/
theorem idle_timer_registered (conf : LocConf) (monitor : Option Monitor) (now B : Nat)
    (es : List Event) (s : Sys) (hnow : now ≤ B)
    (hT : B + conf.state_timeout < NGX_TIMER_INFINITE)
    (hM : B + conf.state_time_max < NGX_TIMER_INFINITE)
    (hex : exec (clock_until B) (Sys.init conf monitor now) es = some s)
    (a : Nat) (st : State) (hst : s.w.heap a = some st) (hin : st.in_use = false) :
    st.tev.timer_set = true ↔ (0 < conf.state_timeout ∨ 0 < conf.state_time_max) := by
  have ht := (TimerInv.timer_at_start conf monitor now).timer_exec_keeps _ es hex
  have hd := deadline_exec_keeps (deadline_at_start conf monitor now B hnow)
    (TimerInv.timer_at_start conf monitor now) es hex
  have h1 := ht.2.2 a st hst
  have h2 := hd.2.2.2 a st hst
  rw [h1.set_iff (h1.idle_not_fired hin)]
  constructor
  · intro h
    by_contra hn
    simp only [not_or, Nat.pos_iff_ne_zero, ne_eq, not_not] at hn
    rcases h with h | h
    · exact h (h1.no_lifetime hn.2)
    · exact h (h1.no_idle_limit hn.1)
  · rintro (h | h)
    · right
      have := h2.idle h hin
      omega
    · left
      have := h2.lifetime h
      omega

/-- Witness of C11: with an idle timeout of 5000 ms, the state released at
time 0 is idle with its timer registered for time 5000; at time 1000 it is
acquired and released again, and its timer is registered for time 6000. -/
theorem idle_timer_registered_witness :
    ∃ st, (demo_sys demo_conf [.acquire 0 demo_create, .release 0 demo_release, .tick 1000,
        .acquire 1 demo_create, .release 1 demo_release]).w.heap 1 = some st ∧
      st.in_use = false ∧ st.tev.timer_set = true ∧ st.tev.key = 6000 := by
  refine ⟨_, rfl, rfl, ?_, rfl⟩
  exact (idle_timer_registered demo_conf none 0 1000
    [.acquire 0 demo_create, .release 0 demo_release, .tick 1000, .acquire 1 demo_create,
      .release 1 demo_release] _ (by decide) (by decide) (by decide) rfl 1 _ rfl rfl).mpr
    (Or.inl (by decide))

/-- C14: in every configuration reached from the start of a worker through
acquire, run, release, timer expiry and clock ticks (`ok` is any restriction
on the events, or none), with the configured limits whatever they are, a live
state that is in use has `timeout = NGX_TIMER_INFINITE`; if its timer is set,
the key of the timer is `time_max`: only the maximum lifetime can fire against
a state in use. -/
theorem in_use_idle_deadline_cleared (ok : Sys → Event → Bool) (conf : LocConf)
    (monitor : Option Monitor) (now : Nat) (es : List Event) (s : Sys)
    (hex : exec ok (Sys.init conf monitor now) es = some s)
    (a : Nat) (st : State) (hst : s.w.heap a = some st) (hin : st.in_use = true) :
    st.timeout = NGX_TIMER_INFINITE ∧ (st.tev.timer_set = true → st.tev.key = st.time_max) := by
  have ht := (TimerInv.timer_at_start conf monitor now).timer_exec_keeps ok es hex
  have h1 := ht.2.2 a st hst
  refine ⟨h1.in_use_clear hin, fun hs => ?_⟩
  have hk := h1.key_eq hs
  have hw := h1.time_max_word
  rw [h1.in_use_clear hin] at hk
  rw [hk, if_neg]
  unfold NGX_TIMER_INFINITE
  omega

/-- Witness of C14: with an idle timeout of 5000 ms and a maximum lifetime of
60000 ms, the state released at time 0 and acquired again at time 1000 is in
use with an infinite idle deadline and its timer set for time 60000. -/
theorem in_use_idle_deadline_cleared_witness :
    ∃ st, (demo_sys { demo_conf with state_time_max := 60000 }
        [.acquire 0 demo_create, .release 0 demo_release, .tick 1000,
          .acquire 1 demo_create]).w.heap 1 = some st ∧
      st.in_use = true ∧ st.timeout = NGX_TIMER_INFINITE ∧ st.tev.timer_set = true ∧
      st.tev.key = 60000 := by
  have h := in_use_idle_deadline_cleared disciplined { demo_conf with state_time_max := 60000 }
    none 0 [.acquire 0 demo_create, .release 0 demo_release, .tick 1000, .acquire 1 demo_create]
    _ rfl 1 _ rfl rfl
  exact ⟨_, rfl, rfl, h.1, rfl, (h.2 rfl).trans rfl⟩

/-! ## Collection policy of release (C17) -/

/-- The block "perform GC and update monitor as needed", on a record with a
Lua state: the `lua_gc` calls it makes, in order, and the accounted memory it
leaves. `recomputed` says whether the first update from the Lua state is made,
`u1` is the accounted memory after it, `collected` whether the collection is
made. -/
theorem release_collect_policy (o : ReleaseOracle) (llcf : LocConf) (mon : Bool) (st : State)
    (L : LuaState) (hL : st.L = some L) (recomputed collected : Bool) (u1 : Nat)
    (hA : recomputed = decide (llcf.state_memory_max = 0 ∧ (0 < llcf.state_gc ∨ mon = true)))
    (hu : u1 = if recomputed then o.before.bytes else st.memory_used)
    (hB : collected = decide (0 < llcf.state_gc ∧ llcf.state_gc < u1)) :
    ∃ L1, (release_collect o llcf mon st).L = some L1 ∧ L1.stack = L.stack ∧
      L1.gc_log = L.gc_log ++ (if recomputed then [.count, .countb] else []) ++
        (if collected then
          GcWhat.collect :: (if llcf.state_memory_max = 0 then [.count, .countb] else [])
        else []) ∧
      (release_collect o llcf mon st).memory_used =
        if collected then
          if llcf.state_memory_max = 0 then o.after.bytes
          else (lua_allocs L.checked { st with L := some (lua_gc L .collect) }
            o.collect_allocs).memory_used
        else u1 := by
  subst hA hB
  by_cases h1 : llcf.state_memory_max = 0 ∧ (0 < llcf.state_gc ∨ mon = true)
  · have hu1 : u1 = o.before.bytes := by rw [hu]; simp [h1]
    subst hu1
    by_cases h2 : 0 < llcf.state_gc ∧ llcf.state_gc < o.before.bytes
    · refine ⟨lua_gc (lua_gc (lua_gc (lua_gc (lua_gc L .count) .countb) .collect) .count) .countb,
        ?_, ?_, ?_, ?_⟩
      · simp [release_collect, h1, h2, update_memory_used, hL]
      · simp [lua_gc]
      · simp [lua_gc, h1, h2]
      · simp [release_collect, h1, h2, update_memory_used]
    · refine ⟨lua_gc (lua_gc L .count) .countb, ?_, ?_, ?_, ?_⟩
      · simp [release_collect, h1, h2, update_memory_used, hL]
      · simp [lua_gc]
      · simp [lua_gc, h1, h2]
      · simp [release_collect, h1, h2, update_memory_used]
  · have hu1 : u1 = st.memory_used := by rw [hu]; simp [h1]
    subst hu1
    by_cases h2 : 0 < llcf.state_gc ∧ llcf.state_gc < st.memory_used
    · have h3 : llcf.state_memory_max ≠ 0 := fun h0 => h1 ⟨h0, Or.inl h2.1⟩
      refine ⟨lua_gc L .collect, ?_, ?_, ?_, ?_⟩
      · simp [release_collect, h1, h2, h3, hL]
      · simp [lua_gc]
      · simp [lua_gc, h1, h2, h3]
      · simp [release_collect, h1, h2, h3, hL, State.checked, lua_gc]
    · refine ⟨L, ?_, ?_, ?_, ?_⟩
      · simp [release_collect, h1, h2, hL]
      · rfl
      · simp [h1, h2]
      · simp [release_collect, h1, h2]

theorem release_record_L (o : ReleaseOracle) (llcf : LocConf) (mon : Bool) (now : Nat)
    (st : State) :
    (release_record o llcf mon now st).L = (release_collect o llcf mon st).L := by
  cases mon <;> simp [release_record]

/-- A release that returns and leaves the state of the context live has
recycled it: no closure condition held, and the record left is the one of
`release_record`. -/
theorem lws_release_state_recycled (o : ReleaseOracle) (w : World) (c a : Nat) (st : State)
    (w1 : World) (st1 : State) (hc : (w.ctx c).state = some a) (hst : w.heap a = some st)
    (hrel : lws_release_state o w c = some w1) (h1 : w1.heap a = some st1) :
    release_closes w.llcf { st with request_count := st.request_count + 1 } = false ∧
    a ∉ w.llcf.states ∧ w1.llcf.states = a :: w.llcf.states ∧
    st1 = release_record o w.llcf w.monitor.isSome w.ngx_current_msec
      { st with request_count := st.request_count + 1 } := by
  obtain ⟨a0, st0, hc0, hst0, ⟨-, rfl⟩ | ⟨hcl, hns, rfl⟩⟩ := lws_release_state_some o w c w1 hrel
  · rw [hc] at hc0
    cases hc0
    simp [close_state_at] at h1
  · rw [hc] at hc0
    cases hc0
    rw [hst] at hst0
    cases hst0
    simp only [Function.update_same, Option.some.injEq] at h1
    exact ⟨hcl, hns, rfl, h1.symm⟩

/-- C17: in a release that recycles the state (it returns and the state stays
live), the `lua_gc` calls made on the Lua state are, in order: the two usage
queries `LUA_GCCOUNT`, `LUA_GCCOUNTB` exactly when no quota is configured and
a GC threshold is configured or monitoring is active (`recomputed`); then
`LUA_GCCOLLECT` exactly when a GC threshold is configured and `memory_used`,
as it is after that first step (`u1`), exceeds it (`collected`), followed by
the two usage queries again exactly when no quota is configured. `memory_used`
ends as the last recomputed value, or, when none is made, as the allocator has
accounted it. With a quota configured no usage query is made and `memory_used`
is never set from the native counters. -/
theorem release_collection_policy (o : ReleaseOracle) (w : World) (c a : Nat) (st : State)
    (L : LuaState) (w1 : World) (st1 : State) (hc : (w.ctx c).state = some a)
    (hst : w.heap a = some st) (hL : st.L = some L)
    (hrel : lws_release_state o w c = some w1) (h1 : w1.heap a = some st1)
    (recomputed collected : Bool) (u1 : Nat)
    (hA : recomputed =
      decide (w.llcf.state_memory_max = 0 ∧ (0 < w.llcf.state_gc ∨ w.monitor.isSome = true)))
    (hu : u1 = if recomputed then o.before.bytes else st.memory_used)
    (hB : collected = decide (0 < w.llcf.state_gc ∧ w.llcf.state_gc < u1)) :
    ∃ L1, st1.L = some L1 ∧
      L1.gc_log = L.gc_log ++ (if recomputed then [.count, .countb] else []) ++
        (if collected then
          GcWhat.collect :: (if w.llcf.state_memory_max = 0 then [.count, .countb] else [])
        else []) ∧
      st1.memory_used =
        (if collected then
          if w.llcf.state_memory_max = 0 then o.after.bytes
          else (lua_allocs L.checked
            { st with L := some (lua_gc L .collect), request_count := st.request_count + 1 }
            o.collect_allocs).memory_used
        else u1) ∧
      (0 < w.llcf.state_memory_max →
        recomputed = false ∧
        L1.gc_log = L.gc_log ++ (if collected then [.collect] else []) ∧
        st1.memory_used =
          if collected then
            (lua_allocs L.checked
              { st with L := some (lua_gc L .collect), request_count := st.request_count + 1 }
              o.collect_allocs).memory_used
          else st.memory_used) := by
  obtain ⟨-, -, -, hrec⟩ := lws_release_state_recycled o w c a st w1 st1 hc hst hrel h1
  obtain ⟨L1, p1, -, p3, p4⟩ := release_collect_policy o w.llcf w.monitor.isSome
    { st with request_count := st.request_count + 1 } L hL recomputed collected u1 hA hu hB
  have hmu := (release_record_fields o w.llcf w.monitor.isSome w.ngx_current_msec
    { st with request_count := st.request_count + 1 }).2.2.2.2.2.1
  subst hrec
  have e1 := (release_record_L o w.llcf w.monitor.isSome w.ngx_current_msec
    { st with request_count := st.request_count + 1 }).trans p1
  have e2 := hmu.trans p4
  refine ⟨L1, e1, p3, e2, ?_⟩
  intro hq
  have hq0 : w.llcf.state_memory_max ≠ 0 := Nat.pos_iff_ne_zero.mp hq
  have hr : recomputed = false := by rw [hA]; simp [hq0]
  have hu1 : u1 = st.memory_used := by rw [hu, hr]; rfl
  refine ⟨hr, ?_, ?_⟩
  · rw [p3, hr]
    simp [hq0]
  · rw [e2, hu1]
    simp [hq0]

/-- Witness of C17: without quota and with a GC threshold of 1000 bytes, the
Lua runtime reports 1029 bytes at the release: the usage is queried, the
collection is made, the usage is queried again, and `memory_used` ends as the
7 bytes reported after the collection. With a quota of 4096 bytes and 2000
bytes accounted by the allocator, the collection is made without any usage
query and `memory_used` stays as the allocator has accounted it. -/
theorem release_collection_policy_witness :
    (∃ w1 st1 L1,
      lws_release_state demo_release (demo_sys demo_conf_gc [.acquire 0 demo_create]).w 0 =
        some w1 ∧
      w1.heap 1 = some st1 ∧ st1.L = some L1 ∧
      L1.gc_log = [.count, .countb, .collect, .count, .countb] ∧ st1.memory_used = 7) ∧
    (∃ w1 st1 L1,
      lws_release_state demo_release
        (demo_sys { demo_conf_gc with state_memory_max := 4096 }
          [.acquire 0 demo_create,
            .run 0 { demo_run_ok with allocs := [⟨0, 0, 2000, 16⟩] }]).w 0 = some w1 ∧
      w1.heap 1 = some st1 ∧ st1.L = some L1 ∧
      L1.gc_log = [.collect] ∧ st1.memory_used = 2000) := by
  obtain ⟨L1, h1, h2, h3, -⟩ := release_collection_policy demo_release
    (demo_sys demo_conf_gc [.acquire 0 demo_create]).w 0 1
    (((demo_sys demo_conf_gc [.acquire 0 demo_create]).w.heap 1).getD State.zero)
    { demo_lua with stack := [.cfunction "lws_traceback"] }
    ((lws_release_state demo_release (demo_sys demo_conf_gc [.acquire 0 demo_create]).w 0).getD
      (demo_sys demo_conf_gc []).w)
    ((((lws_release_state demo_release (demo_sys demo_conf_gc [.acquire 0 demo_create]).w 0).getD
      (demo_sys demo_conf_gc []).w).heap 1).getD State.zero)
    rfl rfl rfl rfl rfl true true 1029 (by decide) (by decide) (by decide)
  obtain ⟨L2, k1, -, -, k4⟩ := release_collection_policy demo_release
    (demo_sys { demo_conf_gc with state_memory_max := 4096 }
      [.acquire 0 demo_create, .run 0 { demo_run_ok with allocs := [⟨0, 0, 2000, 16⟩] }]).w 0 1
    (((demo_sys { demo_conf_gc with state_memory_max := 4096 }
      [.acquire 0 demo_create,
        .run 0 { demo_run_ok with allocs := [⟨0, 0, 2000, 16⟩] }]).w.heap 1).getD State.zero)
    { demo_lua with stack := [.cfunction "lws_traceback"], checked := true }
    ((lws_release_state demo_release (demo_sys { demo_conf_gc with state_memory_max := 4096 }
      [.acquire 0 demo_create,
        .run 0 { demo_run_ok with allocs := [⟨0, 0, 2000, 16⟩] }]).w 0).getD
      (demo_sys demo_conf_gc []).w)
    ((((lws_release_state demo_release (demo_sys { demo_conf_gc with state_memory_max := 4096 }
      [.acquire 0 demo_create,
        .run 0 { demo_run_ok with allocs := [⟨0, 0, 2000, 16⟩] }]).w 0).getD
      (demo_sys demo_conf_gc []).w).heap 1).getD State.zero)
    rfl rfl rfl rfl rfl false true 2000 (by decide) (by decide) (by decide)
  obtain ⟨-, k5, k6⟩ := k4 (by decide)
  exact ⟨⟨_, _, L1, rfl, rfl, h1, h2.trans (by decide), h3.trans (by decide)⟩,
    ⟨_, _, L2, rfl, rfl, k1, k5.trans (by decide), k6.trans (by decide)⟩⟩

/-! ## Idle re-arm (C13) -/

theorem lws_set_state_timer_infinite (now : Nat) (x : State)
    (h1 : x.time_max = NGX_TIMER_INFINITE) (h2 : x.timeout = NGX_TIMER_INFINITE) :
    (lws_set_state_timer now x).tev.timer_set = false := by
  simp only [lws_set_state_timer, ngx_del_timer]
  split_ifs <;> simp_all

/-- C13: in a worker reached from its start by any events, a release that
recycles the state (it returns and the state stays live) with an idle timeout
`T > 0` configured, at time `now`, leaves the state with `timeout = now + T`
(as a word) and with `time_max` as it was; unless both deadlines are
`NGX_TIMER_INFINITE`, the timer is registered with the delay
`min(timeout, time_max) - now`, so that its key, `now` plus the delay, is
`min(timeout, time_max)`; when both are infinite no timer is registered. No
event changes `time_max` of a live state, so it is the value set at creation.
And `lws_set_state_timer` registers no timer when both deadlines are
infinite. -/
theorem idle_rearm (ok : Sys → Event → Bool) (conf : LocConf) (monitor : Option Monitor)
    (now0 : Nat) (es : List Event) (s : Sys)
    (hex : exec ok (Sys.init conf monitor now0) es = some s) :
    (∀ (o : ReleaseOracle) (c a : Nat) (st : State) (w1 : World) (st1 : State),
      (s.w.ctx c).state = some a → s.w.heap a = some st →
      lws_release_state o s.w c = some w1 → w1.heap a = some st1 →
      0 < s.w.llcf.state_timeout →
      st1.timeout = wadd s.w.ngx_current_msec s.w.llcf.state_timeout ∧
      st1.time_max = st.time_max ∧
      ((st1.time_max ≠ NGX_TIMER_INFINITE ∨ st1.timeout ≠ NGX_TIMER_INFINITE) →
        st1.tev.timer_set = true ∧
        st1.tev.key = wadd s.w.ngx_current_msec
          (wsub (min st1.timeout st1.time_max) s.w.ngx_current_msec) ∧
        st1.tev.key = min st1.timeout st1.time_max) ∧
      (st1.time_max = NGX_TIMER_INFINITE → st1.timeout = NGX_TIMER_INFINITE →
        st1.tev.timer_set = false)) ∧
    (∀ (e : Event) (s1 : Sys) (b : Nat) (x x1 : State), step s e = some s1 →
      s.w.heap b = some x → s1.w.heap b = some x1 → x1.time_max = x.time_max) ∧
    (∀ (now : Nat) (x : State), x.time_max = NGX_TIMER_INFINITE →
      x.timeout = NGX_TIMER_INFINITE → (lws_set_state_timer now x).tev.timer_set = false) := by
  have ht := (TimerInv.timer_at_start conf monitor now0).timer_exec_keeps ok es hex
  have hcnt := (CountInv.count_at_start conf monitor now0).count_exec_keeps ok es hex
  refine ⟨?_, ?_, lws_set_state_timer_infinite⟩
  · intro o c a st w1 st1 hc hst hrel h1 hT
    obtain ⟨-, -, -, hrec⟩ := lws_release_state_recycled o s.w c a st w1 st1 hc hst hrel h1
    obtain ⟨r1, -, -, -, r5⟩ := release_record_timer o s.w.llcf s.w.monitor.isSome
      s.w.ngx_current_msec { st with request_count := st.request_count + 1 } st1 hrec
      (ht.2.2 a st hst).time_max_word
    obtain ⟨q1, q2, q3⟩ := r5 hT
    have hmin : (if st1.timeout < st1.time_max then st1.timeout else st1.time_max) =
        min st1.timeout st1.time_max := by
      split_ifs <;> omega
    rw [hmin] at q3
    refine ⟨q1, r1, fun hd => ⟨q2.mpr hd, q3 (q2.mpr hd)⟩, fun h1 h2 => ?_⟩
    cases hs : st1.tev.timer_set with
    | false => rfl
    | true =>
      rcases q2.mp hs with h | h
      · exact absurd h1 h
      · exact absurd h2 h
  · intro e s1 b x x1 hstep hx hx1
    rcases step_record (step_intact_of_step hstep) hx1 with
      hsame | ⟨c, o, st, p, -, hst, -, rfl⟩ |
      ⟨c, o, st0, L0, L, p, -, -, hb, -⟩ | ⟨c, o, st, L, -, -, hst, -, rfl | rfl⟩ |
      ⟨c, o, st, -, -, hst, hcl, -, rfl⟩ | ⟨st, -, hst, hin, -, rfl⟩
    · rw [hx] at hsame; cases hsame; rfl
    · rw [hx] at hst; cases hst
      exact acquire_disarm_time_max _ _ _
    · subst hb
      exact absurd (hcnt.1 _ x hx).1 (lt_irrefl _)
    · rw [hx] at hst; cases hst
      exact lua_allocs_time_max _ _ _
    · rw [hx] at hst; cases hst
      exact lua_allocs_time_max _ _ _
    · rw [hx] at hst; cases hst
      exact (release_record_timer o s.w.llcf s.w.monitor.isSome s.w.ngx_current_msec
        { x with request_count := x.request_count + 1 } _ rfl (ht.2.2 b x hx).time_max_word).1
    · rw [hx] at hst; cases hst
      rfl

/-- Witness of C13: with an idle timeout of 5000 ms and a maximum lifetime of
3000 ms, a state created at time 0 and released at time 1000 has
`timeout = 6000`, `time_max = 3000`, and its timer registered for time 3000;
an acquire by another context, which creates a second state, leaves
`time_max` of the first at 3000; and `lws_set_state_timer` on a record with
both deadlines infinite and a set timer leaves the timer unset. -/
theorem idle_rearm_witness :
    (∃ w1 st1,
      lws_release_state demo_release
        (demo_sys { demo_conf with state_time_max := 3000 }
          [.acquire 0 demo_create, .tick 1000]).w 0 = some w1 ∧
      w1.heap 1 = some st1 ∧ st1.timeout = 6000 ∧ st1.time_max = 3000 ∧
      st1.tev.timer_set = true ∧ st1.tev.key = 3000) ∧
    (∃ s1 x1,
      step (demo_sys { demo_conf with state_time_max := 3000 }
        [.acquire 0 demo_create, .tick 1000]) (.acquire 1 demo_create) = some s1 ∧
      s1.w.heap 1 = some x1 ∧ x1.time_max = 3000) ∧
    (lws_set_state_timer 1000
      { State.zero with
        time_max := NGX_TIMER_INFINITE, timeout := NGX_TIMER_INFINITE,
        tev := { timer_set := true, timedout := false, key := 7 } }).tev.timer_set = false := by
  obtain ⟨h, hkeep, hinf⟩ := idle_rearm disciplined { demo_conf with state_time_max := 3000 }
    none 0 [.acquire 0 demo_create, .tick 1000] _ rfl
  obtain ⟨h1, h2, h3, -⟩ := h demo_release 0 1
    (((demo_sys { demo_conf with state_time_max := 3000 }
      [.acquire 0 demo_create, .tick 1000]).w.heap 1).getD State.zero)
    ((lws_release_state demo_release (demo_sys { demo_conf with state_time_max := 3000 }
      [.acquire 0 demo_create, .tick 1000]).w 0).getD (demo_sys demo_conf []).w)
    ((((lws_release_state demo_release (demo_sys { demo_conf with state_time_max := 3000 }
      [.acquire 0 demo_create, .tick 1000]).w 0).getD (demo_sys demo_conf []).w).heap 1).getD
      State.zero)
    rfl rfl rfl rfl (by decide)
  obtain ⟨h4, -, h5⟩ := h3 (Or.inl (by rw [h2]; decide))
  have h6 := hkeep (.acquire 1 demo_create)
    ((step (demo_sys { demo_conf with state_time_max := 3000 }
      [.acquire 0 demo_create, .tick 1000]) (.acquire 1 demo_create)).getD
      (demo_sys demo_conf []))
    1
    (((demo_sys { demo_conf with state_time_max := 3000 }
      [.acquire 0 demo_create, .tick 1000]).w.heap 1).getD State.zero)
    ((((step (demo_sys { demo_conf with state_time_max := 3000 }
      [.acquire 0 demo_create, .tick 1000]) (.acquire 1 demo_create)).getD
      (demo_sys demo_conf [])).w.heap 1).getD State.zero)
    rfl rfl rfl
  refine ⟨⟨_, _, rfl, rfl, h1.trans (by decide), h2.trans (by decide), h4,
    h5.trans (by decide)⟩, ⟨_, _, rfl, rfl, h6.trans (by decide)⟩, ?_⟩
  exact hinf 1000 _ rfl rfl

/-! ## Stack balance of the protected call (C16) -/

/-- Every event in which `lua_newstate` returns an empty stack keeps the stack
of every live state at the traceback function alone. -/
theorem StackInv.stack_step_keeps {s s1 : Sys} (h : StackInv s.w) (e : Event)
    (hd : fresh_lua s e = true) (hstep : step_intact s e = some s1) : StackInv s1.w := by
  intro a st1 h1
  rcases step_record hstep h1 with hsame | ⟨c, o, st, p, -, hst, -, rfl⟩ |
    ⟨c, o, st0, L0, L, p, rfl, -, -, hn, rfl, hL, hstack, -⟩ |
    ⟨c, o, st, L, -, -, hst, hL, rfl | rfl⟩ |
    ⟨c, o, st, -, -, hst, hcl, -, rfl⟩ | ⟨st, -, hst, hin, -, rfl⟩
  · exact h a st1 hsame
  · obtain ⟨L, hL, hs⟩ := h a st hst
    exact ⟨L, (acquire_disarm_fields _ _ st).2.2.2.2.2.2.trans hL, hs⟩
  · refine ⟨L, (create_set_timer_fields _ _ st0).2.2.2.2.2.2.trans hL, ?_⟩
    have h0 : L0.stack = [] := by
      simp only [fresh_lua, hn] at hd
      exact List.isEmpty_iff.mp hd
    rw [hstack, h0]
    rfl
  · obtain ⟨L2, hL2, hs⟩ := h a st hst
    rw [hL] at hL2
    cases hL2
    exact ⟨L, rfl, hs⟩
  · obtain ⟨L2, hL2, hs⟩ := h a st hst
    rw [hL] at hL2
    cases hL2
    exact ⟨L, rfl, hs⟩
  · obtain ⟨L, hL, hs⟩ := h a st hst
    obtain ⟨L1, p1, p2, -⟩ := release_collect_policy o s.w.llcf s.w.monitor.isSome
      { st with request_count := st.request_count + 1 } L hL _ _ _ rfl rfl rfl
    exact ⟨L1, (release_record_L _ _ _ _ _).trans p1, p2.trans hs⟩
  · exact h a st hst

theorem StackInv.stack_exec_keeps {s s1 : Sys} (h : StackInv s.w) (es : List Event)
    (hex : exec fresh_lua s es = some s1) : StackInv s1.w := by
  induction es generalizing s with
  | nil => simp only [exec, Option.some.injEq] at hex; subst hex; exact h
  | cons e es ih =>
    simp only [exec] at hex
    split_ifs at hex with hd
    cases hs : step s e with
    | none => rw [hs] at hex; cases hex
    | some s2 =>
      rw [hs] at hex
      exact ih (h.stack_step_keeps e hd (step_intact_of_step hs)) hex

/-- C16: on a context whose state is live and has a Lua state,
`lws_run_state` pushes two values (the function `lws_run` and the context);
the protected call replaces them by one value, the result or the error value;
and the function returns with that one value popped: whatever the outcome
(success; failure with diagnostics disabled, with the diagnostic stored, or
with its allocation failed), the Lua state of the record on return is the one
of entry, so the stack has the depth and the content of entry. In every worker
reached from its start by events in which `lua_newstate` returns an empty
stack, the stack of every live state is the traceback function alone, at index
1, on entry and so on return. -/
theorem run_stack_balance :
    (∀ (o : RunOracle) (w : World) (c a : Nat) (st : State) (L : LuaState),
      (w.ctx c).state = some a → w.heap a = some st → st.L = some L →
      (lua_pushlightuserdata (lua_pushcfunction L "lws_run") c).stack =
        L.stack ++ [.cfunction "lws_run", .lightuserdata c] ∧
      (∃ v, (lua_pcall_ext o.outcome
        (lua_pushlightuserdata (lua_pushcfunction L "lws_run") c) 1).2.stack = L.stack ++ [v]) ∧
      ∃ r w1 st1, lws_run_state o w c = some (r, w1) ∧ w1.heap a = some st1 ∧
        st1.L = some L) ∧
    (∀ (conf : LocConf) (monitor : Option Monitor) (now : Nat) (es : List Event) (s : Sys),
      exec fresh_lua (Sys.init conf monitor now) es = some s →
      ∀ a st, s.w.heap a = some st →
        ∃ L, st.L = some L ∧ L.stack = [.cfunction "lws_traceback"] ∧
          L.at 1 = some (.cfunction "lws_traceback")) := by
  constructor
  · intro o w c a st L hc hst hL
    refine ⟨by simp [lua_pushlightuserdata, lua_pushcfunction, lua_push],
      ⟨_, congrArg LuaState.stack (lua_pcall_ext_run o.outcome L c)⟩, ?_⟩
    · have h := lws_run_state_eq o w c a st L hc hst hL
      cases ho : o.outcome with
      | ok v =>
        rw [ho] at h
        exact ⟨_, _, _, h, Function.update_same _ _ _, rfl⟩
      | error e =>
        rw [ho] at h
        exact ⟨_, _, _, h, Function.update_same _ _ _, rfl⟩
  · intro conf monitor now es s hex a st hst
    have h0 : StackInv (Sys.init conf monitor now).w := by
      intro a st hst
      simp [Sys.init] at hst
    obtain ⟨L, hL, hs⟩ := h0.stack_exec_keeps es hex a st hst
    exact ⟨L, hL, hs, by simp [LuaState.at, LuaState.slot, hs]⟩

/-- Witness of C16: on the state a first acquire creates, whose stack is the
traceback function alone, a request that fails with its diagnostic stored
leaves the stack as it was. -/
theorem run_stack_balance_witness :
    ∃ st L w1 st1,
      (demo_sys demo_conf [.acquire 0 demo_create]).w.heap 1 = some st ∧ st.L = some L ∧
      L.stack = [.cfunction "lws_traceback"] ∧
      lws_run_state demo_run_fails (demo_sys demo_conf [.acquire 0 demo_create]).w 0 =
        some (-1, w1) ∧
      w1.heap 1 = some st1 ∧ st1.L = some L := by
  obtain ⟨L, h1, h2, -⟩ := run_stack_balance.2 demo_conf none 0 [.acquire 0 demo_create]
    (demo_sys demo_conf [.acquire 0 demo_create]) rfl 1 _ rfl
  obtain ⟨-, -, r, w1, st1, h3, h4, h5⟩ := run_stack_balance.1 demo_run_fails
    (demo_sys demo_conf [.acquire 0 demo_create]).w 0 1 _ L rfl rfl h1
  have hr : r = -1 := by
    have := h3.symm.trans (lws_run_state_eq demo_run_fails
      (demo_sys demo_conf [.acquire 0 demo_create]).w 0 1 _ L rfl rfl h1)
    simp only [Option.some.injEq] at this
    exact congrArg Prod.fst this
  subst hr
  exact ⟨_, L, w1, st1, rfl, h1, h2, h3, h4, h5⟩

/-! ## The pool under callers that run and release what they hold -/

/-- A state that is not in use is bound to a context, which may hold a state
already. -/
theorem View.Pooled.rebind {v : View} (h : v.Pooled) {q c b : Nat}
    (hq : v.inuse q ≠ some true) (hqb : q < b) (hb : v.brk ≤ b) :
    View.Pooled { inuse := Function.update v.inuse q (some true), states := v.states.erase q,
                  owner := Function.update v.owner c (some q), held := List.insert c v.held,
                  brk := b } := by
  have key : ∀ c1, c1 ∈ v.held → v.owner c1 ≠ some q := by
    intro c1 hc1 e
    obtain ⟨a, ha1, ha2⟩ := h.held_bound c1 hc1
    rw [e] at ha1; cases ha1
    exact hq ha2
  constructor
  · intro a ha
    by_cases e : a = q
    · subst e; exact hqb
    · simp only [Function.update_noteq e] at ha; exact lt_of_lt_of_le (h.below a ha) hb
  · intro a ha
    have hm := (h.free_nodup.mem_erase_iff).mp ha
    simp only [Function.update_noteq hm.1]
    exact h.free_idle a hm.2
  · exact h.free_nodup.erase q
  · exact h.held_nodup.insert
  · intro c1 hc1
    by_cases e1 : c1 = c
    · subst e1; exact ⟨q, by simp, by simp⟩
    · have hm : c1 ∈ v.held := by
        rcases List.mem_insert_iff.mp hc1 with e | hm
        · exact absurd e e1
        · exact hm
      obtain ⟨a, ha1, ha2⟩ := h.held_bound c1 hm
      have e : a ≠ q := fun e => hq (e ▸ ha2)
      exact ⟨a, by simp [Function.update_noteq e1, ha1], by simp [Function.update_noteq e, ha2]⟩
  · intro c1 hc1 c2 hc2 heq
    have mem : ∀ x, x ∈ List.insert c v.held → x ≠ c → x ∈ v.held := by
      intro x hx hne
      rcases List.mem_insert_iff.mp hx with e | hm
      · exact absurd e hne
      · exact hm
    by_cases e1 : c1 = c <;> by_cases e2 : c2 = c
    · rw [e1, e2]
    · subst e1
      simp [Function.update_noteq e2] at heq
      exact absurd heq.symm (key c2 (mem c2 hc2 e2))
    · subst e2
      simp [Function.update_noteq e1] at heq
      exact absurd heq (key c1 (mem c1 hc1 e1))
    · simp only [Function.update_noteq e1, Function.update_noteq e2] at heq
      exact h.held_inj c1 (mem c1 hc1 e1) c2 (mem c2 hc2 e2) heq

/-- Fresh addresses may be consumed without a state appearing. -/
theorem View.Pooled.widen {v : View} (h : v.Pooled) {b : Nat} (hb : v.brk ≤ b) :
    View.Pooled { v with brk := b } :=
  { h with below := fun a ha => lt_of_lt_of_le (h.below a ha) hb }

/-- The state of a holding context leaves the context: it is destroyed or goes
back to the head of the queue. -/
theorem View.Pooled.unhold {v : View} (h : v.Pooled) {c a : Nat} (hc : c ∈ v.held)
    (ha : v.owner c = some a) (destroy : Bool) :
    View.Pooled { inuse := Function.update v.inuse a (if destroy then none else some false),
                  states := if destroy then v.states else a :: v.states,
                  owner := v.owner, held := v.held.erase c, brk := v.brk } := by
  obtain ⟨a1, ha1, hu⟩ := h.held_bound c hc
  rw [ha] at ha1; cases ha1
  have hns : a ∉ v.states := fun hm => by
    have := h.free_idle a hm; rw [hu] at this; simp at this
  have other : ∀ c1, c1 ∈ v.held.erase c → v.owner c1 ≠ some a := by
    intro c1 hc1 e
    have hm := (h.held_nodup.mem_erase_iff).mp hc1
    exact hm.1 (h.held_inj c1 hm.2 c hc (e.trans ha.symm))
  constructor
  · intro x hx
    by_cases e : x = a
    · subst e; exact h.below _ (by rw [hu]; simp)
    · simp only [Function.update_noteq e] at hx; exact h.below x hx
  · intro x hx
    cases destroy
    · simp only [Bool.false_eq_true, if_false] at hx ⊢
      rcases List.mem_cons.mp hx with e | hm
      · subst e; simp
      · have e : x ≠ a := fun e => hns (e ▸ hm)
        simp only [Function.update_noteq e]; exact h.free_idle x hm
    · simp only [if_true] at hx ⊢
      have e : x ≠ a := fun e => hns (e ▸ hx)
      simp only [Function.update_noteq e]; exact h.free_idle x hx
  · cases destroy
    · simp only [Bool.false_eq_true, if_false]
      exact List.nodup_cons.mpr ⟨hns, h.free_nodup⟩
    · simpa using h.free_nodup
  · exact h.held_nodup.erase c
  · intro c1 hc1
    have hm := (h.held_nodup.mem_erase_iff).mp hc1
    obtain ⟨x, hx1, hx2⟩ := h.held_bound c1 hm.2
    have e : x ≠ a := fun e => other c1 hc1 (e ▸ hx1)
    exact ⟨x, hx1, by simp only [Function.update_noteq e]; exact hx2⟩
  · intro c1 hc1 c2 hc2 heq
    exact h.held_inj c1 (List.mem_of_mem_erase hc1) c2 (List.mem_of_mem_erase hc2) heq

/-- An idle member of the queue is taken off the queue and destroyed. -/
theorem View.Pooled.expel {v : View} (h : v.Pooled) {a : Nat} (ha : v.inuse a = some false) :
    View.Pooled { inuse := Function.update v.inuse a none, states := v.states.erase a,
                  owner := v.owner, held := v.held, brk := v.brk } := by
  have other : ∀ c1, c1 ∈ v.held → v.owner c1 ≠ some a := by
    intro c1 hc1 e
    obtain ⟨x, hx1, hx2⟩ := h.held_bound c1 hc1
    rw [e] at hx1; cases hx1
    rw [ha] at hx2; simp at hx2
  constructor
  · intro x hx
    by_cases e : x = a
    · subst e; simp at hx
    · simp only [Function.update_noteq e] at hx; exact h.below x hx
  · intro x hx
    have hm := (h.free_nodup.mem_erase_iff).mp hx
    simp only [Function.update_noteq hm.1]; exact h.free_idle x hm.2
  · exact h.free_nodup.erase a
  · exact h.held_nodup
  · intro c1 hc1
    obtain ⟨x, hx1, hx2⟩ := h.held_bound c1 hc1
    have e : x ≠ a := fun e => other c1 hc1 (e ▸ hx1)
    exact ⟨x, hx1, by simp only [Function.update_noteq e]; exact hx2⟩
  · exact h.held_inj

theorem View.Pooled.of_fields {v v1 : View} (h : v.Pooled) (h1 : ∀ a, v1.inuse a = v.inuse a)
    (h2 : v1.states = v.states) (h3 : ∀ c, v1.owner c = v.owner c) (h4 : v1.held = v.held)
    (h5 : v1.brk = v.brk) : v1.Pooled := by
  rw [View.ext_fields h1 h2 h3 h4 h5]; exact h

theorem Pool.pool_heap_below {s : Sys} (h : Pool s) {a : Nat} {st : State}
    (hst : s.w.heap a = some st) : a < s.w.brk :=
  h.1.below a (by simp [Sys.view, hst])

theorem Pool.pool_heap_brk {s : Sys} (h : Pool s) : s.w.heap s.w.brk = none := by
  cases hb : s.w.heap s.w.brk with
  | none => rfl
  | some st => exact absurd (h.pool_heap_below hb) (lt_irrefl _)

/-- A member of the queue is a live idle record. -/
theorem Pool.pool_free_live {s : Sys} (h : Pool s) {q : Nat} (hq : q ∈ s.w.llcf.states) :
    ∃ st, s.w.heap q = some st ∧ st.in_use = false := by
  have := h.1.free_idle q hq
  simp only [Sys.view] at this
  cases hh : s.w.heap q with
  | none => rw [hh] at this; simp at this
  | some st => rw [hh] at this; exact ⟨st, rfl, by simpa using this⟩

/-- A holding context points to a live record in use, off the queue. -/
theorem Pool.pool_held_live {s : Sys} (h : Pool s) {c : Nat} (hc : c ∈ s.held) :
    ∃ a st, (s.w.ctx c).state = some a ∧ s.w.heap a = some st ∧ st.in_use = true ∧
      st.L ≠ none ∧ a ∉ s.w.llcf.states ∧ a < s.w.brk := by
  obtain ⟨a, ha, hu⟩ := h.1.held_bound c hc
  simp only [Sys.view] at ha hu
  cases hh : s.w.heap a with
  | none => rw [hh] at hu; simp at hu
  | some st =>
    rw [hh] at hu
    have hin : st.in_use = true := by simpa using hu
    refine ⟨a, st, ha, hh, hin, h.2 a st hh, ?_, h.pool_heap_below hh⟩
    intro hm
    obtain ⟨st1, h1, h2⟩ := h.pool_free_live hm
    rw [hh] at h1; cases h1
    rw [hin] at h2; cases h2

/-- Replacing a live record by one with the same `in_use` flag and a Lua
state, and touching no pointer, keeps the pool well-formed. -/
theorem Pool.pool_modify {s : Sys} (h : Pool s) {a : Nat} {st st1 : State} (w1 : World)
    (hst : s.w.heap a = some st) (hin : st1.in_use = st.in_use) (hL : st1.L ≠ none)
    (hheap : w1.heap = Function.update s.w.heap a (some st1))
    (hstates : w1.llcf.states = s.w.llcf.states)
    (hctx : ∀ c, (w1.ctx c).state = (s.w.ctx c).state) (hbrk : w1.brk = s.w.brk) :
    Pool { w := w1, held := s.held } := by
  constructor
  · refine h.1.of_fields ?_ hstates hctx rfl hbrk
    intro x
    simp only [Sys.view, hheap]
    by_cases e : x = a
    · subst e; simp [hst, hin]
    · simp [Function.update_noteq e]
  · intro x sx hx
    simp only [hheap] at hx
    by_cases e : x = a
    · subst e; simp at hx; subst hx; exact hL
    · simp only [Function.update_noteq e] at hx; exact h.2 x sx hx

/-- Binding a state that is not in use to a context keeps the pool
well-formed. -/
theorem Pool.pool_bind_keeps {s : Sys} (h : Pool s) {c q : Nat} {st : State} (w1 : World)
    (hq : (s.w.heap q).map State.in_use ≠ some true)
    (hL : st.L ≠ none) (hqb : q < w1.brk) (hb : s.w.brk ≤ w1.brk)
    (hheap : ∀ x, x ≠ q → w1.heap x = s.w.heap x)
    (hstates : w1.llcf.states = s.w.llcf.states.erase q)
    (hctx : w1.ctx = s.w.ctx) :
    Pool { w := acquire_bind w1 c q st, held := List.insert c s.held } := by
  constructor
  · have hv := h.1.rebind (q := q) (c := c) (b := w1.brk) (by simpa [Sys.view] using hq) hqb hb
    refine hv.of_fields ?_ ?_ ?_ ?_ ?_
    · intro x
      simp only [Sys.view, acquire_bind]
      by_cases e : x = q
      · subst e; simp
      · simp [Function.update_noteq e, hheap x e]
    · simp [Sys.view, acquire_bind, hstates]
    · intro x
      simp only [Sys.view, acquire_bind, hctx]
      by_cases e : x = c
      · subst e; simp
      · simp [Function.update_noteq e]
    · rfl
    · rfl
  · intro x sx hx
    simp only [acquire_bind] at hx
    by_cases e : x = q
    · subst e; simp at hx; subst hx; exact hL
    · simp only [Function.update_noteq e, hheap x e] at hx; exact h.2 x sx hx

theorem Pool.pool_same {s : Sys} (h : Pool s) (w1 : World) (hheap : ∀ a, w1.heap a = s.w.heap a)
    (hstates : w1.llcf.states = s.w.llcf.states)
    (hctx : ∀ c, (w1.ctx c).state = (s.w.ctx c).state) (hb : s.w.brk ≤ w1.brk) :
    Pool { w := w1, held := s.held } := by
  constructor
  · have hv := h.1.widen hb
    refine hv.of_fields ?_ hstates hctx rfl rfl
    intro x; simp [Sys.view, hheap]
  · intro x sx hx
    rw [hheap] at hx; exact h.2 x sx hx

/-- On a well-formed pool every acquire has a defined outcome, on whatever
context, and keeps the pool well-formed. -/
theorem Pool.pool_acquire {s : Sys} (h : Pool s) (c : Nat) (o : CreateOracle) :
    ∃ s1, step_intact s (.acquire c o) = some s1 ∧ Pool s1 := by
  cases hq : s.w.llcf.states with
  | cons q rest =>
    obtain ⟨st, hst, hin⟩ := h.pool_free_live (q := q) (by rw [hq]; exact List.mem_cons_self _ _)
    have hpop := lws_acquire_state_pop o s.w c q rest st hq hst
    obtain ⟨-, -, -, -, -, -, f7⟩ := acquire_disarm_fields s.w.ngx_current_msec
      s.w.llcf.state_timeout st
    refine ⟨{ w := _, held := List.insert c s.held }, by
      simp only [step_intact, hpop, if_true]; rfl, ?_⟩
    refine h.pool_bind_keeps _ (by simp [hst, hin]) (by rw [f7]; exact h.2 q st hst)
      (h.pool_heap_below hst) (le_refl _) (fun _ _ => rfl) (by simp [hq]) rfl
  | nil =>
    rcases lws_acquire_state_create o s.w c hq with ⟨w1, hcr, hacq⟩ | ⟨st, hcr, hacq, hin, hL, -⟩
    · obtain ⟨g1, g2, g3, g4⟩ := lws_create_state_fail_same o s.w w1 h.pool_heap_brk hcr
      refine ⟨{ w := w1, held := s.held }, by simp [step_intact, hacq], ?_⟩
      exact h.pool_same w1 g1 g2 (by simp [g3]) g4
    · refine ⟨{ w := _, held := List.insert c s.held }, by
        simp only [step_intact, hacq, if_true]; rfl, ?_⟩
      refine h.pool_bind_keeps _ (by simp [h.pool_heap_brk]) hL (by simp [create_done])
        (by simp [create_done]) ?_ (by simp [create_done, hq]) rfl
      intro x hx
      simp [create_done, Function.update_noteq hx]

/-- The state of a holding context is destroyed (`r = none`) or put back on
the queue (`r = some _`, idle): the pool stays well-formed. -/
theorem Pool.pool_unbind_keeps {s : Sys} (h : Pool s) {c a : Nat} (hc : c ∈ s.held)
    (ha : (s.w.ctx c).state = some a) (w1 : World) (r : Option State)
    (hheap : w1.heap = Function.update s.w.heap a r)
    (hr : ∀ st1, r = some st1 → st1.in_use = false ∧ st1.L ≠ none)
    (hstates : w1.llcf.states = if r.isNone then s.w.llcf.states else a :: s.w.llcf.states)
    (hctx : ∀ x, (w1.ctx x).state = (s.w.ctx x).state) (hbrk : w1.brk = s.w.brk) :
    Pool { w := w1, held := s.held.erase c } := by
  constructor
  · have hv := h.1.unhold (c := c) (a := a) hc ha r.isNone
    refine hv.of_fields ?_ ?_ hctx rfl hbrk
    · intro x
      simp only [Sys.view, hheap]
      by_cases e : x = a
      · subst e
        cases r with
        | none => simp
        | some st1 => simp [(hr st1 rfl).1]
      · simp [Function.update_noteq e]
    · simp only [Sys.view, hstates]
  · intro x sx hx
    simp only [hheap] at hx
    by_cases e : x = a
    · subst e; simp at hx; exact (hr sx hx).2
    · simp only [Function.update_noteq e] at hx; exact h.2 x sx hx

theorem Pool.pool_release {s : Sys} (h : Pool s) (c : Nat) (o : ReleaseOracle)
    (hc : c ∈ s.held) : ∃ s1, step_intact s (.release c o) = some s1 ∧ Pool s1 := by
  obtain ⟨a, st, ha, hst, -, hL, hns, -⟩ := h.pool_held_live hc
  have heq := lws_release_state_eq o s.w c a st ha hst hns
  refine ⟨{ w := _, held := s.held.erase c }, by simp only [step_intact, heq]; rfl, ?_⟩
  split_ifs with hcl
  · exact h.pool_unbind_keeps hc ha _ none (by simp [close_state_at]) (by simp)
      (by simp [close_state_at]) (by simp [close_state_at]) (by simp [close_state_at])
  · obtain ⟨f1, -, -, -, f5, -⟩ := release_record_fields o s.w.llcf s.w.monitor.isSome
      s.w.ngx_current_msec { st with request_count := st.request_count + 1 }
    refine h.pool_unbind_keeps hc ha _ (some _) rfl ?_ (by simp) (by simp) (by simp)
    intro st1 e
    cases e
    exact ⟨f1, fun hn => hL (f5.mp hn)⟩

theorem Pool.pool_run {s : Sys} (h : Pool s) (c : Nat) (o : RunOracle) (hc : c ∈ s.held) :
    ∃ s1, step_intact s (.run c o) = some s1 ∧ Pool s1 := by
  obtain ⟨a, st, ha, hst, -, hL, -, -⟩ := h.pool_held_live hc
  obtain ⟨L, hL1⟩ := Option.ne_none_iff_exists'.mp hL
  obtain ⟨r, w1, st1, hrun, g1, g2, g3, g4, -, -, g7, g8, -⟩ :=
    lws_run_state_cases o s.w c a st L ha hst hL1
  refine ⟨{ w := w1, held := s.held }, by simp only [step_intact, hrun], ?_⟩
  exact h.pool_modify w1 hst g7 g8 g1 (by rw [g3]) g2 g4

theorem Pool.pool_evict_keeps {s : Sys} (h : Pool s) {a : Nat} {st : State}
    (hst : s.w.heap a = some st) (hin : st.in_use = false) (w1 : World)
    (hheap : w1.heap = Function.update s.w.heap a none)
    (hstates : w1.llcf.states = s.w.llcf.states.erase a)
    (hctx : w1.ctx = s.w.ctx) (hbrk : w1.brk = s.w.brk) :
    Pool { w := w1, held := s.held } := by
  constructor
  · have hv := h.1.expel (a := a) (by simp [Sys.view, hst, hin])
    refine hv.of_fields ?_ hstates ?_ rfl hbrk
    · intro x
      simp only [Sys.view, hheap]
      by_cases e : x = a
      · subst e; simp
      · simp [Function.update_noteq e]
    · intro x; simp [Sys.view, hctx]
  · intro x sx hx
    simp only [hheap] at hx
    by_cases e : x = a
    · subst e; simp at hx
    · simp only [Function.update_noteq e] at hx; exact h.2 x sx hx

theorem Pool.pool_timer {s : Sys} (h : Pool s) (a : Nat) {s1 : Sys}
    (hstep : step_intact s (.timer a) = some s1) : Pool s1 := by
  simp only [step_intact] at hstep
  cases hst : s.w.heap a with
  | none => simp [ngx_event_expire_timer, hst] at hstep
  | some st =>
    cases hset : st.tev.timer_set with
    | false => simp [ngx_event_expire_timer, hst, hset] at hstep
    | true =>
      cases hin : st.in_use with
      | false =>
        by_cases hm : a ∈ s.w.llcf.states
        · rw [ngx_event_expire_timer_idle s.w a st hst hset hin hm] at hstep
          simp only [Option.some.injEq] at hstep
          subst hstep
          exact h.pool_evict_keeps hst hin _ (by simp [close_state_at]) (by simp [close_state_at])
            (by simp [close_state_at]) (by simp [close_state_at])
        · simp [ngx_event_expire_timer, hst, hset, lws_state_timer_handler, hin,
            ngx_queue_remove, hm] at hstep
      | true =>
        rw [ngx_event_expire_timer_in_use s.w a st hst hset hin] at hstep
        simp only [Option.some.injEq] at hstep
        subst hstep
        exact @Pool.pool_modify s h a st
          { st with tev := { st.tev with timer_set := false, timedout := true } }
          _ hst rfl (h.2 a st hst) rfl rfl (fun _ => rfl) rfl

/-- An event of callers that run and release only on a holding context keeps
the pool well-formed. -/
theorem Pool.pool_step_keeps {s s1 : Sys} (h : Pool s) (e : Event)
    (hd : release_on_held s e = true) (hstep : step_intact s e = some s1) : Pool s1 := by
  cases e with
  | acquire c o =>
    obtain ⟨s2, h2, hi⟩ := h.pool_acquire c o
    rw [h2] at hstep; cases hstep; exact hi
  | run c o =>
    obtain ⟨s2, h2, hi⟩ := h.pool_run c o (by simpa [release_on_held] using hd)
    rw [h2] at hstep; cases hstep; exact hi
  | release c o =>
    obtain ⟨s2, h2, hi⟩ := h.pool_release c o (by simpa [release_on_held] using hd)
    rw [h2] at hstep; cases hstep; exact hi
  | timer a => exact h.pool_timer a hstep
  | tick now =>
    simp only [step_intact, Option.some.injEq] at hstep
    subst hstep
    exact h.pool_same _ (fun _ => rfl) rfl (fun _ => rfl) (le_refl _)

theorem Pool.pool_at_start (conf : LocConf) (monitor : Option Monitor) (now : Nat) :
    Pool (Sys.init conf monitor now) := by
  constructor
  · constructor <;> simp [Sys.init, Sys.view]
  · intro a st hst
    simp [Sys.init] at hst

/-- Every pool reached from the start of the worker by callers that run and
release only on a holding context is well-formed. -/
theorem Pool.pool_exec_keeps {s s1 : Sys} (h : Pool s) (es : List Event)
    (hex : exec release_on_held s es = some s1) : Pool s1 := by
  induction es generalizing s with
  | nil => simp only [exec, Option.some.injEq] at hex; subst hex; exact h
  | cons e es ih =>
    simp only [exec] at hex
    split_ifs at hex with hd
    cases hs : step s e with
    | none => rw [hs] at hex; cases hex
    | some s2 =>
      rw [hs] at hex
      exact ih (h.pool_step_keeps e hd (step_intact_of_step hs)) hex

/-! ## Timers of destroyed states -/

/-- The timer a destroyed state leaves behind, in the model: with a maximum
lifetime configured, the state created for context 0 has its timer set; after
a failing run the release destroys the state, the timer stays registered, and
the next acquire, which would register the timer of a new state in the same
tree, has no defined outcome. -/
theorem closing_release_leaves_timer_registered :
    ∃ s w1 w2,
      exec release_on_held (Sys.init demo_conf_lifetime none 0) [.acquire 0 demo_create] =
        some s ∧
      lws_run_state demo_run_fails s.w 0 = some (-1, w1) ∧
      lws_release_state demo_release w1 0 = some w2 ∧ w2.heap 1 = none ∧
      w2.llcf.states = [] ∧ w2.dangling = [1] ∧
      step { w := w2, held := [] } (.acquire 0 demo_create) = none :=
  ⟨_, _, _, rfl, rfl, rfl, rfl, rfl, rfl, rfl⟩

/-! ## A failed run closes the state (C4) -/

/-- An event of callers that run and release only on a holding context keeps
the idle states free of the close flag: only `lws_run_state` sets it, on the
state of a holding context, which is in use. -/
theorem CloseInv.close_step_keeps {s s1 : Sys} (h : CloseInv s.w) (hp : Pool s) (e : Event)
    (hd : release_on_held s e = true) (hstep : step_intact s e = some s1) : CloseInv s1.w := by
  intro a st1 h1 hidle
  rcases step_record hstep h1 with hsame | ⟨c, o, st, p, -, hst, -, rfl⟩ |
    ⟨c, o, st0, L0, L, p, -, -, -, -, rfl, -⟩ | ⟨c, o, st, L, rfl, hc, hst, hL, hrec⟩ |
    ⟨c, o, st, -, -, hst, hcl, -, rfl⟩ | ⟨st, -, hst, hin, -, rfl⟩
  · exact h a st1 hsame hidle
  · cases hidle
  · cases hidle
  · have hheld : c ∈ s.held := by simpa [release_on_held] using hd
    obtain ⟨a1, st2, ha1, hst2, hin2, -⟩ := hp.pool_held_live hheld
    rw [hc] at ha1
    cases ha1
    rw [hst] at hst2
    cases hst2
    rcases hrec with rfl | rfl
    · rw [show ({ lua_allocs L.checked st o.allocs with L := some L } : State).in_use = st.in_use
        from lua_allocs_in_use _ _ _, hin2] at hidle
      cases hidle
    · rw [show ({ lua_allocs L.checked st o.allocs with L := some L, close := true } :
        State).in_use = st.in_use from lua_allocs_in_use _ _ _, hin2] at hidle
      cases hidle
  · rw [(release_record_fields o s.w.llcf s.w.monitor.isSome s.w.ngx_current_msec
      { st with request_count := st.request_count + 1 }).2.1]
    exact (release_closes_false_iff _ _ hcl).1
  · rw [show ({ st with tev := { st.tev with timer_set := false, timedout := true } } :
      State).in_use = st.in_use from rfl, hin] at hidle
    cases hidle

theorem CloseInv.close_exec_keeps {s s1 : Sys} (h : CloseInv s.w) (hp : Pool s)
    (es : List Event) (hex : exec release_on_held s es = some s1) : CloseInv s1.w := by
  induction es generalizing s with
  | nil => simp only [exec, Option.some.injEq] at hex; subst hex; exact h
  | cons e es ih =>
    simp only [exec] at hex
    split_ifs at hex with hd
    cases hs : step s e with
    | none => rw [hs] at hex; cases hex
    | some s2 =>
      rw [hs] at hex
      have hi := step_intact_of_step hs
      exact ih (h.close_step_keeps hp e hd hi) (hp.pool_step_keeps e hd hi) hex

/-- C18, as stated for every configuration reachable through the four
functions, fails: `lws_release_state` leaves `ctx->state` as it is, so after
acquire and release on context 0 a failing `lws_run_state` on the same context
sets the close flag of the state at 1, which is idle on the free list; the
next `lws_acquire_state` hands out this state, due for closure. And with at
most 2 requests per state, a second release on context 0 destroys the state at
1 and leaves it on the free list. -/
theorem free_list_member_due_for_closure :
    (∃ s st w1 st1,
      exec any_event (Sys.init demo_conf_unlimited none 0)
        [.acquire 0 demo_create, .release 0 demo_release, .run 0 demo_run_fails] = some s ∧
      s.w.llcf.states = [1] ∧ s.w.heap 1 = some st ∧ st.in_use = false ∧ st.close = true ∧
      lws_acquire_state demo_create s.w 5 = some (0, w1) ∧ (w1.ctx 5).state = some 1 ∧
      w1.heap 1 = some st1 ∧ st1.in_use = true ∧ st1.close = true ∧
      release_closes w1.llcf { st1 with request_count := st1.request_count + 1 } = true) ∧
    (∃ s,
      exec any_event (Sys.init { demo_conf_two with state_timeout := 0 } none 0)
        [.acquire 0 demo_create, .release 0 demo_release, .release 0 demo_release] = some s ∧
      s.w.llcf.states = [1] ∧ s.w.heap 1 = none) :=
  ⟨⟨_, _, _, _, rfl, rfl, rfl, rfl, rfl, rfl, rfl, rfl, rfl, rfl, rfl⟩, ⟨_, rfl, rfl, rfl⟩⟩

/-- C18, amended: in every configuration reached from the start of a worker
through acquire, run, release, timer expiry and clock ticks, the callers
running and releasing only on a context that holds a state (acquired and not
yet released), every member of the free list is a live state with
`in_use = 0`, `close = 0`, `tev.timedout = 0` and, when
`state_requests_max > 0`, `request_count < state_requests_max`. So the state a
successful `lws_acquire_state` hands out, popped or created, meets none of the
closure conditions of `lws_release_state` at that moment. -/
theorem free_list_health (conf : LocConf) (monitor : Option Monitor) (now : Nat)
    (es : List Event) (s : Sys)
    (hex : exec release_on_held (Sys.init conf monitor now) es = some s) :
    (∀ a ∈ s.w.llcf.states, ∃ st, s.w.heap a = some st ∧ st.in_use = false ∧
      st.close = false ∧ st.tev.timedout = false ∧
      (0 < s.w.llcf.state_requests_max → st.request_count < s.w.llcf.state_requests_max)) ∧
    (∀ (o : CreateOracle) (c : Nat) (w1 : World), lws_acquire_state o s.w c = some (0, w1) →
      ∃ a st1, (w1.ctx c).state = some a ∧ w1.heap a = some st1 ∧ st1.in_use = true ∧
        st1.close = false ∧ st1.tev.timedout = false ∧
        (0 < s.w.llcf.state_requests_max →
          st1.request_count < s.w.llcf.state_requests_max)) := by
  have hp : Pool s := (Pool.pool_at_start conf monitor now).pool_exec_keeps es hex
  have hclose : CloseInv s.w := by
    refine CloseInv.close_exec_keeps ?_ (Pool.pool_at_start conf monitor now) es hex
    intro a st hst
    simp [Sys.init] at hst
  have ht := (TimerInv.timer_at_start conf monitor now).timer_exec_keeps _ es hex
  have hcnt := (CountInv.count_at_start conf monitor now).count_exec_keeps _ es hex
  have hfree : ∀ a ∈ s.w.llcf.states, ∃ st, s.w.heap a = some st ∧ st.in_use = false ∧
      st.close = false ∧ st.tev.timedout = false ∧
      (0 < s.w.llcf.state_requests_max →
        st.request_count < s.w.llcf.state_requests_max) := by
    intro a ha
    obtain ⟨st, hst, hin⟩ := hp.pool_free_live ha
    refine ⟨st, hst, hin, hclose a st hst hin, (ht.2.2 a st hst).idle_not_fired hin, fun hN => ?_⟩
    rw [hcnt.2.2] at hN ⊢
    exact (hcnt.1 a st hst).2.2 hN
  refine ⟨hfree, ?_⟩
  intro o c w1 hacq
  cases hq : s.w.llcf.states with
  | cons q rest =>
    obtain ⟨st, hst, f1, f2, f3, f4⟩ := hfree q (by rw [hq]; exact List.mem_cons_self _ _)
    rw [lws_acquire_state_pop o s.w c q rest st hq hst] at hacq
    simp only [Option.some.injEq, Prod.mk.injEq, true_and] at hacq
    subst hacq
    obtain ⟨-, g2, g3, -, -, g6, -⟩ := acquire_disarm_fields s.w.ngx_current_msec
      s.w.llcf.state_timeout st
    refine ⟨q, _, by simp [acquire_bind], Function.update_same _ _ _, rfl, g2.trans f2,
      g6.trans f3, fun hN => ?_⟩
    show (acquire_disarm _ _ st).request_count < _
    rw [g3]
    exact f4 hN
  | nil =>
    rcases lws_acquire_state_create o s.w c hq with ⟨w2, -, h2⟩ |
      ⟨st, -, h2, k1, -, k3, k4, k5, -⟩
    · rw [h2] at hacq
      simp at hacq
    · rw [h2] at hacq
      simp only [Option.some.injEq, Prod.mk.injEq, true_and] at hacq
      subst hacq
      refine ⟨s.w.brk, _, by simp [acquire_bind], Function.update_same _ _ _, rfl, k4, k5,
        fun hN => ?_⟩
      show st.request_count < _
      rw [k3]
      exact hN

/-- Witness of C18 amended: after three acquires and the releases of the
contexts 0 and 1, the free list holds the states at 2 and 1, both live, idle,
not marked for closure, not timed out, with one request out of at most three;
the next acquire hands out the state at 2. -/
theorem free_list_health_witness :
    (demo_sys demo_conf [.acquire 0 demo_create, .acquire 1 demo_create,
      .acquire 2 demo_create, .release 0 demo_release, .release 1 demo_release]).w.llcf.states =
      [2, 1] ∧
    (∃ st, (demo_sys demo_conf [.acquire 0 demo_create, .acquire 1 demo_create,
        .acquire 2 demo_create, .release 0 demo_release, .release 1 demo_release]).w.heap 2 =
        some st ∧ st.in_use = false ∧ st.close = false ∧ st.tev.timedout = false ∧
      st.request_count < 3) ∧
    ∃ w1 st1, lws_acquire_state demo_create (demo_sys demo_conf [.acquire 0 demo_create,
        .acquire 1 demo_create, .acquire 2 demo_create, .release 0 demo_release,
        .release 1 demo_release]).w 0 = some (0, w1) ∧
      (w1.ctx 0).state = some 2 ∧ w1.heap 2 = some st1 ∧ st1.close = false := by
  obtain ⟨h1, h2⟩ := free_list_health demo_conf none 0
    [.acquire 0 demo_create, .acquire 1 demo_create, .acquire 2 demo_create,
      .release 0 demo_release, .release 1 demo_release] _ rfl
  obtain ⟨st, g1, g2, g3, g4, g5⟩ := h1 2 (by decide)
  obtain ⟨a, st1, k1, k2, -, k4, -⟩ := h2 demo_create 0 _ rfl
  have ha : a = 2 := (Option.some.inj k1).symm
  subst ha
  exact ⟨rfl, ⟨st, g1, g2, g3, g4, g5 (by decide)⟩, _, st1, rfl, k1, k2, k4⟩

end Lws
